import Mathlib

/-
  Verification development for the DD2977 DRAW parsing engine
  (backend/app/services/parse_draw.py).

  The Python source is shallowly embedded: each Python function is
  translated into a total, executable Lean definition over String /
  List Char, with regular-expression operations hand-compiled into
  deterministic scanning functions (the determinism of each scan is
  justified by the backtracking analysis recorded in the comments).
  Machine floats only occur through Python's float() applied to short
  decimal token strings; they are modelled exactly by rationals.
-/

namespace ParseDraw

/-! ## Python string primitives -/

/-- Whitespace characters recognised by Python's `str.strip()` and by the
regex class `\s` (ASCII range; the inputs handled by the parser are ASCII). -/
def pyWsChars : List Char := [' ', '\t', '\n', '\r', '\x0b', '\x0c']

def isPyWs (c : Char) : Bool := pyWsChars.contains c

/-- `dropWhile` never lengthens a list (used for termination of the scanners). -/
theorem lengthDropWhileLe {α : Type} (p : α → Bool) :
    ∀ l : List α, (l.dropWhile p).length ≤ l.length
  | [] => Nat.le_refl _
  | a :: l => by
    rw [List.dropWhile_cons]
    split
    · exact Nat.le_succ_of_le (lengthDropWhileLe p l)
    · exact Nat.le_refl _

/-- `str.strip()` on a character list. -/
def stripList (l : List Char) : List Char :=
  ((l.dropWhile isPyWs).reverse.dropWhile isPyWs).reverse

/-- Python `s.strip()`. -/
def pyStrip (s : String) : String := String.mk (stripList s.toList)

/-- Python `s.upper()` (ASCII). -/
def pyUpper (s : String) : String := String.mk (s.toList.map Char.toUpper)

/-- Python `s.lower()` (ASCII). -/
def pyLower (s : String) : String := String.mk (s.toList.map Char.toLower)

/-- Python `s.strip(chars)`: drop the given characters from both ends. -/
def pyStripChars (cs : List Char) (s : String) : String :=
  String.mk (((s.toList.dropWhile cs.contains).reverse.dropWhile cs.contains).reverse)

/-- Python `s.lstrip(chars)`. -/
def pyLStripChars (cs : List Char) (s : String) : String :=
  String.mk (s.toList.dropWhile cs.contains)

/-- State machine compiling `re.sub(r"[C]+", rep, s)` for a character class:
every run of class characters becomes one `rep` (`inRun` records being
inside a run). -/
def collapseClassAux (cls : Char → Bool) (rep : Char) : Bool → List Char → List Char
  | _, [] => []
  | inRun, c :: cs =>
    if cls c then
      if inRun then collapseClassAux cls rep true cs
      else rep :: collapseClassAux cls rep true cs
    else c :: collapseClassAux cls rep false cs

/-- `re.sub(r"\s+", " ", s)`: every run of whitespace becomes one space. -/
def collapseWs (s : String) : String := String.mk (collapseClassAux isPyWs ' ' false s.toList)

/-- Replace every run of characters from the class `cls` by one space
(`re.sub(r"[,/]+", " ", s)` and relatives). -/
def collapseClassToSpace (cls : Char → Bool) (s : String) : String :=
  String.mk (collapseClassAux cls ' ' false s.toList)

def collapseClassToCharList (cls : Char → Bool) (rep : Char) (l : List Char) : List Char :=
  collapseClassAux cls rep false l

/-- Split into the maximal non-empty segments separated by characters of the
class `cls` (accumulator-based).  This is Python
`[t for t in re.split(r"[C]+", s) if t]`, and for `cls = isPyWs` it is
Python `s.split()`. -/
def splitClassAux (cls : Char → Bool) : List Char → List Char → List (List Char)
  | acc, [] => if acc.isEmpty then [] else [acc.reverse]
  | acc, c :: cs =>
    if cls c then
      if acc.isEmpty then splitClassAux cls [] cs
      else acc.reverse :: splitClassAux cls [] cs
    else splitClassAux cls (c :: acc) cs

def splitClass (cls : Char → Bool) (s : String) : List String :=
  (splitClassAux cls [] s.toList).map String.mk

/-- Python `s.split()` (split on whitespace runs, no empty parts). -/
def pyWords (s : String) : List String := splitClass isPyWs s

/-- Python `s.split('\n')` (keeps empty parts). -/
def splitNlAux : List Char → List Char → List String
  | acc, [] => [String.mk acc.reverse]
  | acc, c :: cs =>
    if c == '\n' then String.mk acc.reverse :: splitNlAux [] cs
    else splitNlAux (c :: acc) cs

def splitNl (s : String) : List String := splitNlAux [] s.toList

/-- Python `s.startswith(pre)`. -/
def pyStartsWith (s pre : String) : Bool := pre.toList.isPrefixOf s.toList

/-- Python `s.endswith(c)` for a single character. -/
def pyEndsWithChar (s : String) (c : Char) : Bool := s.toList.getLast? == some c

/-- Python `s.splitlines()` for the line boundaries `\n`, `\r\n`, `\r`,
`\x0b`, `\x0c` (the exotic unicode boundaries cannot appear in the parser's
normalised input). -/
def pySplitLinesList : Bool → List Char → List Char → List (List Char)
  | _, acc, [] => if acc.isEmpty then [] else [acc.reverse]
  | lastCR, acc, c :: rest =>
    if c == '\n' then
      if lastCR then pySplitLinesList false acc rest
      else acc.reverse :: pySplitLinesList false [] rest
    else if c == '\r' then acc.reverse :: pySplitLinesList true [] rest
    else if c == '\x0b' || c == '\x0c' then acc.reverse :: pySplitLinesList false [] rest
    else pySplitLinesList false (c :: acc) rest

def pySplitLines (s : String) : List String :=
  (pySplitLinesList false [] s.toList).map String.mk

/-- Substring containment, Python `pat in s`. -/
def listContainsSub (hay pat : List Char) : Bool :=
  pat.isPrefixOf hay ||
    match hay with
    | [] => false
    | _ :: t => listContainsSub t pat

def strContains (s pat : String) : Bool := listContainsSub s.toList pat.toList

/-- Case-insensitive prefix test (ASCII), for regexes compiled with `re.I`. -/
def ciPrefix : List Char → List Char → Bool
  | [], _ => true
  | _ :: _, [] => false
  | p :: ps, c :: cs => (p.toUpper == c.toUpper) && ciPrefix ps cs

/-- Index of the first case-insensitive occurrence of `pat` in `hay`. -/
def findCIAux (pat : List Char) : List Char → Nat → Option Nat
  | hay, i =>
    if ciPrefix pat hay then some i
    else match hay with
      | [] => none
      | _ :: t => findCIAux pat t (i + 1)

def findCI (hay pat : List Char) : Option Nat := findCIAux pat hay 0

/-- Python truthiness of an optional string (`None` and `""` are falsy). -/
def pyTruthyOS : Option String → Bool
  | none => false
  | some s => s ≠ ""

/-! ## The generic XML-derived value tree

`_xml_node_to_obj` produces nested Python values built from strings, dicts
and lists only, so the model needs exactly those constructors (the numeric
branch of `_coerce_to_string` is unreachable from this tree and is noted in
its doc comment). -/

inductive PyVal where
  | vnone : PyVal
  | vstr : String → PyVal
  | vlist : List PyVal → PyVal
  | vdict : List (String × PyVal) → PyVal
  deriving Repr, Inhabited

namespace PyVal

/-- Python truthiness: `None`, `""`, `[]`, `` empty dict `` are falsy. -/
def truthy : PyVal → Bool
  | vnone => false
  | vstr s => s ≠ ""
  | vlist l => !l.isEmpty
  | vdict l => !l.isEmpty

/-- Python `a or b`. -/
def pyOr (a b : PyVal) : PyVal := if a.truthy then a else b

def isDict : PyVal → Bool
  | vdict _ => true
  | _ => false

/-- Python `d.get(k)` with default `None` (dict keys produced by
`_xml_node_to_obj` are unique; lookup takes the first binding). -/
def get : PyVal → String → PyVal
  | vdict l, k => (l.find? (fun p => p.1 == k)).elim vnone Prod.snd
  | _, _ => vnone

end PyVal

/-- `_coerce_to_string`: best-effort conversion of nested XML-derived values
into a trimmed string.  The `int`/`float` branch of the Python function is
dead for values coming from `_xml_node_to_obj` (all leaves are strings), so
the model has no numeric constructor. -/
def _coerce_to_string : PyVal → Option String
  | .vnone => none
  | .vstr s => let c := pyStrip s; if c = "" then none else some c
  | .vdict l => coerceDictAux l
  | .vlist l => coerceListAux l
where
  coerceDictAux : List (String × PyVal) → Option String
    | [] => none
    | (_, v) :: rest =>
      match _coerce_to_string v with
      | some r => if r ≠ "" then some r else coerceDictAux rest
      | none => coerceDictAux rest
  coerceListAux : List PyVal → Option String
    | [] => none
    | v :: rest =>
      match _coerce_to_string v with
      | some r => if r ≠ "" then some r else coerceListAux rest
      | none => coerceListAux rest

/-- Word-form risk mapping of `_normalize_risk_level` (dict literal order). -/
def riskWordMapping : List (String × String) :=
  [("EXTREMELY HIGH", "EH"), ("VERY HIGH", "H"), ("HIGH", "H"), ("MEDIUM", "M"),
   ("MED", "M"), ("LOW", "L"), ("MODERATE", "M"), ("NEGLIGIBLE", "L")]

/-- Legacy numeric risk mapping of `_normalize_risk_level`. -/
def riskNumericMap : List (String × String) :=
  [("0", "L"), ("1", "M"), ("2", "H"), ("3", "EH")]

/-- `_normalize_risk_level`: normalize risk wording or numeric codes into
canonical short forms, returning the trimmed original when unrecognized. -/
def _normalize_risk_level (value : PyVal) : Option String :=
  match _coerce_to_string value with
  | none => none
  | some raw =>
    let rawUpper := pyUpper raw
    match riskWordMapping.find? (fun p => p.1 == rawUpper) with
    | some p => some p.2
    | none =>
      match riskNumericMap.find? (fun p => p.1 == raw) with
      | some p => some p.2
      | none =>
        if rawUpper ∈ ["EH", "H", "M", "L"] then some rawUpper
        else some raw

/-- `_is_marked`: whether an XFA checkbox-like field is marked. -/
def _is_marked (value : PyVal) : Bool :=
  match _coerce_to_string value with
  | none => false
  | some raw => pyLower (pyStrip raw) ∈ ["1", "x", "true", "checked", "yes", "on"]

/-- `_split_multiline`: split bullet-style content into clean lines.  The
split `re.split(r"[\r\n]+", text)` produces the maximal segments between
newline runs; empty fragments are dropped afterwards either way. -/
def _split_multiline : Option String → List String
  | none => []
  | some text =>
    if text = "" then [] else
    (splitClass (fun c => c == '\r' || c == '\n') text).filterMap fun part =>
      let fragment := pyStrip part
      if fragment = "" then none
      else
        -- re.sub(r"^[•*\-]+\s*", "", fragment)
        let l := fragment.toList
        let l :=
          if l.headD ' ' ∈ ['•', '*', '-'] then
            (l.dropWhile (fun c => c ∈ ['•', '*', '-'])).dropWhile isPyWs
          else l
        let fragment := collapseWs (String.mk l)
        if fragment = "" then none else some fragment

/-! ## `calculate_overall_risk` -/

/-- Severity order of `calculate_overall_risk` (`risk_order` dict). -/
def risk_order : List (String × Nat) := [("EH", 4), ("H", 3), ("M", 2), ("L", 1)]

def riskOrderOf (s : String) : Nat := ((risk_order.find? (fun p => p.1 == s)).elim 0 Prod.snd)

def isCanonicalRisk (s : String) : Bool := (risk_order.find? (fun p => p.1 == s)).isSome

/-- Decimal digit run parser: value and count of consumed digits. -/
def parseDigitsAux : List Char → Nat → Nat → (Nat × Nat × List Char)
  | [], v, n => (v, n, [])
  | c :: cs, v, n =>
    if c.isDigit then parseDigitsAux cs (v * 10 + (c.toNat - 48)) (n + 1)
    else (v, n, c :: cs)

def parseDigits (l : List Char) : Nat × Nat × List Char := parseDigitsAux l 0 0

/-- A CPython `float` value: a finite binary64 value (held exactly as a
rational), a signed infinity (`true` = negative), or a NaN. -/
inductive PyFloat where
  | finite : Rat → PyFloat
  | inf : Bool → PyFloat
  | nan : PyFloat
  deriving Repr, DecidableEq

/-- 2^k for an integer k, as a rational. -/
def ratPow2 : Int → Rat
  | .ofNat n => (2 : Rat) ^ n
  | .negSucc n => ((2 : Rat) ^ (n + 1))⁻¹

/-- 10^k for an integer k, as a rational. -/
def ratPow10 : Int → Rat
  | .ofNat n => (10 : Rat) ^ n
  | .negSucc n => ((10 : Rat) ^ (n + 1))⁻¹

/-- Least `k` with `q < 2^k` (fuel-driven search; the fuel only bounds the
iteration count). -/
def pow2AboveAux : Nat → Rat → Rat → Nat → Nat
  | 0, _, _, k => k
  | fuel + 1, q, acc, k => if q < acc then k else pow2AboveAux fuel q (2 * acc) (k + 1)

/-- Least `k` with `1 ≤ q * 2^k` (fuel-driven search). -/
def pow2BelowAux : Nat → Rat → Rat → Nat → Nat
  | 0, _, _, k => k
  | fuel + 1, q, acc, k => if 1 ≤ q * acc then k else pow2BelowAux fuel q (2 * acc) (k + 1)

/-- Round a rational to the nearest integer, ties to even. -/
def roundHalfEven (x : Rat) : Int :=
  let n := x.floor
  let frac := x - (n : Rat)
  if frac < 1 / 2 then n
  else if 1 / 2 < frac then n + 1
  else if n % 2 = 0 then n else n + 1

/-- Round a positive rational to the nearest IEEE binary64 value (round to
nearest, ties to even), overflowing to infinity and underflowing through
the subnormal range to zero — the value `float()` produces for a decimal
literal. -/
def roundPosF64 (q : Rat) : PyFloat :=
  let e : Int :=
    if 1 ≤ q then (pow2AboveAux (q.num.natAbs + 2) q 1 0 : Int) - 1
    else -(pow2BelowAux (q.den + 2) q 1 0 : Int)
  if e < -1022 then
    -- subnormal range: fixed quantum 2^(-1074); rounding to zero models underflow
    .finite ((roundHalfEven (q * ratPow2 1074) : Rat) * ratPow2 (-1074))
  else
    let m := roundHalfEven (q * ratPow2 (52 - e))
    -- a round-up to 2^53 = 9007199254740992 carries into the next binade
    -- (the literals keep the definition kernel-computable)
    let p := if m = 9007199254740992 then ((4503599627370496 : Int), e + 1) else (m, e)
    if 1023 < p.2 then .inf false
    else .finite ((p.1 : Rat) * ratPow2 (p.2 - 52))

/-- Round and sign a finite decimal literal value. -/
def signedF64 (neg : Bool) (q : Rat) : PyFloat :=
  if q = 0 then .finite 0
  else
    match roundPosF64 q with
    | .finite r => .finite (if neg then -r else r)
    | .inf _ => .inf neg
    | .nan => .nan

/-- PEP 515: an underscore is legal only directly between two digits. -/
def underscoresOKAux : Option Char → List Char → Bool
  | _, [] => true
  | prev, c :: rest =>
    if c == '_' then
      (match prev with
       | some p => p.isDigit
       | none => false) &&
      (match rest with
       | r :: _ => r.isDigit
       | [] => false) &&
      underscoresOKAux (some c) rest
    else underscoresOKAux (some c) rest

/-- Case-insensitive whole-list comparison with an uppercase word. -/
def ciWord (l : List Char) (w : String) : Bool := l.map Char.toUpper == w.toList

/-- The sign / `inf` / `infinity` / `nan` / decimal-literal grammar of
CPython `float` after whitespace stripping and underscore removal (the sign
of a NaN is unobservable through comparison or `int()` and is dropped). -/
def pyFloatCore (l : List Char) : Option PyFloat :=
  let (neg, l) :=
    match l with
    | '-' :: rest => (true, rest)
    | '+' :: rest => (false, rest)
    | _ => (false, l)
  if ciWord l "INF" || ciWord l "INFINITY" then some (.inf neg)
  else if ciWord l "NAN" then some .nan
  else
    let (ipart, icount, l1) := parseDigits l
    let (fpart, fcount, l2) :=
      match l1 with
      | '.' :: rest => parseDigits rest
      | _ => (0, 0, l1)
    if icount + fcount = 0 then none
    else
      let mant : Nat := ipart * 10 ^ fcount + fpart
      match l2 with
      | [] => some (signedF64 neg ((mant : Rat) * ratPow10 (-(fcount : Int))))
      | e :: rest =>
        if e == 'e' || e == 'E' then
          let (eneg, rest2) :=
            match rest with
            | '-' :: r => (true, r)
            | '+' :: r => (false, r)
            | _ => (false, rest)
          let (edigits, ecount, rest3) := parseDigits rest2
          if ecount = 0 || !rest3.isEmpty then none
          else
            let ex : Int := (if eneg then -(edigits : Int) else (edigits : Int)) - (fcount : Int)
            some (signedF64 neg ((mant : Rat) * ratPow10 ex))
        else none

/-- Python `float(s)`: strip surrounding whitespace, validate and remove
digit-group underscores, then parse a sign, an `inf`/`infinity`/`nan` word
or a decimal literal, and round the exact decimal value to binary64.  Exact
for ASCII strings (CPython's transformation of non-ASCII decimal digits and
spaces is not modelled). -/
def pyFloat? (s : String) : Option PyFloat :=
  let l := stripList s.toList
  if underscoresOKAux none l then pyFloatCore (l.filter (fun c => !(c == '_')))
  else none

/-- Python `int(x)` on a finite float: truncation toward zero. -/
def pyTruncInt (q : Rat) : Int := if q < 0 then -((-q).floor) else q.floor

/-- Python `max(xs, key=f)` on a non-empty list: the first element with the
maximal key (a strictly greater key replaces the current best). -/
def pyMaxByAux (f : String → Nat) : String → List String → String
  | best, [] => best
  | best, x :: xs => pyMaxByAux f (if f x > f best then x else best) xs

def pyMaxBy (f : String → Nat) (x : String) (xs : List String) : String := pyMaxByAux f x xs

/-- IEEE `>` as Python's `max` uses it: every comparison involving a NaN is
false. -/
def pyFloatGt : PyFloat → PyFloat → Bool
  | .nan, _ => false
  | _, .nan => false
  | .inf false, .inf false => false
  | .inf false, _ => true
  | .inf true, _ => false
  | .finite _, .inf false => false
  | .finite _, .inf true => true
  | .finite q, .finite p => p < q

/-- Python `max` on a non-empty float list: a strictly greater (`>`) element
replaces the running best, so a NaN never replaces nor beats a best. -/
def pyFloatMaxAux : PyFloat → List PyFloat → PyFloat
  | best, [] => best
  | best, x :: xs => pyFloatMaxAux (if pyFloatGt x best then x else best) xs

/-- The cleaned risk list of `calculate_overall_risk`:
`[r.strip().upper() for r in residual_risks if r and r.strip()]`. -/
def cleanRisks (residual_risks : List (Option String)) : List String :=
  residual_risks.filterMap fun r =>
    match r with
    | none => none
    | some s => if s ≠ "" ∧ pyStrip s ≠ "" then some (pyUpper (pyStrip s)) else none

/-- `calculate_overall_risk`: overall residual risk from individual residual
risks.  `str(int(max(numeric_risks)))` sits outside the per-element
`try/except`, so `int()` raises `OverflowError` on an infinite maximum and
`ValueError` on a NaN maximum: the `.error` case. -/
def calculate_overall_risk (residual_risks : List (Option String)) :
    Except Unit (Option String) :=
  if residual_risks.isEmpty then .ok none
  else
    let clean := cleanRisks residual_risks
    let categorical := clean.filter isCanonicalRisk
    match categorical with
    | c :: cs => .ok (some (pyMaxBy riskOrderOf c cs))
    | [] =>
      let numeric := clean.filterMap pyFloat?
      match numeric with
      | f :: fs =>
        match pyFloatMaxAux f fs with
        | .finite q => .ok (some (toString (pyTruncInt q)))
        | .inf _ => .error ()
        | .nan => .error ()
      | [] => .ok none

deriving instance DecidableEq for Except

/-! ## The canonical record (`get_dd2977_template` / `get_subtask_template`)

The JSON nesting of the Python dicts is flattened into Lean structures:
`subtask.name` becomes `name`, `control.values` becomes `control_values`,
`how_to_implement.how.values` / `...who.values` become `how_values` /
`who_values`, and the two approval checkboxes become the `approve` /
`disapprove` fields. -/

structure SubtaskRow where
  name : Option String
  hazard : Option String
  initial_risk_level : Option String
  control_values : List String
  how_values : List String
  who_values : List String
  residual_risk_level : Option String
  deriving Repr, DecidableEq, Inhabited

/-- `get_subtask_template`: base structure for a subtask row. -/
def get_subtask_template : SubtaskRow :=
  { name := none, hazard := none, initial_risk_level := none,
    control_values := [], how_values := [], who_values := [],
    residual_risk_level := none }

structure PreparedBy where
  name_last_first_middle_initial : Option String
  rank_grade : Option String
  duty_title_position : Option String
  unit : Option String
  work_email : Option String
  telephone : Option String
  uic_cin : Option String
  training_support_or_lesson_plan_or_opord : Option String
  signature_of_preparer : Option String
  deriving Repr, DecidableEq, Inhabited

structure DD2977Record where
  mission_task_and_description : Option String
  date : Option String
  prepared_by : PreparedBy
  subtasks : List SubtaskRow
  overall_residual_risk_level : Option String
  overall_supervision_plan : Option String
  approve : Nat
  disapprove : Nat
  deriving Repr, DecidableEq, Inhabited

/-- `get_dd2977_template`: base structure with all fields initialized. -/
def get_dd2977_template : DD2977Record :=
  { mission_task_and_description := none, date := none,
    prepared_by := ⟨none, none, none, none, none, none, none, none, none⟩,
    subtasks := [], overall_residual_risk_level := none,
    overall_supervision_plan := none, approve := 0, disapprove := 0 }

/-! ## `parse_dd2977_xfa`: the structured (XFA dataset) path -/

/-- The row's explicit subtask name:
`entry.get("Subtask-Substep") or entry.get("Subtask_Substep") or entry.get("Subtask")`
coerced to a string. -/
def xfaExplicitName (entry : PyVal) : Option String :=
  _coerce_to_string (((entry.get "Subtask-Substep").pyOr (entry.get "Subtask_Substep")).pyOr (entry.get "Subtask"))

/-- Python `candidate not in (None, "")`. -/
def notNoneOrEmpty : PyVal → Bool
  | .vnone => false
  | .vstr "" => false
  | _ => true

/-- First residual-risk candidate among the legacy key spellings. -/
def xfaResidualValue (entry : PyVal) : PyVal :=
  go ["RRL", "ResidualRiskLevel", "ResidualRiskLvl", "ResidualRiskLevel1", "ResidualRiskLevel_1"]
where
  go : List String → PyVal
    | [] => .vnone
    | k :: ks =>
      let candidate := entry.get k
      if notNoneOrEmpty candidate then candidate else go ks

/-- One XFA row before name inheritance (loop body of `parse_dd2977_xfa`,
`name` holding the row's own subtask name). -/
def xfaRowCore (entry : PyVal) : SubtaskRow :=
  let table2 := (entry.get "Table2").pyOr (.vdict [])
  let table2 := match table2 with
    | .vlist (x :: _) => x
    | .vlist [] => .vdict []
    | v => v
  let table2 := if table2.isDict then table2 else .vdict []
  let how_text := _coerce_to_string (table2.get "Row1")
  let who_text := _coerce_to_string (table2.get "Row2")
  { get_subtask_template with
    name := xfaExplicitName entry
    hazard := (_coerce_to_string (entry.get "Hazard")).map (fun h => pyStrip (collapseWs h))
    initial_risk_level := _normalize_risk_level (entry.get "InitialRiskLevel")
    residual_risk_level := _normalize_risk_level (xfaResidualValue entry)
    control_values := _split_multiline (_coerce_to_string (entry.get "Control"))
    how_values := match how_text with | some h => [collapseWs h] | none => []
    who_values := match who_text with | some w => [collapseWs w] | none => [] }

/-- The XFA row loop: skip non-dict entries, build each row, and apply the
name-inheritance rule (`if subtask_name: last = ... elif last: name = last`). -/
def xfaRowsGo : List PyVal → Option String → List SubtaskRow
  | [], _ => []
  | e :: rest, last =>
    if e.isDict then
      let core := xfaRowCore e
      let p :=
        if pyTruthyOS core.name then (core.name, core.name)
        else if pyTruthyOS last then (last, last)
        else (core.name, last)
      { core with name := p.1 } :: xfaRowsGo rest p.2
    else xfaRowsGo rest last

/-- Collect `rows_payload` from the `Part4thru9` section: values under keys
whose lowercase form starts with "row", flattening list values. -/
def xfaRowsPayload : PyVal → List PyVal
  | .vdict entries =>
    entries.foldr (fun p acc =>
      if pyStartsWith (pyLower p.1) "row" then
        (match p.2 with
         | .vlist xs => xs
         | v => [v]) ++ acc
      else acc) []
  | _ => []

/-- Overall residual risk from the four checkbox-like leaves of block `Ten`,
checked in severity order with the first marked one winning. -/
def xfaOverallFromTen (page1 : PyVal) : Option String :=
  let ten := page1.get "Ten"
  if ten.isDict then
    if _is_marked (ten.get "EHigh") then some "EH"
    else if _is_marked (ten.get "High") then some "H"
    else if _is_marked (ten.get "Med") then some "M"
    else if _is_marked (ten.get "Low") then some "L"
    else none
  else none

/-- `parse_dd2977_xfa`: parse DD2977 content from the XFA dataset payload
(the result of `extract_xfa_dataset_from_pdf`, whose PDF/XML decoding is the
I/O boundary of the model: `none` covers every failure case there). -/
def parse_dd2977_xfa (payload? : Option PyVal) : Option DD2977Record :=
  match payload? with
  | none => none
  | some payload =>
    if !(payload.truthy && payload.isDict) then none else
    let form := payload.get "form1"
    if !form.isDict then none else
    let page1 := (form.get "Page1").pyOr (.vdict [])
    if !page1.isDict then none else
    let subtasks := xfaRowsGo (xfaRowsPayload ((page1.get "Part4thru9").pyOr (.vdict []))) none
    let overall0 := xfaOverallFromTen page1
    match (if pyTruthyOS overall0 then Except.ok overall0
        else calculate_overall_risk (subtasks.map (·.residual_risk_level))) with
    -- `int(max(...))` raised: the exception propagates, the caller's
    -- catch-all reports a failure, and no record is produced
    | .error _ => none
    | .ok overall =>
    let approval := (page1.get "Twelve").pyOr (.vdict [])
    some
      { mission_task_and_description := _coerce_to_string (page1.get "One")
        date := _coerce_to_string (page1.get "Two")
        prepared_by :=
          { name_last_first_middle_initial := _coerce_to_string (page1.get "A")
            rank_grade := _coerce_to_string (page1.get "B")
            duty_title_position := _coerce_to_string (page1.get "C")
            unit := _coerce_to_string (page1.get "D")
            work_email := _coerce_to_string (page1.get "E")
            telephone := _coerce_to_string (page1.get "F")
            uic_cin := _coerce_to_string (page1.get "G")
            training_support_or_lesson_plan_or_opord := _coerce_to_string (page1.get "H")
            signature_of_preparer := _coerce_to_string (page1.get "I") }
        subtasks := subtasks
        overall_residual_risk_level := overall
        overall_supervision_plan := _coerce_to_string (page1.get "Eleven")
        approve := if approval.isDict && _is_marked (approval.get "Approve") then 1 else 0
        disapprove := if approval.isDict && _is_marked (approval.get "Disapprove") then 1 else 0 }

/-! ## Heuristic path: vocabularies -/

/-- `COMMON_HAZARD_PREFIXES` in source-literal order (the Python object is a
set; only membership matters except for one `next()` iteration, see
`hazardKeywordScan`).  The literal's duplicates are kept. -/
def COMMON_HAZARD_PREFIXES : List String :=
  ["ACCIDENT", "AIRCRAFT", "AIR", "AMMUNITION", "APPROACH", "BAD", "BIOLOGICAL",
   "BURN", "CHEMICAL", "COLD", "CONTAMINATION", "CARGO", "DAMAGE", "DEHYDRATION",
   "DETONATION", "DISCHARGE", "DROWNING", "ELECTRICAL", "EMERGENCY", "EXPLOSION",
   "FAIL", "FAILURE", "FALL", "FALLS", "FATIGUE", "FIRE", "FRATRICIDE", "HAZARD",
   "HEAT", "HELICOPTER", "HOT", "ILLNESS", "IMPROPER", "INJURY", "INJURIES",
   "INSUFFICIENT", "INTERNAL", "LIGHTNING", "LOSS", "LOST", "LOW", "MECHANICAL",
   "MISFIRE", "MISSING", "MIS", "NEGLECT", "NEGATIVE", "NEGLIGENT", "POOR",
   "RADIATION", "RESIDUAL", "RISK", "ROAD", "ROLL", "ROLLOVER", "SLING", "SPILL",
   "SURFACE", "TRIP", "TRIPS", "UXO", "VEHICLE", "VEHICLES", "WEATHER", "WILDLIFE",
   "WRONG", "LACK", "INSUFFICIENT", "INAPPROPRIATE", "SLICK", "ICE", "SNOW",
   "RAIN", "WIND", "MECHANICAL", "STRUCTURAL", "FUEL", "SMOKE", "FOD", "FROST",
   "EXPOSURE", "HYPOTHERMIA", "HYPERTHERMIA", "CASUALTY", "CASUALTIES", "OVERHEAT",
   "OVEREXERTION", "CONGESTION", "COLLISION", "IMPACT", "CONTACT", "HAZMAT",
   "INCLEMENT", "DAMAGED", "ENVIRONMENTAL", "SURVIVABILITY", "VEGETATION", "HAZE",
   "POISON", "TOXIC", "FUMES", "OBSTACLE", "RUNWAY", "LANDING", "PZ", "LZ",
   "MARKING", "WEAK", "UNSECURED", "UNSTABLE", "CONTAGION"]

def HAZARD_STOPWORDS : List String :=
  ["THE", "AND", "OF", "IN", "ON", "AT", "TO", "A", "AN", "WITH", "BY", "FOR"]

/-! ## Heuristic path: the per-line classifier of `extract_subtask_rows` -/

inductive RowSec where
  | subtask | controls | how | who
  deriving Repr, DecidableEq

structure ClassifyRes where
  subtask_lines : List String
  controls_lines : List String
  how_lines : List String
  who_lines : List String
  initial_risk : Option String
  residual_risk : Option String
  deriving Repr, DecidableEq

def emptyClassify : ClassifyRes := ⟨[], [], [], [], none, none⟩

/-- The risk-level line test of line 588:
`re.match(r'^([MHLE]+|[0-5])$', line) and len(line) <= 3`
(case-sensitive: one to three characters among `M H L E`, or one digit 0-5). -/
def isRiskTokenLine (line : String) : Bool :=
  let l := line.toList
  ((!l.isEmpty && l.all (fun c => c ∈ ['M', 'H', 'L', 'E'])) ||
   (l.length == 1 && (l.headD ' ') ∈ ['0', '1', '2', '3', '4', '5'])) &&
  l.length ≤ 3

/-- The per-line state machine of `extract_subtask_rows` (lines 579-620):
risk-token line > `How:`/`Who:` prefix > dash bullet (in subtask/controls
state) > fallthrough append; the second risk token ends the row. -/
def classifyGo : List String → RowSec → Bool → ClassifyRes → ClassifyRes
  | [], _, _, acc => acc
  | l0 :: rest, sec, foundFirst, acc =>
    let line := pyStrip l0
    if line = "" then classifyGo rest sec foundFirst acc
    else if isRiskTokenLine line then
      if !foundFirst then
        classifyGo rest .controls true { acc with initial_risk := some line }
      else { acc with residual_risk := some line }
    else if pyStartsWith line "How:" then
      let c := pyStrip (line.drop 4)
      classifyGo rest .how foundFirst
        { acc with how_lines := acc.how_lines ++ (if c = "" then [] else [c]) }
    else if pyStartsWith line "Who:" then
      let c := pyStrip (line.drop 4)
      classifyGo rest .who foundFirst
        { acc with who_lines := acc.who_lines ++ (if c = "" then [] else [c]) }
    else if pyStartsWith line "-" && (sec == .controls || sec == .subtask) then
      classifyGo rest .controls foundFirst
        { acc with controls_lines := acc.controls_lines ++ [line] }
    else match sec with
      | .subtask => classifyGo rest sec foundFirst
          { acc with subtask_lines := acc.subtask_lines ++ [line] }
      | .controls => classifyGo rest sec foundFirst
          { acc with controls_lines := acc.controls_lines ++ [line] }
      | .how => classifyGo rest sec foundFirst
          { acc with how_lines := acc.how_lines ++ [line] }
      | .who => classifyGo rest sec foundFirst
          { acc with who_lines := acc.who_lines ++ [line] }

/-! ## Heuristic path: subtask/hazard disambiguation -/

def mainCategoriesInner : List String :=
  ["RANGE EXECUTION", "MOVEMENT", "ENVIRONMENTAL", "TRAINING"]

def skipFirstKeywords : List String := ["EVACUATION", "MEDICAL"]

def hazardCues : List String :=
  ["HAZARD", "INJURY", "CASUALTY", "FAILURE", "FIRE", "ROLL", "ACCIDENT",
   "DAMAGE", "LOSS", "PZ", "DZ", "LZ", "MARK", "ACCOUNT", "WEATHER",
   "HELICOPTER", "AIRCRAFT", "SLING", "CARGO"]

/-- Keyword scan of lines 643-652: the first line whose whitespace-split
uppercase tokens contain a hazard-vocabulary word, skipping a first-line
match when that word is itself ambiguous.  (Python draws `matched` by
iterating the `COMMON_HAZARD_PREFIXES` set, whose iteration order is
unspecified; the model iterates in source-literal order, which agrees with
any set order whenever the line holds at most one vocabulary token.) -/
def hazardKeywordScan : Nat → List String → Option Nat
  | _, [] => none
  | idx, line :: rest =>
    let tokens := pyWords (pyUpper line)
    match COMMON_HAZARD_PREFIXES.find? (fun kw => tokens.contains kw) with
    | none => hazardKeywordScan (idx + 1) rest
    | some matched =>
      if idx == 0 && skipFirstKeywords.contains matched then
        hazardKeywordScan (idx + 1) rest
      else some idx

/-- Lines 623-670: split the collected subtask lines into subtask and hazard
line groups (`hazard_lines` is always empty when this block is entered). -/
def splitSubtaskHazardLines (sl : List String) : List String × List String :=
  if sl.isEmpty then (sl, []) else
  let p :=
    if sl.length ≥ 2 then
      let first_line := pyUpper (sl.headD "")
      if mainCategoriesInner.any (fun cat => strContains first_line cat) then
        (sl.take 1, sl.drop 1)
      else
        match hazardKeywordScan 0 sl with
        | some idx => (if idx > 0 then sl.take idx else [], sl.drop idx)
        | none => (sl, ([] : List String))
    else (sl, [])
  let sl := p.1
  let hl := p.2
  if !sl.isEmpty && hl.isEmpty && sl.length > 1 then
    let second_line_words := (pyWords (sl.getD 1 "")).length
    let keep :=
      if second_line_words ≠ 0 && second_line_words ≤ 3 && sl.length > 2 then
        let hazard_candidate := pyUpper (" ".intercalate (sl.drop 1))
        if hazardCues.any (fun cue => strContains hazard_candidate cue) then 1 else 2
      else 1
    if sl.length > keep then (sl.take keep, sl.drop keep) else (sl, hl)
  else (sl, hl)

def sepChars : List Char := ['-', '–', '—', '/', ':']

/-- Match length at the current position for the separator alternation
`\s{2,}|\s[-–—/:]\s|:\s|/` (alternatives in order, `\s{2,}` greedy). -/
def sepMatchAt (l : List Char) : Option Nat :=
  let wsRun := l.takeWhile isPyWs
  if wsRun.length ≥ 2 then some wsRun.length
  else match l with
    | c1 :: c2 :: c3 :: _ =>
      if isPyWs c1 && sepChars.contains c2 && isPyWs c3 then some 3
      else if c1 == ':' && isPyWs c2 then some 2
      else if c1 == '/' then some 1
      else none
    | [c1, c2] =>
      if c1 == ':' && isPyWs c2 then some 2
      else if c1 == '/' then some 1
      else none
    | [c1] => if c1 == '/' then some 1 else none
    | [] => none

/-- `re.split(r"\s{2,}|\s[-–—/:]\s|:\s|/", s, maxsplit=1)`: split at the
leftmost separator match, if any. -/
def sepSplitGo (acc : List Char) : List Char → Option (List Char × List Char)
  | [] => none
  | l@(c :: cs) =>
    match sepMatchAt l with
    | some n => some (acc.reverse, l.drop n)
    | none => sepSplitGo (c :: acc) cs

def mainCategoriesOuter : List String :=
  ["RANGE EXECUTION", "RANGE OPERATIONS", "MOVEMENT TO", "MOVEMENT",
   "VEHICLE MOVEMENT", "AMMUNITION", "ENVIRONMENTAL", "MEDICAL",
   "TRAINING", "FIRE CONTROL", "WEAPONS HANDLING", "COMMUNICATIONS",
   "NIGHT OPERATIONS", "WEATHER"]

/-- Lines 680-715: derive the row's name and hazard from the joined subtask
and hazard texts (category-name split, then separator split, else pass
through). -/
def nameHazardFromTexts (subtask_text hazard_text : Option String) :
    Option String × Option String :=
  match subtask_text, hazard_text with
  | some st, none =>
    let upper_st := pyUpper st
    match mainCategoriesOuter.find? (fun cat => pyStartsWith upper_st cat) with
    | some category =>
      let name_fragment := pyStrip (st.take category.length)
      let remainder := pyStrip (st.drop category.length)
      let remainder := pyStrip (pyLStripChars ['-', '–', '—', ':', ';', '/', ','] remainder)
      (some (if name_fragment ≠ "" then name_fragment else st),
       if remainder ≠ "" then some remainder else none)
    | none =>
      match sepSplitGo [] st.toList with
      | some (p0, p1) =>
        let h := pyStrip (String.mk p1)
        (some (pyStrip (String.mk p0)), if h ≠ "" then some h else none)
      | none => (some st, none)
  | st, ht => (st, ht)

def connectiveWords : List String := ["OF", "TO", "AND", "THE"]

/-- Repair pass of lines 717-745: a row name starting with a
hazard-vocabulary token is folded back into the hazard and the name is taken
from the previous row. -/
def repairNameHazard (prev nm hz : Option String) : Option String × Option String :=
  if pyTruthyOS nm && pyTruthyOS hz && pyTruthyOS prev then
    let name := nm.getD ""
    let hazard := hz.getD ""
    let tokens := splitClass (fun c => isPyWs c || c == ',' || c == '/') (pyUpper name)
    let leading := tokens.headD ""
    if COMMON_HAZARD_PREFIXES.contains leading && !HAZARD_STOPWORDS.contains leading then
      let candidate := pyStrip name
      let hazard_body := pyStrip hazard
      let hazard_body_clean := collapseClassToSpace (fun c => c == ',' || c == '/') hazard_body
      let hazard_words := pyWords hazard_body_clean
      let subtask_words := pyWords candidate
      let should_prepend :=
        if hazard_body = "" then true
        else if hazard_words.length ≤ 2 then true
        else if !subtask_words.isEmpty &&
            connectiveWords.contains (pyUpper (subtask_words.getLastD "")) then true
        else false
      let combined := if should_prepend then pyStrip (candidate ++ " " ++ hazard_body) else hazard_body
      let combined := pyStrip (collapseWs combined)
      if combined ≠ "" then (prev, some combined) else (nm, hz)
    else (nm, hz)
  else (nm, hz)

/-! ## Heuristic path: control-item regrouping (lines 749-801) -/

def bulletChars : List Char := ['-', '•', '*', '○', '▪']

def conjunctionStarts : List String :=
  ["and ", "or ", "but ", "so ", "yet ", "for ", "nor "]

def startsWithAnyChar (s : String) (cs : List Char) : Bool :=
  match s.toList with
  | [] => false
  | c :: _ => cs.contains c

def regroupControlsGo : List String → List String → List String → List String
  | cleaned, current, [] =>
    if !current.isEmpty then
      let para := pyStrip (" ".intercalate current)
      if para ≠ "" then cleaned ++ [para] else cleaned
    else cleaned
  | cleaned, current, line :: rest =>
    let cl := collapseWs (pyStrip line)
    if cl = "" then regroupControlsGo cleaned current rest
    else
      let startsNew :=
        if !current.isEmpty then
          let last_line := pyLower (current.getLastD "")
          let is_bullet := startsWithAnyChar cl bulletChars
          let prev_is_bullet := startsWithAnyChar (current.headD "") bulletChars
          (is_bullet && !prev_is_bullet) || (is_bullet && prev_is_bullet) ||
          (!current.isEmpty &&
            (pyEndsWithChar last_line '.' || pyEndsWithChar last_line '!' || pyEndsWithChar last_line '?') &&
            (cl.toList.headD ' ').isUpper &&
            !(conjunctionStarts.any (fun conj => pyStartsWith (pyLower cl) conj)))
        else false
      if startsNew then
        let cleaned' :=
          if !current.isEmpty then
            let para := pyStrip (" ".intercalate current)
            if para ≠ "" then cleaned ++ [para] else cleaned
          else cleaned
        regroupControlsGo cleaned' [cl] rest
      else regroupControlsGo cleaned (current ++ [cl]) rest

/-! ## Heuristic path: the per-row pipeline and the row loop -/

/-- The loop body of `extract_subtask_rows` for one row content
(lines 551-827), without the trailing name-inheritance step; `none` for a
blank row content. -/
def heurRowCore (prev : Option String) (row_content : String) : Option SubtaskRow :=
  if pyStrip row_content = "" then none else
  let lines := ((splitNl row_content).map pyStrip).filter (fun l => l ≠ "")
  if lines.isEmpty then none else
  let cr := classifyGo lines .subtask false emptyClassify
  let p := splitSubtaskHazardLines cr.subtask_lines
  let subtask_text := if !p.1.isEmpty then some (" ".intercalate p.1) else none
  let hazard_text := if !p.2.isEmpty then some (" ".intercalate p.2) else none
  let nh := nameHazardFromTexts subtask_text hazard_text
  let nh := repairNameHazard prev nh.1 nh.2
  let control_values :=
    if !cr.controls_lines.isEmpty then regroupControlsGo [] [] cr.controls_lines else []
  let how_values :=
    if !cr.how_lines.isEmpty then
      let t := pyStrip (collapseWs (" ".intercalate cr.how_lines))
      if t ≠ "" then [t] else []
    else []
  let who_values :=
    if !cr.who_lines.isEmpty then
      let t := pyStrip (collapseWs (" ".intercalate cr.who_lines))
      if t ≠ "" then [t] else []
    else []
  let nh :=
    if pyTruthyOS prev && pyTruthyOS nh.1 && !pyTruthyOS nh.2 then
      let hc := pyStrip (nh.1.getD "")
      if hc ≠ "" then (prev, some hc) else nh
    else nh
  some { name := nh.1, hazard := nh.2, initial_risk_level := cr.initial_risk,
         control_values := control_values, how_values := how_values,
         who_values := who_values, residual_risk_level := cr.residual_risk }

/-- Line 831 truthiness test: `current_subtask and current_subtask.strip()`. -/
def nameNonBlank : Option String → Bool
  | some s => s ≠ "" && pyStrip s ≠ ""
  | none => false

/-- One iteration of the row loop: build the row, then carry forward or
inherit the subtask name (lines 829-834). -/
def heurRowStep (last : Option String) (row_content : String) :
    Option SubtaskRow × Option String :=
  match heurRowCore last row_content with
  | none => (none, last)
  | some row =>
    if nameNonBlank row.name then (some row, some (pyStrip (row.name.getD "")))
    else if pyTruthyOS last then (some { row with name := last }, last)
    else (some row, last)

def heurRowsGo : Option String → List String → List SubtaskRow
  | _, [] => []
  | last, content :: rest =>
    match heurRowStep last content with
    | (some row, last') => row :: heurRowsGo last' rest
    | (none, last') => heurRowsGo last' rest

/-! ## Heuristic path: locating the data section and splitting rows

The row pattern `(?:^|\n)\+\s*\n-\s*\n(.*?)(?=(?:\n\+\s*\n-\s*\n)|\Z)` is
compiled by hand.  In `\+\s*\n-`, the `-` is not whitespace, so the `\s*\n`
must consume the whole (maximal, newline-terminated) whitespace run after
`+`.  In the final `-\s*\n` the following capture accepts anything, so the
greedy `\s*` puts the capture start right after the last newline of the
whitespace run following `-`. -/

/-- Remainder after a `\+\s*\n-\s*\n` header starting at the given position
(the remainder is where the row's captured content begins). -/
def rowHeaderRest? : List Char → Option (List Char)
  | '+' :: r =>
    let w := r.takeWhile isPyWs
    if !w.isEmpty && w.getLastD ' ' == '\n' then
      match r.dropWhile isPyWs with
      | '-' :: r2 =>
        let w2 := r2.takeWhile isPyWs
        if w2.contains '\n' then
          let m := (w2.reverse.takeWhile (fun c => c ≠ '\n')).length
          some (r2.drop (w2.length - m))
        else none
      | _ => none
    else none
  | _ => none

/-- The row-separator lookahead `\n\+\s*\n-\s*\n`, returning the next row's
content start. -/
def rowSepRest? : List Char → Option (List Char)
  | '\n' :: r => rowHeaderRest? r
  | _ => none

/-- Capture a row's content: everything up to the first row-separator
lookahead position (or the end). -/
def takeRowContent : List Char → List Char × Option (List Char)
  | [] => ([], none)
  | l@(c :: r) =>
    if (rowSepRest? l).isSome then ([], some l)
    else
      let p := takeRowContent r
      (c :: p.1, p.2)

/-- First `(?:^|\n)\+\s*\n-\s*\n` match in the data section: scan positions
left to right, a position qualifying when it is the string start or preceded
by a newline. -/
def findFirstRowGo : List Char → Bool → Option (List Char)
  | [], _ => none
  | l@(c :: r), atStart =>
    if atStart then
      match rowHeaderRest? l with
      | some rest => some rest
      | none => findFirstRowGo r (c == '\n')
    else findFirstRowGo r (c == '\n')

/-- The row loop of `re.findall`: capture a row, then resume at the
separator (whose leading newline the next `(?:^|\n)` consumes).  The fuel is
a bound on the number of rows; every step strictly shrinks the remaining
text, so `length + 1` can never be exhausted. -/
def splitRowsLoop : Nat → List Char → List String
  | 0, _ => []
  | fuel + 1, contentStart =>
    let p := takeRowContent contentStart
    String.mk p.1 ::
      (match p.2 with
       | none => []
       | some l =>
         match rowSepRest? l with
         | some next => splitRowsLoop fuel next
         | none => [])

def splitRowContents (ds : String) : List String :=
  match findFirstRowGo ds.toList true with
  | some contentStart => splitRowsLoop (contentStart.length + 1) contentStart
  | none => []

/-- The `\n10\.` + whitespace lookahead ending the data section. -/
def nl10At : List Char → Bool
  | '\n' :: '1' :: '0' :: '.' :: c :: _ => isPyWs c
  | _ => false

/-- Index of the first position (suffix) satisfying `p`. -/
def findIdxP (p : List Char → Bool) : List Char → Option Nat
  | [] => if p [] then some 0 else none
  | l@(_ :: t) => if p l then some 0 else (findIdxP p t).map (· + 1)

/-- One attempt of the data-section regex
`9\.\s*RESIDUAL.*?RISK LEVEL.*?\n(.*?)(?=\n10\.\s|\Z)` (case-insensitive,
DOTALL) anchored at the current position. -/
def tryDataSectionAt : List Char → Option String
  | '9' :: '.' :: r =>
    let r1 := r.dropWhile isPyWs
    if ciPrefix "RESIDUAL".toList r1 then
      let r2 := r1.drop 8
      match findIdxP (fun s => ciPrefix "RISK LEVEL".toList s) r2 with
      | none => none
      | some i =>
        let r3 := r2.drop (i + 10)
        match findIdxP (fun s => s.headD ' ' == '\n') r3 with
        | none => none
        | some j =>
          let r4 := r3.drop (j + 1)
          let cap :=
            match findIdxP nl10At r4 with
            | some k => r4.take k
            | none => r4
          some (String.mk cap)
    else none
  | _ => none

def findDataSectionGo : List Char → Option String
  | [] => none
  | l@(_ :: t) =>
    match tryDataSectionAt l with
    | some r => some r
    | none => findDataSectionGo t

def findDataSection (text : String) : Option String := findDataSectionGo text.toList

/-- `extract_subtask_rows`: extract and structure all subtask rows. -/
def extract_subtask_rows (text : String) : List SubtaskRow :=
  match findDataSection text with
  | none => []
  | some ds => heurRowsGo none (splitRowContents ds)

/-! ## Hand-compiled scanning combinators for the remaining regexes

Each regex of `parse_dd2977` is compiled to a deterministic scan.  `re.search`
retries the whole pattern at every later start position after a failed
attempt, which `scanFor` reproduces. -/

/-- Consume a case-insensitive literal. -/
def ciLitP (s : String) (l : List Char) : Option (List Char) :=
  if ciPrefix s.toList l then some (l.drop s.length) else none

/-- Consume `\s+` (greedy; every use site is followed by a non-whitespace
literal, so the maximal run is the unique choice). -/
def wsPlusP (l : List Char) : Option (List Char) :=
  if isPyWs (l.headD 'x') then some (l.dropWhile isPyWs) else none

/-- Retry an anchored attempt at every start position, leftmost first. -/
def scanFor {α : Type} (attempt : List Char → Option α) : List Char → Option α
  | [] => attempt []
  | l@(_ :: t) =>
    match attempt l with
    | some a => some a
    | none => scanFor attempt t

/-- `.*?c` followed by a non-empty tail: the first occurrence of the anchor
character whose remainder is non-empty (a later `(.+?)` needs one character;
on failure the lazy `.*?` retries at the next anchor). -/
def firstAnchorRest (anchor : Char) : List Char → Option (List Char)
  | [] => none
  | c :: t => if c == anchor && !t.isEmpty then some t else firstAnchorRest anchor t

/-- `(.+?)(?=stop|\Z)`: the shortest non-empty prefix whose end satisfies the
zero-width `stop`, else everything. -/
def lazyCaptureMin1 (stop : List Char → Bool) : List Char → Option (List Char)
  | [] => none
  | l@(_ :: t) =>
    some
      (match (findIdxP stop t).map (· + 1) with
       | some k => l.take k
       | none => l)

/-- `:\s*(.+?)(?=stop|\Z)` after a lazy `.*?:`.  The first colon with a
non-empty tail is the unique candidate (a colon at the very end fails and no
later colon can exist).  When everything after the colon is whitespace the
greedy `\s*` backs off one character and the capture is that single
whitespace character. -/
def colonCapture (stop : List Char → Bool) (r0 : List Char) : Option (List Char) :=
  match firstAnchorRest ':' r0 with
  | none => none
  | some r =>
    let after := r.dropWhile isPyWs
    if after.isEmpty then some [r.getLastD ' ']
    else lazyCaptureMin1 stop after

/-! ## Section captures: mission, date, supervision, overall block -/

/-- Lookahead `\n2\.\s*DATE` of the mission capture. -/
def missionStop (l : List Char) : Bool :=
  match l with
  | '\n' :: r =>
    (ciLitP "2." r).elim false (fun r2 => ciPrefix "DATE".toList (r2.dropWhile isPyWs))
  | _ => false

/-- `1\.\s*MISSION/TASK.*?\n(.+?)(?=\n2\.\s*DATE|\Z)` anchored attempt. -/
def missionAttempt (l : List Char) : Option (List Char) :=
  (ciLitP "1." l).bind fun r =>
  (ciLitP "MISSION/TASK" (r.dropWhile isPyWs)).bind fun r2 =>
  (firstAnchorRest '\n' r2).bind (lazyCaptureMin1 missionStop)

/-- Lookahead `\n3\.\s*PREPARED` of the date capture. -/
def dateStop (l : List Char) : Bool :=
  match l with
  | '\n' :: r =>
    (ciLitP "3." r).elim false (fun r2 => ciPrefix "PREPARED".toList (r2.dropWhile isPyWs))
  | _ => false

/-- `2\.\s*DATE PREPARED.*?\n(.+?)(?=\n3\.\s*PREPARED|\Z)` anchored attempt. -/
def dateAttempt (l : List Char) : Option (List Char) :=
  (ciLitP "2." l).bind fun r =>
  (ciLitP "DATE PREPARED" (r.dropWhile isPyWs)).bind fun r2 =>
  (firstAnchorRest '\n' r2).bind (lazyCaptureMin1 dateStop)

/-- Post-processing shared by the mission and date fields: strip, collapse
whitespace, and keep only a non-empty result. -/
def sectionField (cap? : Option (List Char)) : Option String :=
  cap?.bind fun cap =>
    let t := collapseWs (pyStrip (String.mk cap))
    if t ≠ "" then some t else none

/-- Lookahead `\n(?:APPROVE|DISAPPROVE|12\.|14\.|15\.)` of the supervision
capture. -/
def supervisionStop (l : List Char) : Bool :=
  match l with
  | '\n' :: r =>
    ciPrefix "APPROVE".toList r || ciPrefix "DISAPPROVE".toList r ||
    "12.".toList.isPrefixOf r || "14.".toList.isPrefixOf r || "15.".toList.isPrefixOf r
  | _ => false

/-- `11\.\s*OVERALL SUPERVISION PLAN.*?:\s*(.+?)(?=...)` anchored attempt. -/
def supervisionAttempt (l : List Char) : Option (List Char) :=
  (ciLitP "11." l).bind fun r =>
  (ciLitP "OVERALL SUPERVISION PLAN" (r.dropWhile isPyWs)).bind
    (colonCapture supervisionStop)

/-- `pick` applied to the supervision pattern: the stripped capture (which
may be empty when the captured text is all whitespace). -/
def overall_supervision_plan_of (text : String) : Option String :=
  (scanFor supervisionAttempt text.toList).map (fun cap => pyStrip (String.mk cap))

/-- Lookahead `\n11\.\s|\n12\.\s` of the overall-risk capture. -/
def overallStop (l : List Char) : Bool :=
  match l with
  | '\n' :: '1' :: '1' :: '.' :: c :: _ => isPyWs c
  | '\n' :: '1' :: '2' :: '.' :: c :: _ => isPyWs c
  | _ => false

/-- `10\.\s*OVERALL\s+RESIDUAL\s+RISK LEVEL.*?:\s*(.+?)(?=...)` attempt. -/
def overallAttempt (l : List Char) : Option (List Char) :=
  (ciLitP "10." l).bind fun r =>
  (ciLitP "OVERALL" (r.dropWhile isPyWs)).bind fun r =>
  (wsPlusP r).bind fun r =>
  (ciLitP "RESIDUAL" r).bind fun r =>
  (wsPlusP r).bind fun r =>
  (ciLitP "RISK LEVEL" r).bind (colonCapture overallStop)

def riskOptionsFull : List String := ["EXTREMELY HIGH", "HIGH", "MEDIUM", "LOW"]

/-- Match of `(EXTREMELY\s+HIGH|HIGH|MEDIUM|LOW)` (ci, alternatives in
order) at the current position: match length and captured text. -/
def riskOptionAttempt (l : List Char) : Option (Nat × List Char) :=
  match (ciLitP "EXTREMELY" l).bind (fun r =>
          (wsPlusP r).bind (fun r2 =>
            (ciLitP "HIGH" r2).map (fun _ => l.length - r2.length + 4))) with
  | some n => some (n, l.take n)
  | none =>
    if (ciLitP "HIGH" l).isSome then some (4, l.take 4)
    else if (ciLitP "MEDIUM" l).isSome then some (6, l.take 6)
    else if (ciLitP "LOW" l).isSome then some (3, l.take 3)
    else none

/-- Leftmost `riskOptionAttempt` match: start index, length, capture. -/
def riskOptionSearch : List Char → Nat → Option (Nat × Nat × List Char)
  | [], _ => none
  | l@(_ :: t), i =>
    match riskOptionAttempt l with
    | some p => some (i, p.1, p.2)
    | none => riskOptionSearch t (i + 1)

def isWordChar (c : Char) : Bool := c.isAlphanum || c == '_'

/-- Attempt of a `\b`-delimited multi-word phrase (words joined by `\s+`). -/
def phraseAttempt : List String → List Char → Option (List Char)
  | [], l => some l
  | [w], l => ciLitP w l
  | w :: ws, l => (ciLitP w l).bind fun r => (wsPlusP r).bind (phraseAttempt ws)

/-- `re.search(r"\bW1\s+W2...\b", s, re.I)`: scan with word boundaries on
both sides. -/
def phraseSearchGo (ws : List String) : List Char → Bool → Bool
  | [], _ => false
  | l@(c :: t), prevWord =>
    (!prevWord &&
      (match phraseAttempt ws l with
       | some r => !isWordChar (r.headD ' ')
       | none => false)) ||
    phraseSearchGo ws t (isWordChar c)

/-- The walk over multi-line overall-risk options (lines 921-931): the first
line holding a level together with an `[X✓☑1]` mark or a
`SELECTED/CHECKED/YES` qualifier selects that level. -/
def overallOptionLoop : List String → Option String
  | [] => none
  | raw_line :: rest =>
    match riskOptionSearch raw_line.toList 0 with
    | none => overallOptionLoop rest
    | some (i, n, cap) =>
      let option := pyUpper (String.mk cap)
      let lchars := raw_line.toList
      let remainder := pyStrip (String.mk (lchars.take i ++ lchars.drop (i + n)))
      if remainder.toList.any (fun c => c ∈ ['X', '✓', '☑', '1']) then some option
      else if ["SELECTED", "CHECKED", "YES"].any
          (fun kw => phraseSearchGo [kw] remainder.toList false) then some option
      else overallOptionLoop rest

/-- `re.sub(r"^[•*\-■□\[\]()]+", "", line).strip().upper()` (lines 937,
940-942). -/
def sanitizeOption (line : String) : String :=
  let cls : List Char := ['•', '*', '-', '■', '□', '[', ']', '(', ')']
  let l := line.toList
  let l := if cls.contains (l.headD ' ') then l.dropWhile cls.contains else l
  pyUpper (pyStrip (String.mk l))

/-- Lines 903-945: the explicitly marked overall residual risk option, if
any. -/
def overallSelectedOption (text : String) : Option String :=
  match scanFor overallAttempt text.toList with
  | none => none
  | some cap =>
    let block := pyStrip (String.mk cap)
    let option_lines := ((pySplitLines block).map pyStrip).filter (· ≠ "")
    if option_lines.isEmpty then none
    else if option_lines.length == 1 then
      let single := pyUpper (option_lines.headD "")
      if riskOptionsFull.contains single then some single else none
    else
      match overallOptionLoop option_lines with
      | some sel => some sel
      | none =>
        let marked := option_lines.filter (fun line => riskOptionsFull.contains (sanitizeOption line))
        match marked with
        | [m] => some (sanitizeOption m)
        | _ => none

/-! ## `value_after` and the prepared-by fields -/

/-- The label attempt `\s*{letter}\.\s*` at a qualifying position. -/
def labelAttempt (letter : Char) (l : List Char) : Option (List Char) :=
  match l.dropWhile isPyWs with
  | c :: '.' :: rest =>
    if c.toUpper == letter.toUpper then some (rest.dropWhile isPyWs) else none
  | _ => none

/-- Leftmost `(?:^|\n)\s*{letter}\.\s*` match: the remainder after it. -/
def labelSearchGo (letter : Char) : List Char → Bool → Option (List Char)
  | [], _ => none
  | l@(c :: t), atStart =>
    if atStart then
      match labelAttempt letter l with
      | some r => some r
      | none => labelSearchGo letter t (c == '\n')
    else labelSearchGo letter t (c == '\n')

/-- Body of the `(?:^|\n)\s*[a-i]\.\s` boundary test. -/
def anyLabelAt (l : List Char) : Bool :=
  match l.dropWhile isPyWs with
  | c :: '.' :: d :: _ => ('a' ≤ c.toLower && c.toLower ≤ 'i') && isPyWs d
  | _ => false

/-- Body of the `(?:^|\n)\s*\d+\.\s` boundary test (the greedy `\d+` must
reach the dot). -/
def numberedAt (l : List Char) : Bool :=
  let r := l.dropWhile isPyWs
  let ds := r.takeWhile Char.isDigit
  if ds.isEmpty then false
  else match r.drop ds.length with
    | '.' :: d :: _ => isPyWs d
    | _ => false

/-- Leftmost start of a `(?:^|\n)P` pattern: position 0 when `p` holds
there, else the index of a newline followed by a position satisfying `p`. -/
def findAfterNlGo (p : List Char → Bool) : List Char → Nat → Option Nat
  | [], _ => none
  | '\n' :: t, i => if p t then some i else findAfterNlGo p t (i + 1)
  | _ :: t, i => findAfterNlGo p t (i + 1)

def findAfterNl (p : List Char → Bool) (l : List Char) : Option Nat :=
  if p l then some 0 else findAfterNlGo p l 0

/-- `\s{2,}[a-i]\.\s` boundary test at a position. -/
def inlineLabelAt (l : List Char) : Bool :=
  let w := l.takeWhile isPyWs
  if w.length ≥ 2 then
    match l.drop w.length with
    | c :: '.' :: d :: _ => ('a' ≤ c.toLower && c.toLower ≤ 'i') && isPyWs d
    | _ => false
  else false

/-- Match length of instruction pattern
`\(1\)\s*Identify the hazards.*?equal to numbered items on form\)` (ci,
DOTALL) at the current position. -/
def instrAttemptA (l : List Char) : Option Nat :=
  if "(1)".toList.isPrefixOf l then
    let r2 := (l.drop 3).dropWhile isPyWs
    (ciLitP "Identify the hazards" r2).bind fun r3 =>
      (findCI r3 "equal to numbered items on form)".toList).map fun i =>
        (l.length - r3.length) + i + "equal to numbered items on form)".length
  else none

/-- Match length of `Five steps of Risk Management:.*?equal to numbered
items on form\)` (ci, DOTALL) at the current position. -/
def instrAttemptB (l : List Char) : Option Nat :=
  (ciLitP "Five steps of Risk Management:" l).bind fun r =>
    (findCI r "equal to numbered items on form)".toList).map fun i =>
      (l.length - r.length) + i + "equal to numbered items on form)".length

/-- `re.sub(pattern, "", window)`: remove every (leftmost, non-overlapping)
match. -/
def removeAllInstrGo (attempt : List Char → Option Nat) : Nat → List Char → List Char
  | _, [] => []
  | 0, l => l
  | fuel + 1, c :: t =>
    match attempt (c :: t) with
    | some n =>
      if 0 < n then removeAllInstrGo attempt fuel ((c :: t).drop n)
      else c :: removeAllInstrGo attempt fuel t
    | none => c :: removeAllInstrGo attempt fuel t

def removeAllInstr (attempt : List Char → Option Nat) (l : List Char) : List Char :=
  removeAllInstrGo attempt l.length l

/-- `(?:\s*\([^)]*\))?` — optionally consume a parenthesised descriptor. -/
def parenOptP (l : List Char) : List Char :=
  match l.dropWhile isPyWs with
  | '(' :: r2 =>
    let inner := r2.takeWhile (fun c => c ≠ ')')
    match r2.drop inner.length with
    | ')' :: r3 => r3
    | _ => l
  | _ => l

/-- `\s*[:\-]?\s*` — trailing separators of a descriptor. -/
def colonDashP (l : List Char) : List Char :=
  let r := l.dropWhile isPyWs
  let r := match r with
    | ':' :: t => t
    | '-' :: t => t
    | _ => r
  r.dropWhile isPyWs

/-- `\s*/?\s*` — optional slash between descriptor words. -/
def slashOptP (l : List Char) : List Char :=
  let r := l.dropWhile isPyWs
  let r := match r with | '/' :: t => t | _ => r
  r.dropWhile isPyWs

/-- `\s*` then a ci literal. -/
def wsStarThen (kw : String) (l : List Char) : Option (List Char) :=
  ciLitP kw (l.dropWhile isPyWs)

/-- The per-letter descriptor patterns of `value_after` (each anchored with
`^`); a successful match returns the rest of the line after the matched
prefix. -/
def descriptorMatch (letter : Char) (l : List Char) : Option (List Char) :=
  match letter with
  | 'a' => (ciLitP "NAME" l).map (fun r => colonDashP (parenOptP r))
  | 'b' =>
    (ciLitP "RANK" l).bind fun r =>
    (ciLitP "GRADE" (slashOptP r)).map (fun r => colonDashP (parenOptP r))
  | 'c' =>
    (ciLitP "DUTY" l).bind fun r =>
    (wsStarThen "TITLE" r).bind fun r =>
    (ciLitP "POSITION" (slashOptP r)).map (fun r => colonDashP (parenOptP r))
  | 'd' => (ciLitP "UNIT" l).map (fun r => colonDashP (parenOptP r))
  | 'e' =>
    (ciLitP "WORK" l).bind fun r =>
    (wsStarThen "EMAIL" r).map (fun r => colonDashP (parenOptP r))
  | 'f' => (ciLitP "TELEPHONE" l).map (fun r => colonDashP (parenOptP r))
  | 'g' =>
    (ciLitP "UIC" l).bind fun r =>
    (ciLitP "CIN" (slashOptP r)).map (fun r => colonDashP (parenOptP r))
  | 'h' =>
    (ciLitP "TRAINING" l).bind fun r =>
    (wsStarThen "SUPPORT/LESSON" r).bind fun r =>
    (wsStarThen "PLAN" r).bind fun r =>
    (wsStarThen "OR" r).bind fun r =>
    (wsStarThen "OPORD" r).map (fun r => colonDashP (parenOptP r))
  | 'i' =>
    (ciLitP "SIGNATURE" l).bind fun r =>
    (wsStarThen "OF" r).bind fun r =>
    (wsStarThen "PREPARER" r).map (fun r => colonDashP (parenOptP r))
  | _ => none

/-- `value_after`: extract a lettered field of section 3 (prepared by). -/
def value_after (letter : Char) (text : String) : Option String :=
  match labelSearchGo letter text.toList true with
  | none => none
  | some remainder =>
  if remainder.isEmpty then none else
  let b1 := findAfterNl anyLabelAt remainder
  let b2 := findIdxP inlineLabelAt remainder
  let b3 := findAfterNl numberedAt remainder
  let cutoff := ([b1, b2, b3].filterMap id).foldl min remainder.length
  let window := stripList (remainder.take cutoff)
  if window.isEmpty then none else
  let window := stripList (removeAllInstr instrAttemptA window)
  let window := stripList (removeAllInstr instrAttemptB window)
  if window.isEmpty then none else
  let lines := ((pySplitLines (String.mk window)).map pyStrip).filter (· ≠ "")
  if lines.isEmpty then none else
  let first := lines.headD ""
  let cleaned_first :=
    match descriptorMatch letter first.toList with
    | some rest => pyStrip (String.mk rest)
    | none => pyStrip first
  let lines := if cleaned_first ≠ "" then cleaned_first :: lines.tail else lines.tail
  let lines :=
    match lines with
    | [] => ([] : List String)
    | f :: rest =>
      if f ≠ "" then pyLStripChars [')', ':', '-', ' '] f :: rest else f :: rest
  let lines := lines.filter (· ≠ "")
  if lines.isEmpty then none else
  let value_text := pyStrip (collapseWs (" ".intercalate lines))
  if value_text ≠ "" then some value_text else none

def signatureBoilerplate : List String :=
  ["five steps", "risk management", "identify the hazards", "assess the hazards"]

/-- `extract_prepared_by_fields` with the signature-field cleanup. -/
def extract_prepared_by_fields (text : String) : PreparedBy :=
  let sig :=
    match value_after 'i' text with
    | some s =>
      if signatureBoilerplate.any (fun ph => strContains (pyLower s) ph) then none
      else some s
    | none => none
  { name_last_first_middle_initial := value_after 'a' text
    rank_grade := value_after 'b' text
    duty_title_position := value_after 'c' text
    unit := value_after 'd' text
    work_email := value_after 'e' text
    telephone := value_after 'f' text
    uic_cin := value_after 'g' text
    training_support_or_lesson_plan_or_opord := value_after 'h' text
    signature_of_preparer := sig }

/-! ## Checkboxes and the approval section -/

def checkboxClass : List Char :=
  ['0', '1', '2', '3', '4', '5', '6', '7', '8', '9', 'X', 'x', '✓', '☑']

/-- Anchored attempt of `KW\s*([0-9X✓☑x]+)` (the `\b` is handled by the
caller). -/
def checkboxAttempt (kw : String) (l : List Char) : Option String :=
  (ciLitP kw l).bind fun r =>
    let r := r.dropWhile isPyWs
    let run := r.takeWhile (fun c => checkboxClass.contains c)
    if run.isEmpty then none else some (String.mk run)

def checkboxSearchGo (kw : String) : List Char → Bool → Option String
  | [], _ => none
  | l@(c :: t), prevIsWord =>
    match (if prevIsWord then none else checkboxAttempt kw l) with
    | some v => some v
    | none => checkboxSearchGo kw t (isWordChar c)

/-- `parse_checkbox_value` for the pattern `\bKW\s*([0-9X✓☑x]+)`. -/
def parse_checkbox_value (text : String) (kw : String) : Nat :=
  match checkboxSearchGo kw text.toList false with
  | none => 0
  | some value =>
    -- the captured run holds no whitespace, so `.strip()` is the identity
    if value ∈ ["1", "X", "x", "✓", "☑", "checked", "yes", "true"] then 1
    else if !value.isEmpty && value.toList.all Char.isDigit &&
        value.toList.any (fun c => c ≠ '0') then 1
    else 0

/-- Lookahead `\n13\.\s|\nRISK ASSESSMENT MATRIX` of the approval section. -/
def approvalStop (l : List Char) : Bool :=
  match l with
  | '\n' :: r =>
    (match r with
     | '1' :: '3' :: '.' :: c :: _ => isPyWs c
     | _ => false) || ciPrefix "RISK ASSESSMENT MATRIX".toList r
  | _ => false

/-- `12\.\s*APPROVAL\s+OR\s+DISAPPROVAL` header. -/
def approvalHeaderP (l : List Char) : Option (List Char) :=
  (ciLitP "12." l).bind fun r =>
  (ciLitP "APPROVAL" (r.dropWhile isPyWs)).bind fun r =>
  (wsPlusP r).bind fun r =>
  (ciLitP "OR" r).bind fun r =>
  (wsPlusP r).bind fun r =>
  ciLitP "DISAPPROVAL" r

/-- Anchored attempt of the whole approval-section match (`group(0)`:
header plus the lazy tail up to the stop lookahead or the end). -/
def approvalSectionAttempt (l : List Char) : Option (List Char) :=
  (approvalHeaderP l).map fun rest =>
    let tailLen :=
      match findIdxP approvalStop rest with
      | some k => k
      | none => rest.length
    l.take (l.length - rest.length + tailLen)

/-- Full-line label test
`re.match(r"\s*(12\.\s*APPROVAL\s+OR\s+DISAPPROVAL.*|APPROVE|DISAPPROVE)\s*\Z", line, re.I)`. -/
def approvalLabelLine (line : String) : Bool :=
  let l := line.toList.dropWhile isPyWs
  (approvalHeaderP l).isSome ||
  (match ciLitP "APPROVE" l with
   | some r => r.all isPyWs
   | none => false) ||
  (match ciLitP "DISAPPROVE" l with
   | some r => r.all isPyWs
   | none => false)

/-- `re.search(r"Digitally\s+signed\s+by", section, re.I)`. -/
def signatureSearch (l : List Char) : Bool :=
  (scanFor (fun s =>
    (ciLitP "Digitally" s).bind fun r =>
    (wsPlusP r).bind fun r =>
    (ciLitP "signed" r).bind fun r =>
    (wsPlusP r).bind fun r =>
    ciLitP "by" r) l).isSome

def disapprovalPhrases : List (List String) :=
  [["DISAPPROVED"], ["DISAPPROVAL"], ["NOT", "APPROVED"],
   ["DO", "NOT", "APPROVE"], ["WITHHOLD", "APPROVAL"]]

/-! ## Narrative override of the overall residual risk -/

/-- Verb alternation `assessed\s+as|assessed\s+to\s+be|is` (in order). -/
def narrativeVerbP (l : List Char) : Option (List Char) :=
  match (ciLitP "assessed" l).bind (fun r => (wsPlusP r).bind (ciLitP "as")) with
  | some r => some r
  | none =>
    match (ciLitP "assessed" l).bind (fun r =>
            (wsPlusP r).bind (fun r2 =>
              (ciLitP "to" r2).bind (fun r3 => (wsPlusP r3).bind (ciLitP "be")))) with
    | some r => some r
    | none => ciLitP "is" l

/-- Level alternation
`extremely\s+high|very\s+high|high|medium|moderate|low|very\s+low|negligible`
(in order), returning the remainder so the capture can be sliced off. -/
def narrativeLevelP (l : List Char) : Option (List Char) :=
  match (ciLitP "extremely" l).bind (fun r => (wsPlusP r).bind (ciLitP "high")) with
  | some r => some r
  | none =>
  match (ciLitP "very" l).bind (fun r => (wsPlusP r).bind (ciLitP "high")) with
  | some r => some r
  | none =>
  match ciLitP "high" l with
  | some r => some r
  | none =>
  match ciLitP "medium" l with
  | some r => some r
  | none =>
  match ciLitP "moderate" l with
  | some r => some r
  | none =>
  match ciLitP "low" l with
  | some r => some r
  | none =>
  match (ciLitP "very" l).bind (fun r => (wsPlusP r).bind (ciLitP "low")) with
  | some r => some r
  | none => ciLitP "negligible" l

/-- The lazy `[^.]*?` walk: advance over non-period characters until the verb
and level match; the captured level text is returned. -/
def narrativeTailGo : List Char → Option (List Char)
  | [] => none
  | l@(c :: t) =>
    match (narrativeVerbP l).bind (fun r =>
            (wsPlusP r).bind (fun r2 =>
              (narrativeLevelP r2).map (fun rest => r2.take (r2.length - rest.length)))) with
    | some cap => some cap
    | none => if c == '.' then none else narrativeTailGo t

/-- `overall\s+residual\s+risk` head of the narrative pattern. -/
def narrativeHeadP (l : List Char) : Option (List Char) :=
  (ciLitP "overall" l).bind fun r =>
  (wsPlusP r).bind fun r =>
  (ciLitP "residual" r).bind fun r =>
  (wsPlusP r).bind fun r =>
  ciLitP "risk" r

/-- The narrative search of lines 961-965: the captured level phrase. -/
def narrativeFind (narrative : String) : Option String :=
  (scanFor (fun l => (narrativeHeadP l).bind narrativeTailGo) narrative.toList).map String.mk

/-- `risk_map` of lines 968-977. -/
def narrativeRiskMap : List (String × String) :=
  [("EXTREMELY HIGH", "EXTREMELY HIGH"), ("VERY HIGH", "HIGH"), ("HIGH", "HIGH"),
   ("MEDIUM", "MEDIUM"), ("MODERATE", "MEDIUM"), ("LOW", "LOW"),
   ("VERY LOW", "LOW"), ("NEGLIGIBLE", "LOW")]

/-! ## `parse_dd2977`: the heuristic parser -/

/-- `parse_dd2977`: parse DD2977 form text using the template-based
structure.  Total by construction: every sub-search yields an `Option` and a
failure leaves the corresponding field `none` (or the list empty). -/
def parse_dd2977 (text : String) : DD2977Record :=
  let mission := sectionField (scanFor missionAttempt text.toList)
  let date := sectionField (scanFor dateAttempt text.toList)
  let prepared := extract_prepared_by_fields text
  let subtask_rows := extract_subtask_rows text
  let overall0 := overallSelectedOption text
  let overall :=
    if pyTruthyOS overall0 then overall0
    else
      -- the error case is unreachable here: every heuristic residual field
      -- holds a risk token (a digit 0-5 or M/H/L/E letters), whose floats
      -- are finite — see `calc_riskTokens_no_error`
      match calculate_overall_risk (subtask_rows.map (·.residual_risk_level)) with
      | .ok v => v
      | .error _ => none
  let supervision := overall_supervision_plan_of text
  let narrative := (supervision.getD "")
  let overall :=
    if narrative ≠ "" then
      match narrativeFind narrative with
      | some w =>
        let plan_level := pyUpper (pyStrip w)
        match narrativeRiskMap.find? (fun p => p.1 == plan_level) with
        | some pr => some pr.2
        | none => overall
      | none => overall
    else overall
  let approve0 := parse_checkbox_value text "APPROVE:"
  let disapprove0 := parse_checkbox_value text "DISAPPROVE:"
  let ad :=
    match scanFor approvalSectionAttempt text.toList with
    | none => (approve0, disapprove0)
    | some sec =>
      if approve0 == 0 && disapprove0 == 0 then
        let has_signature := signatureSearch sec
        let flines := (pySplitLines (String.mk sec)).filter (fun ln => !approvalLabelLine ln)
        let filtered := "\n".intercalate flines
        let mentions := disapprovalPhrases.any (fun ph => phraseSearchGo ph filtered.toList false)
        if has_signature && !mentions then (1, disapprove0)
        else if mentions && !has_signature then (approve0, 1)
        else (approve0, disapprove0)
      else (approve0, disapprove0)
  { mission_task_and_description := mission
    date := date
    prepared_by := prepared
    subtasks := subtask_rows
    overall_residual_risk_level := overall
    overall_supervision_plan := supervision
    approve := ad.1
    disapprove := ad.2 }

/-! ## Output assembler: `slugify`, date normalization, `build_outpath` -/

def isLowerAlnum (c : Char) : Bool :=
  ('a' ≤ c && c ≤ 'z') || ('0' ≤ c && c ≤ '9')

/-- `slugify`: lowercase, collapse non-alphanumeric runs to single hyphens,
collapse hyphen runs (a no-op after the previous step, kept from the
source), trim hyphens, fall back to "draw". -/
def slugify (s : String) : String :=
  let s := pyLower s
  let s := String.mk (collapseClassToCharList (fun c => !isLowerAlnum c) '-' s.toList)
  let s := String.mk (collapseClassToCharList (fun c => c == '-') '-' s.toList)
  let s := pyStripChars ['-'] s
  if s ≠ "" then s else "draw"

/-- `\b(20\d{6})\b` / `\b(\d{8})\b` attempt at a position (the caller
checks the left word boundary): exactly eight digits followed by a
non-word character or the end. -/
def dateTokenAttempt (need20 : Bool) (l : List Char) : Option String :=
  let d8 := l.take 8
  if d8.length == 8 && d8.all Char.isDigit &&
     (!need20 || "20".toList.isPrefixOf d8) &&
     !isWordChar ((l.drop 8).headD ' ') then some (String.mk d8)
  else none

def dateTokenSearch (need20 : Bool) : List Char → Bool → Option String
  | [], _ => none
  | l@(c :: t), prevWord =>
    match (if prevWord then none else dateTokenAttempt need20 l) with
    | some s => some s
    | none => dateTokenSearch need20 t (isWordChar c)

/-- `find_date_in_name`. -/
def find_date_in_name (stem : String) : Option String :=
  match dateTokenSearch true stem.toList false with
  | some s => some s
  | none => dateTokenSearch false stem.toList false

/-! ### A model of `datetime.strptime` for the fixed format list

CPython compiles each directive to a regex: `%Y` is exactly four digits,
`%y` two (69-99 meaning 19xx, else 20xx), `%m` is `1[0-2]|0[1-9]|[1-9]`,
`%d` is `3[0-1]|[1-2]\d|0[1-9]|[1-9]| [1-9]`, `%b`/`%B` are the
case-insensitive English month names, and whitespace in the format matches
`\s+`.  The whole string must be consumed, and constructing the date
validates the day against the month length. -/

def monthAbbrs : List String :=
  ["jan", "feb", "mar", "apr", "may", "jun", "jul", "aug", "sep", "oct", "nov", "dec"]

def monthNamesFull : List String :=
  ["january", "february", "march", "april", "may", "june", "july", "august",
   "september", "october", "november", "december"]

def isLeapYear (y : Nat) : Bool := (y % 4 == 0 && y % 100 ≠ 0) || y % 400 == 0

def daysInMonth (y m : Nat) : Nat :=
  if m == 2 then (if isLeapYear y then 29 else 28)
  else if m ∈ [1, 3, 5, 7, 8, 10, 12] then 31
  else 30

def digitVal (c : Char) : Nat := c.toNat - 48

/-- `%Y`: exactly four digits. -/
def pY4 : List Char → Option (Nat × List Char)
  | a :: b :: c :: d :: rest =>
    if a.isDigit && b.isDigit && c.isDigit && d.isDigit then
      some (digitVal a * 1000 + digitVal b * 100 + digitVal c * 10 + digitVal d, rest)
    else none
  | _ => none

/-- `%y`: exactly two digits, 69-99 → 19xx, 00-68 → 20xx. -/
def pY2 : List Char → Option (Nat × List Char)
  | a :: b :: rest =>
    if a.isDigit && b.isDigit then
      let v := digitVal a * 10 + digitVal b
      some (if v ≥ 69 then 1900 + v else 2000 + v, rest)
    else none
  | _ => none

/-- `%m`: `1[0-2]|0[1-9]|[1-9]` (alternatives in order). -/
def pMonthNum : List Char → Option (Nat × List Char)
  | '1' :: b :: rest =>
    if '0' ≤ b && b ≤ '2' then some (10 + digitVal b, rest)
    else some (1, b :: rest)
  | '0' :: b :: rest =>
    if '1' ≤ b && b ≤ '9' then some (digitVal b, rest) else none
  | a :: rest => if '1' ≤ a && a ≤ '9' then some (digitVal a, rest) else none
  | [] => none

/-- `%d`: `3[0-1]|[1-2]\d|0[1-9]|[1-9]| [1-9]` (alternatives in order). -/
def pDayNum : List Char → Option (Nat × List Char)
  | '3' :: b :: rest =>
    if b == '0' || b == '1' then some (30 + digitVal b, rest)
    else some (3, b :: rest)
  | '1' :: b :: rest =>
    if b.isDigit then some (10 + digitVal b, rest) else some (1, b :: rest)
  | '2' :: b :: rest =>
    if b.isDigit then some (20 + digitVal b, rest) else some (2, b :: rest)
  | '0' :: b :: rest =>
    if '1' ≤ b && b ≤ '9' then some (digitVal b, rest) else none
  | ' ' :: b :: rest =>
    if '1' ≤ b && b ≤ '9' then some (digitVal b, rest) else none
  | a :: rest => if '1' ≤ a && a ≤ '9' then some (digitVal a, rest) else none
  | [] => none

/-- `%b` / `%B`: case-insensitive month-name alternation. -/
def pMonthName (names : List String) (l : List Char) : Option (Nat × List Char) :=
  go names 1
where
  go : List String → Nat → Option (Nat × List Char)
    | [], _ => none
    | n :: ns, i =>
      match ciLitP n l with
      | some rest => some (i, rest)
      | none => go ns (i + 1)

/-- A format-literal character (`-`, `/`). -/
def pLitChar (ch : Char) : List Char → Option (List Char)
  | c :: rest => if c == ch then some rest else none
  | [] => none

/-- Calendar validation (`datetime(year, month, day)`): year ≥ 1 and the day
within the month. -/
def validDate (y m d : Nat) : Bool := 1 ≤ y && 1 ≤ d && d ≤ daysInMonth y m

def dateYmdString (y m d : Nat) : String :=
  let pad2 := fun (n : Nat) => if n < 10 then "0" ++ toString n else toString n
  let y4 :=
    if y < 10 then "000" ++ toString y
    else if y < 100 then "00" ++ toString y
    else if y < 1000 then "0" ++ toString y
    else toString y
  y4 ++ pad2 m ++ pad2 d

/-- `%Y-%m-%d`. -/
def fmtYmdDash (l : List Char) : Option (Nat × Nat × Nat) :=
  (pY4 l).bind fun (y, r) =>
  (pLitChar '-' r).bind fun r =>
  (pMonthNum r).bind fun (m, r) =>
  (pLitChar '-' r).bind fun r =>
  (pDayNum r).bind fun (d, r) =>
  if r.isEmpty then some (y, m, d) else none

/-- `%m/%d/%Y`. -/
def fmtMdySlash (l : List Char) : Option (Nat × Nat × Nat) :=
  (pMonthNum l).bind fun (m, r) =>
  (pLitChar '/' r).bind fun r =>
  (pDayNum r).bind fun (d, r) =>
  (pLitChar '/' r).bind fun r =>
  (pY4 r).bind fun (y, r) =>
  if r.isEmpty then some (y, m, d) else none

/-- `%d/%m/%Y`. -/
def fmtDmySlash (l : List Char) : Option (Nat × Nat × Nat) :=
  (pDayNum l).bind fun (d, r) =>
  (pLitChar '/' r).bind fun r =>
  (pMonthNum r).bind fun (m, r) =>
  (pLitChar '/' r).bind fun r =>
  (pY4 r).bind fun (y, r) =>
  if r.isEmpty then some (y, m, d) else none

/-- `%d%b%Y`. -/
def fmtDbY (l : List Char) : Option (Nat × Nat × Nat) :=
  (pDayNum l).bind fun (d, r) =>
  (pMonthName monthAbbrs r).bind fun (m, r) =>
  (pY4 r).bind fun (y, r) =>
  if r.isEmpty then some (y, m, d) else none

/-- `%d%b%y`. -/
def fmtDby (l : List Char) : Option (Nat × Nat × Nat) :=
  (pDayNum l).bind fun (d, r) =>
  (pMonthName monthAbbrs r).bind fun (m, r) =>
  (pY2 r).bind fun (y, r) =>
  if r.isEmpty then some (y, m, d) else none

/-- `%d %b %Y` (format whitespace matches `\s+`). -/
def fmtD_b_Y (l : List Char) : Option (Nat × Nat × Nat) :=
  (pDayNum l).bind fun (d, r) =>
  (wsPlusP r).bind fun r =>
  (pMonthName monthAbbrs r).bind fun (m, r) =>
  (wsPlusP r).bind fun r =>
  (pY4 r).bind fun (y, r) =>
  if r.isEmpty then some (y, m, d) else none

/-- `%d %B %Y`. -/
def fmtD_B_Y (l : List Char) : Option (Nat × Nat × Nat) :=
  (pDayNum l).bind fun (d, r) =>
  (wsPlusP r).bind fun r =>
  (pMonthName monthNamesFull r).bind fun (m, r) =>
  (wsPlusP r).bind fun r =>
  (pY4 r).bind fun (y, r) =>
  if r.isEmpty then some (y, m, d) else none

/-- The `fmts` loop of `normalize_date_to_yyyymmdd`: the first format that
parses `s.strip()` to a valid calendar date. -/
def strptimeFormatsDate (s : String) : Option String :=
  let l := stripList s.toList
  let tryOne := fun (r : Option (Nat × Nat × Nat)) =>
    r.bind fun (y, m, d) => if validDate y m d then some (dateYmdString y m d) else none
  match tryOne (fmtYmdDash l) with
  | some v => some v
  | none =>
  match tryOne (fmtMdySlash l) with
  | some v => some v
  | none =>
  match tryOne (fmtDmySlash l) with
  | some v => some v
  | none =>
  match tryOne (fmtDbY l) with
  | some v => some v
  | none =>
  match tryOne (fmtDby l) with
  | some v => some v
  | none =>
  match tryOne (fmtD_b_Y l) with
  | some v => some v
  | none => tryOne (fmtD_B_Y l)

/-- Attempt of the fallback scan regex at a position: `(20\d{2})`, an
optional separator (hyphen, slash or dot), `(0[1-9]|1[0-2])`, another
optional separator, `(0[1-9]|[12]\d|3[01])` (greedy optional separators are
deterministic: digits and separators are disjoint). -/
def rawYmdAttempt (l : List Char) : Option String :=
  match l with
  | '2' :: '0' :: a :: b :: rest =>
    if a.isDigit && b.isDigit then
      let rest1 := match rest with
        | c :: t => if c ∈ ['-', '/', '.'] then t else rest
        | [] => rest
      match rest1 with
      | m1 :: m2 :: rest2 =>
        if (m1 == '0' && '1' ≤ m2 && m2 ≤ '9') || (m1 == '1' && '0' ≤ m2 && m2 ≤ '2') then
          let rest3 := match rest2 with
            | c :: t => if c ∈ ['-', '/', '.'] then t else rest2
            | [] => rest2
          match rest3 with
          | d1 :: d2 :: _ =>
            if (d1 == '0' && '1' ≤ d2 && d2 ≤ '9') ||
               ((d1 == '1' || d1 == '2') && d2.isDigit) ||
               (d1 == '3' && (d2 == '0' || d2 == '1')) then
              some (String.mk ['2', '0', a, b, m1, m2, d1, d2])
            else none
          | _ => none
        else none
      | _ => none
    else none
  | _ => none

/-- `normalize_date_to_yyyymmdd`. -/
def normalize_date_to_yyyymmdd (s : String) : Option String :=
  if s = "" then none
  else
    match strptimeFormatsDate s with
    | some v => some v
    | none => scanFor rawYmdAttempt s.toList

/-- `build_outpath`, modelled as the produced file name.  `mtimeYmd` stands
for `datetime.fromtimestamp(pdf_path.stat().st_mtime).strftime("%Y%m%d")`,
the I/O boundary.  The Python `or` chain tests truthiness; both date
finders only ever return eight-digit (hence non-empty) strings. -/
def build_outpath_name (stem : String) (parsedDate : Option String) (mtimeYmd : String) : String :=
  let yyyymmdd :=
    match find_date_in_name stem with
    | some d => d
    | none =>
      match normalize_date_to_yyyymmdd (parsedDate.getD "") with
      | some d => d
      | none => mtimeYmd
  yyyymmdd ++ "-" ++ slugify stem ++ ".json"

/-! ## `process_pdf`: the top-level control flow

The three text backends and the XFA stream decode are I/O: a document is
modelled by what each of them would return.  Writing the JSON file is
abstracted into the `ProcResult` constructors (`wroteXfa`/`wroteHeur` carry
the serialized record); `process_pdf`'s blanket exception handler concerns
only I/O failures outside this model. -/

structure PdfDoc where
  xfa : Option PyVal
  pymupdf_text : String
  pdfminer_text : String
  ocr_text : String

/-- `normalize_text`: fold `\r` to `\n`, collapse horizontal whitespace,
collapse 3+ blank lines. -/
def collapseNlRunsGo : Nat → List Char → List Char
  | n, [] => List.replicate (min n 2) '\n'
  | n, c :: cs =>
    if c == '\n' then collapseNlRunsGo (n + 1) cs
    else List.replicate (min n 2) '\n' ++ c :: collapseNlRunsGo 0 cs

def collapseNlRuns (l : List Char) : List Char := collapseNlRunsGo 0 l

def normalize_text (t : String) : String :=
  let l := t.toList.map (fun c => if c == '\r' then '\n' else c)
  let l := collapseClassToCharList (fun c => c == ' ' || c == '\t') ' ' l
  String.mk (collapseNlRuns l)

/-- `extract_text_multibackend`: first backend returning non-empty,
non-whitespace text wins; forced OCR skips the first two. -/
def extract_text_multibackend (doc : PdfDoc) (force_ocr : Bool) : String :=
  if force_ocr then normalize_text doc.ocr_text
  else
    if doc.pymupdf_text ≠ "" && pyStrip doc.pymupdf_text ≠ "" then
      normalize_text doc.pymupdf_text
    else if doc.pdfminer_text ≠ "" && pyStrip doc.pdfminer_text ≠ "" then
      normalize_text doc.pdfminer_text
    else if doc.ocr_text ≠ "" && pyStrip doc.ocr_text ≠ "" then
      normalize_text doc.ocr_text
    else ""

inductive ProcResult where
  /-- The structured record was serialized (the XFA path succeeded). -/
  | wroteXfa (record : DD2977Record)
  /-- The proprietary-renderer placeholder was detected: the distinct
  diagnostic asking for the optional XFA dependencies is reported. -/
  | xfaBlocked
  /-- No backend produced text: the generic extraction failure is reported. -/
  | noText
  /-- The heuristic record was serialized. -/
  | wroteHeur (record : DD2977Record)
  deriving Repr, DecidableEq

/-- `process_pdf`.  `parse_dd2977_xfa` returns `None` or an always-non-empty
dict, so Python's `if parsed:` is the `Option` test. -/
def process_pdf (doc : PdfDoc) (force_ocr : Bool) : ProcResult :=
  match parse_dd2977_xfa doc.xfa with
  | some parsed => .wroteXfa parsed
  | none =>
    let text := extract_text_multibackend doc force_ocr
    if strContains text "Please wait" && strContains text "Adobe Reader" then .xfaBlocked
    else if pyStrip text = "" then .noText
    else .wroteHeur (parse_dd2977 text)

/-! ## Supporting lemmas -/

theorem dropWhile_idem (p : Char → Bool) (l : List Char) :
    (l.dropWhile p).dropWhile p = l.dropWhile p := by
  induction l with
  | nil => rfl
  | cons c cs ih =>
    rw [List.dropWhile_cons]
    split
    · exact ih
    · rw [List.dropWhile_cons]; simp_all

theorem dropWhile_eq_self_of_head (p : Char → Bool) (l : List Char)
    (h : ∀ c, l.head? = some c → p c = false) : l.dropWhile p = l := by
  cases l with
  | nil => rfl
  | cons c cs => rw [List.dropWhile_cons]; simp [h c rfl]

theorem head?_dropWhile_false (p : Char → Bool) (l : List Char) :
    ∀ c, (l.dropWhile p).head? = some c → p c = false := by
  intro c hc
  have := List.head?_dropWhile_not p l
  rw [hc] at this
  exact this

/-- `str.strip()` is idempotent. -/
theorem stripList_idem (l : List Char) : stripList (stripList l) = stripList l := by
  unfold stripList
  set p := isPyWs with hp
  set u := l.dropWhile p with hu
  set v := u.reverse.dropWhile p with hv
  -- the outer strip acts on `v.reverse`
  have hvrev : v.reverse.dropWhile p = v.reverse := by
    apply dropWhile_eq_self_of_head
    intro c hc
    -- head of the reverse is the last element of `v`
    have hgl : v.getLast? = some c := by
      rwa [List.head?_reverse] at hc
    -- `v` is a suffix of `u.reverse`, so its last element is `u.reverse`'s
    rcases List.dropWhile_suffix (l := u.reverse) p with ⟨a, ha⟩
    have h2 : (u.reverse).getLast? = some c := by
      rw [← ha, List.getLast?_append, hgl]; rfl
    have h3 : u.head? = some c := by rwa [List.getLast?_reverse] at h2
    exact head?_dropWhile_false p l c h3
  rw [hvrev, List.reverse_reverse, dropWhile_idem]

theorem pyStrip_idem (s : String) : pyStrip (pyStrip s) = pyStrip s := by
  unfold pyStrip
  have : (String.mk (stripList s.toList)).toList = stripList s.toList := rfl
  rw [this, stripList_idem]

/-- Non-`none` results of `_coerce_to_string` are non-empty and already
stripped. -/
theorem coerceDictAux_ok
    (ih : ∀ v ∈ l.map Prod.snd, ∀ s, _coerce_to_string v = some s → pyStrip s = s ∧ s ≠ "") :
    ∀ s, _coerce_to_string.coerceDictAux l = some s → pyStrip s = s ∧ s ≠ "" := by
  induction l with
  | nil => intro s h; simp [_coerce_to_string.coerceDictAux] at h
  | cons kv rest ihl =>
    intro s h
    rw [_coerce_to_string.coerceDictAux] at h
    revert h
    cases hv : _coerce_to_string kv.2 with
    | none =>
      intro h
      exact ihl (fun v hvmem => ih v (by simp [hvmem]) ) s h
    | some r =>
      intro h
      have h' : (if r ≠ "" then some r else _coerce_to_string.coerceDictAux rest) = some s := h
      by_cases hr : r = ""
      · rw [if_neg (not_not_intro hr)] at h'
        exact ihl (fun v hvmem => ih v (by simp [hvmem])) s h'
      · rw [if_pos hr] at h'
        obtain rfl : r = s := by injection h'
        exact ih kv.2 (by simp) r hv

theorem coerceListAux_ok
    (ih : ∀ v ∈ l, ∀ s, _coerce_to_string v = some s → pyStrip s = s ∧ s ≠ "") :
    ∀ s, _coerce_to_string.coerceListAux l = some s → pyStrip s = s ∧ s ≠ "" := by
  induction l with
  | nil => intro s h; simp [_coerce_to_string.coerceListAux] at h
  | cons v rest ihl =>
    intro s h
    rw [_coerce_to_string.coerceListAux] at h
    revert h
    cases hv : _coerce_to_string v with
    | none =>
      intro h
      exact ihl (fun w hw => ih w (by simp [hw])) s h
    | some r =>
      intro h
      have h' : (if r ≠ "" then some r else _coerce_to_string.coerceListAux rest) = some s := h
      by_cases hr : r = ""
      · rw [if_neg (not_not_intro hr)] at h'
        exact ihl (fun w hw => ih w (by simp [hw])) s h'
      · rw [if_pos hr] at h'
        obtain rfl : r = s := by injection h'
        exact ih v (by simp) r hv

theorem coerce_ok : ∀ (v : PyVal) (s : String),
    _coerce_to_string v = some s → pyStrip s = s ∧ s ≠ ""
  | .vnone, s, h => by simp [_coerce_to_string] at h
  | .vstr t, s, h => by
    rw [_coerce_to_string] at h
    by_cases ht : pyStrip t = ""
    · simp [ht] at h
    · rw [if_neg ht] at h
      obtain rfl : pyStrip t = s := by injection h
      exact ⟨pyStrip_idem t, ht⟩
  | .vdict l, s, h => by
    rw [_coerce_to_string] at h
    exact coerceDictAux_ok (fun v hv s' h' => coerce_ok v s' h') s h
  | .vlist l, s, h => by
    rw [_coerce_to_string] at h
    exact coerceListAux_ok (fun v hv s' h' => coerce_ok v s' h') s h
termination_by v => sizeOf v
decreasing_by
  · rcases List.mem_map.mp hv with ⟨kv, hkv, rfl⟩
    have h1 : sizeOf kv < sizeOf l := List.sizeOf_lt_of_mem hkv
    have h2 : sizeOf kv.2 < sizeOf kv := by
      rcases kv with ⟨a, b⟩
      simp only [Prod.mk.sizeOf_spec]
      omega
    simp only [PyVal.vdict.sizeOf_spec]
    omega
  · have h1 : sizeOf v < sizeOf l := List.sizeOf_lt_of_mem hv
    simp only [PyVal.vlist.sizeOf_spec]
    omega

/-! ## Claim C3: the risk normalizer -/

/-- `_normalize_risk_level` applied to a plain raw string. -/
def normStr (s : String) : Option String := _normalize_risk_level (.vstr s)

/-- C3: the risk normalizer maps "Extremely High", "Very High", "High",
"Medium", "Med", "Moderate", "Low", "Negligible" (case-insensitively), the
numerals 0-3 and the codes EH/H/M/L into the canonical set, and returns any
other non-empty value as its trimmed original string ("purple" passes
through unchanged). -/
theorem claim_C3 :
    (∀ s : String, pyUpper (pyStrip s) = "EXTREMELY HIGH" → normStr s = some "EH")
  ∧ (∀ s : String, pyUpper (pyStrip s) = "VERY HIGH" → normStr s = some "H")
  ∧ (∀ s : String, pyUpper (pyStrip s) = "HIGH" → normStr s = some "H")
  ∧ (∀ s : String, pyUpper (pyStrip s) = "MEDIUM" → normStr s = some "M")
  ∧ (∀ s : String, pyUpper (pyStrip s) = "MED" → normStr s = some "M")
  ∧ (∀ s : String, pyUpper (pyStrip s) = "MODERATE" → normStr s = some "M")
  ∧ (∀ s : String, pyUpper (pyStrip s) = "LOW" → normStr s = some "L")
  ∧ (∀ s : String, pyUpper (pyStrip s) = "NEGLIGIBLE" → normStr s = some "L")
  ∧ (∀ s : String, pyStrip s = "0" → normStr s = some "L")
  ∧ (∀ s : String, pyStrip s = "1" → normStr s = some "M")
  ∧ (∀ s : String, pyStrip s = "2" → normStr s = some "H")
  ∧ (∀ s : String, pyStrip s = "3" → normStr s = some "EH")
  ∧ (∀ s : String, pyUpper (pyStrip s) ∈ ["EH", "H", "M", "L"] →
      normStr s = some (pyUpper (pyStrip s)))
  ∧ (∀ s : String, pyStrip s ≠ "" →
      riskWordMapping.find? (fun p => p.1 == pyUpper (pyStrip s)) = none →
      riskNumericMap.find? (fun p => p.1 == pyStrip s) = none →
      pyUpper (pyStrip s) ∉ ["EH", "H", "M", "L"] →
      normStr s = some (pyStrip s))
  ∧ normStr "purple" = some "purple" := by
  have hcoe : ∀ s : String, pyStrip s ≠ "" →
      _coerce_to_string (.vstr s) = some (pyStrip s) := by
    intro s h
    rw [_coerce_to_string]
    simp [h]
  have hred : ∀ s : String, pyStrip s ≠ "" →
      normStr s =
        (match riskWordMapping.find? (fun p => p.1 == pyUpper (pyStrip s)) with
         | some p => some p.2
         | none =>
           match riskNumericMap.find? (fun p => p.1 == pyStrip s) with
           | some p => some p.2
           | none =>
             if pyUpper (pyStrip s) ∈ ["EH", "H", "M", "L"] then some (pyUpper (pyStrip s))
             else some (pyStrip s)) := by
    intro s hne
    unfold normStr _normalize_risk_level
    rw [hcoe s hne]
  have hnum_none : ∀ s : String, pyUpper (pyStrip s) ∈ ["EH", "H", "M", "L"] →
      riskNumericMap.find? (fun p => p.1 == pyStrip s) = none := by
    intro s hmem
    cases hf : riskNumericMap.find? (fun p => p.1 == pyStrip s) with
    | none => rfl
    | some pr =>
      have h1 := List.find?_some hf
      have h3 : pr.1 = pyStrip s := by simpa using h1
      have h2 := List.mem_of_find?_eq_some hf
      rw [← h3] at hmem
      simp only [riskNumericMap, List.mem_cons, List.not_mem_nil, or_false] at h2
      rcases h2 with rfl | rfl | rfl | rfl <;> exact absurd hmem (by decide)
  have hword : ∀ (s : String) (w c : String),
      riskWordMapping.find? (fun p => p.1 == w) = some (w, c) →
      pyUpper (pyStrip s) = w → normStr s = some c := by
    intro s w c hfind h
    have hne : pyStrip s ≠ "" := by
      intro h0
      rw [h0] at h
      have h' : ("" : String) = w := h
      have hw : w ∈ riskWordMapping.map Prod.fst :=
        List.mem_map_of_mem _ (List.mem_of_find?_eq_some hfind)
      rw [← h'] at hw
      revert hw; decide
    rw [hred s hne, h, hfind]
  refine ⟨?_, ?_, ?_, ?_, ?_, ?_, ?_, ?_, ?_, ?_, ?_, ?_, ?_, ?_, ?_⟩
  · exact fun s h => hword s "EXTREMELY HIGH" "EH" (by decide) h
  · exact fun s h => hword s "VERY HIGH" "H" (by decide) h
  · exact fun s h => hword s "HIGH" "H" (by decide) h
  · exact fun s h => hword s "MEDIUM" "M" (by decide) h
  · exact fun s h => hword s "MED" "M" (by decide) h
  · exact fun s h => hword s "MODERATE" "M" (by decide) h
  · exact fun s h => hword s "LOW" "L" (by decide) h
  · exact fun s h => hword s "NEGLIGIBLE" "L" (by decide) h
  · intro s h
    rw [hred s (by rw [h]; decide), h]
    rfl
  · intro s h
    rw [hred s (by rw [h]; decide), h]
    rfl
  · intro s h
    rw [hred s (by rw [h]; decide), h]
    rfl
  · intro s h
    rw [hred s (by rw [h]; decide), h]
    rfl
  · intro s h
    have hne : pyStrip s ≠ "" := by
      intro h0
      rw [h0] at h
      revert h; decide
    rw [hred s hne, hnum_none s h]
    simp only [List.mem_cons, List.not_mem_nil, or_false] at h
    rcases h with h | h | h | h <;> rw [h] <;> rfl
  · intro s hne h2 h3 h4
    rw [hred s hne, h2, h3, if_neg h4]
  · decide

/-- C3 witness. -/
theorem claim_C3_witness : normStr " vErY hIgH " = some "H" :=
  claim_C3.2.1 " vErY hIgH " (by decide)

/-! ## Claim C2: `calculate_overall_risk` -/

theorem pyMaxByAux_spec (f : String → Nat) :
    ∀ (xs : List String) (b : String),
      pyMaxByAux f b xs ∈ b :: xs ∧ f b ≤ f (pyMaxByAux f b xs) ∧
        ∀ x ∈ xs, f x ≤ f (pyMaxByAux f b xs) := by
  intro xs
  induction xs with
  | nil => intro b; simp [pyMaxByAux]
  | cons x xs ih =>
    intro b
    rw [pyMaxByAux]
    by_cases hxb : f x > f b
    · rw [if_pos hxb]
      rcases ih x with ⟨h1, h2, h3⟩
      refine ⟨?_, ?_, ?_⟩
      · rcases List.mem_cons.mp h1 with h | h
        · rw [h]; simp
        · simp [h]
      · omega
      · intro y hy
        rcases List.mem_cons.mp hy with h | h
        · rw [h]; exact h2
        · exact h3 y h
    · rw [if_neg hxb]
      push_neg at hxb
      rcases ih b with ⟨h1, h2, h3⟩
      refine ⟨?_, ?_, ?_⟩
      · rcases List.mem_cons.mp h1 with h | h
        · rw [h]; simp
        · simp [h]
      · exact h2
      · intro y hy
        rcases List.mem_cons.mp hy with h | h
        · rw [h]; omega
        · exact h3 y h

/-- `pyFloatGt` never holds with a NaN on the left. -/
theorem pyFloatGt_nan_left (b : PyFloat) : pyFloatGt PyFloat.nan b = false := by
  cases b with
  | finite q => rfl
  | inf s => cases s <;> rfl
  | nan => rfl

/-- `pyFloatGt` never holds with a NaN on the right. -/
theorem pyFloatGt_nan_right (a : PyFloat) : pyFloatGt a PyFloat.nan = false := by
  cases a with
  | finite q => rfl
  | inf s => cases s <;> rfl
  | nan => rfl

/-- `pyFloatGt` is irreflexive. -/
theorem pyFloatGt_irrefl (a : PyFloat) : pyFloatGt a a = false := by
  cases a with
  | finite q => simp [pyFloatGt]
  | inf s => cases s <;> rfl
  | nan => rfl

/-- Negative infinity beats nothing. -/
theorem pyFloatGt_ninf_left (b : PyFloat) : pyFloatGt (PyFloat.inf true) b = false := by
  cases b with
  | finite q => rfl
  | inf s => cases s <;> rfl
  | nan => rfl

/-- Nothing beats positive infinity. -/
theorem pyFloatGt_pinf_right (a : PyFloat) : pyFloatGt a (PyFloat.inf false) = false := by
  cases a with
  | finite q => rfl
  | inf s => cases s <;> rfl
  | nan => rfl

/-- `pyFloatGt` is transitive. -/
theorem pyFloatGt_trans : ∀ {a b c : PyFloat},
    pyFloatGt a b = true → pyFloatGt b c = true → pyFloatGt a c = true := by
  intro a b c h1 h2
  cases a with
  | nan => rw [pyFloatGt_nan_left] at h1; cases h1
  | inf sa =>
    cases sa with
    | true => rw [pyFloatGt_ninf_left] at h1; cases h1
    | false =>
      cases c with
      | nan => rw [pyFloatGt_nan_right] at h2; cases h2
      | inf sc =>
        cases sc with
        | false => rw [pyFloatGt_pinf_right] at h2; cases h2
        | true => rfl
      | finite r => rfl
  | finite q =>
    cases b with
    | nan => rw [pyFloatGt_nan_right] at h1; cases h1
    | inf sb =>
      cases sb with
      | false => rw [pyFloatGt_pinf_right] at h1; cases h1
      | true => rw [pyFloatGt_ninf_left] at h2; cases h2
    | finite p =>
      cases c with
      | nan => rw [pyFloatGt_nan_right] at h2; cases h2
      | inf sc =>
        cases sc with
        | false => rw [pyFloatGt_pinf_right] at h2; cases h2
        | true => rfl
      | finite r =>
        have h1' : p < q := by simpa [pyFloatGt] using h1
        have h2' : r < p := by simpa [pyFloatGt] using h2
        simpa [pyFloatGt] using lt_trans h2' h1'

/-- On non-NaN values `pyFloatGt` is a strict total order: incomparable
values are equal. -/
theorem pyFloatGt_total : ∀ {a b : PyFloat}, a ≠ PyFloat.nan → b ≠ PyFloat.nan →
    pyFloatGt a b = false → pyFloatGt b a = true ∨ a = b := by
  intro a b ha hb h
  cases a with
  | nan => exact absurd rfl ha
  | inf sa =>
    cases b with
    | nan => exact absurd rfl hb
    | inf sb =>
      cases sa <;> cases sb
      · exact Or.inr rfl
      · simp [pyFloatGt] at h
      · exact Or.inl rfl
      · exact Or.inr rfl
    | finite p =>
      cases sa
      · simp [pyFloatGt] at h
      · exact Or.inl rfl
  | finite q =>
    cases b with
    | nan => exact absurd rfl hb
    | inf sb =>
      cases sb
      · exact Or.inl rfl
      · simp [pyFloatGt] at h
    | finite p =>
      have h' : ¬ p < q := by simpa [pyFloatGt] using h
      rcases lt_or_eq_of_le (le_of_not_lt h') with hlt | heq
      · exact Or.inl (by simpa [pyFloatGt] using hlt)
      · exact Or.inr (by rw [heq])

/-- With a NaN best nothing ever compares greater, so the best stays NaN. -/
theorem pyFloatMaxAux_nan : ∀ (xs : List PyFloat),
    pyFloatMaxAux PyFloat.nan xs = PyFloat.nan := by
  intro xs
  induction xs with
  | nil => rfl
  | cons x xs ih =>
    rw [pyFloatMaxAux, pyFloatGt_nan_right, if_neg (by simp)]
    exact ih

/-- Python's running `max` yields a list element that no element beats
under `>` (false NaN comparisons included). -/
theorem pyFloatMaxAux_spec :
    ∀ (xs : List PyFloat) (b : PyFloat),
      pyFloatMaxAux b xs ∈ b :: xs ∧
      pyFloatGt b (pyFloatMaxAux b xs) = false ∧
      ∀ x ∈ xs, pyFloatGt x (pyFloatMaxAux b xs) = false := by
  intro xs
  induction xs with
  | nil =>
    intro b
    exact ⟨List.mem_cons_self b [], pyFloatGt_irrefl b,
      fun x hx => absurd hx (List.not_mem_nil x)⟩
  | cons x xs ih =>
    intro b
    rw [pyFloatMaxAux]
    by_cases hxb : pyFloatGt x b = true
    · rw [if_pos hxb]
      obtain ⟨h1, h2, h3⟩ := ih x
      have hb : pyFloatGt b (pyFloatMaxAux x xs) = false := by
        rcases Bool.eq_false_or_eq_true (pyFloatGt b (pyFloatMaxAux x xs)) with ht | hf
        · have := pyFloatGt_trans hxb ht
          rw [h2] at this
          cases this
        · exact hf
      refine ⟨?_, hb, ?_⟩
      · rcases List.mem_cons.mp h1 with h | h
        · rw [h]; exact List.mem_cons_of_mem b (List.mem_cons_self x xs)
        · exact List.mem_cons_of_mem b (List.mem_cons_of_mem x h)
      · intro y hy
        rcases List.mem_cons.mp hy with rfl | hmem
        · exact h2
        · exact h3 y hmem
    · have hxb' : pyFloatGt x b = false := by simpa using hxb
      rw [if_neg hxb]
      obtain ⟨h1, h2, h3⟩ := ih b
      refine ⟨?_, h2, ?_⟩
      · rcases List.mem_cons.mp h1 with h | h
        · rw [h]; exact List.mem_cons_self b (x :: xs)
        · exact List.mem_cons_of_mem b (List.mem_cons_of_mem x h)
      · intro y hy
        rcases List.mem_cons.mp hy with rfl | hmem
        · by_cases hxnan : y = PyFloat.nan
          · rw [hxnan]; exact pyFloatGt_nan_left _
          · by_cases hbnan : b = PyFloat.nan
            · rw [hbnan, pyFloatMaxAux_nan]
              exact pyFloatGt_nan_right y
            · rcases pyFloatGt_total hxnan hbnan hxb' with hba | heq
              · rcases Bool.eq_false_or_eq_true
                  (pyFloatGt y (pyFloatMaxAux b xs)) with ht | hf
                · have := pyFloatGt_trans hba ht
                  rw [h2] at this
                  cases this
                · exact hf
              · rw [heq]
                exact h2
        · exact h3 y hmem

/-- A running maximum over only finite floats is finite. -/
theorem pyFloatMaxAux_finite (xs : List PyFloat) (b : PyFloat)
    (h : ∀ x ∈ b :: xs, ∃ q, x = PyFloat.finite q) :
    ∃ q, pyFloatMaxAux b xs = PyFloat.finite q :=
  h _ (pyFloatMaxAux_spec xs b).1

unseal Rat.add Rat.mul Rat.inv Rat.sub in
/-- C2 counterexample: on `["5", "purple"]` no element is canonical and
"purple" does not parse as a number, so the claim requires `null`; the code
returns `"5"` because only one numeric element is needed. -/
theorem claim_C2_counterexample :
    calculate_overall_risk [some "5", some "purple"] = .ok (some "5") ∧
    (cleanRisks [some "5", some "purple"]).filter isCanonicalRisk = [] ∧
    pyFloat? "PURPLE" = none ∧
    calculate_overall_risk [some "5", some "purple"] ≠ .ok none := by
  refine ⟨by decide, by decide, by decide, by decide⟩

unseal Rat.add Rat.mul Rat.inv Rat.sub in
/-- C2 amended: the ordering law and the empty list are as claimed and the
canonical branch returns a maximum-severity canonical element; but the
numeric branch fires as soon as at least one cleaned element parses under
`float()` (not only when all do) — underscore-grouped digits included, so
`["1_0"]` yields "10" — and takes Python's running maximum under IEEE `>`
(a NaN never replaces nor beats a best): a finite maximum is truncated
toward zero and rendered in decimal, while an infinite or NaN maximum makes
the uncaught `int()` conversion raise, as on `["INF"]`; only when no
element parses (or the list is empty) is the result null. -/
theorem claim_C2_amended :
    calculate_overall_risk [some "L", some "H", some "M"] = .ok (some "H")
  ∧ calculate_overall_risk [] = .ok none
  ∧ calculate_overall_risk [some "1_0"] = .ok (some "10")
  ∧ calculate_overall_risk [some "INF"] = .error ()
  ∧ (∀ rs : List (Option String),
      ((cleanRisks rs).filter isCanonicalRisk ≠ [] →
        ∃ c, calculate_overall_risk rs = .ok (some c) ∧
          c ∈ (cleanRisks rs).filter isCanonicalRisk ∧
          ∀ c' ∈ (cleanRisks rs).filter isCanonicalRisk,
            riskOrderOf c' ≤ riskOrderOf c)
      ∧ (∀ f fs, (cleanRisks rs).filter isCanonicalRisk = [] →
          (cleanRisks rs).filterMap pyFloat? = f :: fs →
          (pyFloatMaxAux f fs ∈ f :: fs ∧
            ∀ x ∈ f :: fs, pyFloatGt x (pyFloatMaxAux f fs) = false) ∧
          (∀ q, pyFloatMaxAux f fs = PyFloat.finite q →
            calculate_overall_risk rs = .ok (some (toString (pyTruncInt q)))) ∧
          (∀ s, pyFloatMaxAux f fs = PyFloat.inf s →
            calculate_overall_risk rs = .error ()) ∧
          (pyFloatMaxAux f fs = PyFloat.nan →
            calculate_overall_risk rs = .error ()))
      ∧ ((cleanRisks rs).filter isCanonicalRisk = [] →
          (cleanRisks rs).filterMap pyFloat? = [] →
          calculate_overall_risk rs = .ok none)) := by
  refine ⟨by decide, by decide, by decide, by decide, ?_⟩
  intro rs
  refine ⟨?_, ?_, ?_⟩
  · intro hcat
    cases hc : (cleanRisks rs).filter isCanonicalRisk with
    | nil => exact absurd hc hcat
    | cons c cs =>
      have hrs : rs.isEmpty = false := by
        cases rs with
        | nil => simp [cleanRisks] at hc
        | cons a as => rfl
      have hcalc : calculate_overall_risk rs = .ok (some (pyMaxBy riskOrderOf c cs)) := by
        simp only [calculate_overall_risk, hrs, hc, Bool.false_eq_true, if_false]
      rcases pyMaxByAux_spec riskOrderOf cs c with ⟨h1, h2, h3⟩
      refine ⟨pyMaxBy riskOrderOf c cs, hcalc, ?_, ?_⟩
      · exact h1
      · intro c' hc'
        rcases List.mem_cons.mp hc' with h | h
        · rw [h]; exact h2
        · exact h3 c' h
  · intro f fs hcat hn
    have hrs : rs.isEmpty = false := by
      cases rs with
      | nil => simp [cleanRisks] at hn
      | cons a as => rfl
    rcases pyFloatMaxAux_spec fs f with ⟨h1, h2, h3⟩
    refine ⟨⟨h1, ?_⟩, ?_, ?_, ?_⟩
    · intro x hx
      rcases List.mem_cons.mp hx with rfl | hmem
      · exact h2
      · exact h3 x hmem
    · intro q hq
      simp only [calculate_overall_risk, hrs, hcat, hn, hq, Bool.false_eq_true, if_false]
    · intro s hs
      simp only [calculate_overall_risk, hrs, hcat, hn, hs, Bool.false_eq_true, if_false]
    · intro hnn
      simp only [calculate_overall_risk, hrs, hcat, hn, hnn, Bool.false_eq_true, if_false]
  · intro hcat hnum
    cases hrs0 : rs with
    | nil => rfl
    | cons a as =>
      rw [← hrs0]
      have hrs : rs.isEmpty = false := by rw [hrs0]; rfl
      simp only [calculate_overall_risk, hrs, hcat, hnum, Bool.false_eq_true, if_false]

unseal Rat.add Rat.mul Rat.inv Rat.sub in
/-- C2 amended witness. -/
theorem claim_C2_amended_witness :
    (pyFloatMaxAux (PyFloat.finite 5) [] ∈ [PyFloat.finite 5] ∧
      ∀ x ∈ [PyFloat.finite 5], pyFloatGt x (pyFloatMaxAux (PyFloat.finite 5) []) = false) ∧
    (∀ q, pyFloatMaxAux (PyFloat.finite 5) [] = PyFloat.finite q →
      calculate_overall_risk [some "5", some "purple"] = .ok (some (toString (pyTruncInt q)))) ∧
    (∀ s, pyFloatMaxAux (PyFloat.finite 5) [] = PyFloat.inf s →
      calculate_overall_risk [some "5", some "purple"] = .error ()) ∧
    (pyFloatMaxAux (PyFloat.finite 5) [] = PyFloat.nan →
      calculate_overall_risk [some "5", some "purple"] = .error ()) :=
  (claim_C2_amended.2.2.2.2 [some "5", some "purple"]).2.1 (PyFloat.finite 5) []
    (by decide) (by decide)

/-! ## Claim C5: structured-path precedence in `process_pdf` -/

/-- C5: when the structured (XFA dataset) extractor yields a record,
`process_pdf` serializes exactly that record, and the result does not depend
on anything the text-acquisition backends would have produced — so neither
the backend chain nor the heuristic parser influences the output. -/
theorem claim_C5 (xfa : Option PyVal) (r : DD2977Record)
    (h : parse_dd2977_xfa xfa = some r) :
    ∀ (t1 t2 t3 u1 u2 u3 : String) (focr : Bool),
      process_pdf ⟨xfa, t1, t2, t3⟩ focr = ProcResult.wroteXfa r ∧
      process_pdf ⟨xfa, t1, t2, t3⟩ focr = process_pdf ⟨xfa, u1, u2, u3⟩ focr := by
  intro t1 t2 t3 u1 u2 u3 focr
  constructor
  · simp only [process_pdf, h]
  · simp only [process_pdf, h]

/-- A minimal well-formed XFA payload used to instantiate C5. -/
def xfaDemoPayload : PyVal :=
  .vdict [("form1", .vdict [("Page1", .vdict [("One", .vstr "Demo mission")])])]

/-- C5 witness: a document whose dataset parses, with deliberately garbled
plain text. -/
theorem claim_C5_witness :
    process_pdf ⟨some xfaDemoPayload, "garbled #### text", "", ""⟩ false =
      ProcResult.wroteXfa
        { get_dd2977_template with mission_task_and_description := some "Demo mission" } :=
  (claim_C5 (some xfaDemoPayload)
    { get_dd2977_template with mission_task_and_description := some "Demo mission" }
    (by decide) "garbled #### text" "" "" "other text" "" "" false).1

/-! ## Claim C6: placeholder-transcript detection -/

/-- C6: when the structured path fails and the extracted transcript carries
the proprietary-renderer placeholder markers (in particular when it equals
the known "Please wait ... Adobe Reader" placeholder page, which contains
both), `process_pdf` reports the distinct XFA diagnostic — not the generic
"unable to extract text" failure — and the transcript is never handed to
the heuristic parser. -/
theorem claim_C6 (doc : PdfDoc) (focr : Bool)
    (hx : parse_dd2977_xfa doc.xfa = none)
    (hp : strContains (extract_text_multibackend doc focr) "Please wait" = true)
    (ha : strContains (extract_text_multibackend doc focr) "Adobe Reader" = true) :
    process_pdf doc focr = ProcResult.xfaBlocked ∧
    process_pdf doc focr ≠ ProcResult.noText ∧
    ∀ r, process_pdf doc focr ≠ ProcResult.wroteHeur r := by
  have h : process_pdf doc focr = ProcResult.xfaBlocked := by
    simp only [process_pdf, hx, hp, ha, Bool.and_self, if_true]
  refine ⟨h, ?_, ?_⟩
  · rw [h]; intro hcon; cases hcon
  · intro r; rw [h]; intro hcon; cases hcon

/-- The placeholder page a generic viewer emits for an XFA form. -/
def placeholderDemoText : String :=
  "Please wait... If this message is not eventually replaced by the proper contents of the document, your PDF viewer may not be able to display this type of document. You can upgrade to the latest version of Adobe Reader from www.adobe.com."

/-- C6 witness: the placeholder transcript itself. -/
theorem claim_C6_witness :
    process_pdf ⟨none, placeholderDemoText, "", ""⟩ false = ProcResult.xfaBlocked :=
  (claim_C6 ⟨none, placeholderDemoText, "", ""⟩ false (by decide) (by decide) (by decide)).1

/-! ## Claim C10: the narrative override of the overall residual risk -/

theorem narrativeFind_empty : narrativeFind "" = none := rfl

/-- C10: when the extracted overall supervision plan contains a phrase
"overall residual risk ... assessed as / assessed to be / is <level>", the
heuristic parser overwrites the overall residual risk level with the
full-word level the narrative map assigns to that phrase — regardless of any
explicitly marked option or of the aggregate computed from subtask
residuals — and every such mapped level is one of EXTREMELY HIGH, HIGH,
MEDIUM, LOW. -/
theorem claim_C10 :
    (∀ (text plan w : String) (pr : String × String),
      (parse_dd2977 text).overall_supervision_plan = some plan →
      narrativeFind plan = some w →
      narrativeRiskMap.find? (fun p => p.1 == pyUpper (pyStrip w)) = some pr →
      (parse_dd2977 text).overall_residual_risk_level = some pr.2)
  ∧ (∀ pr ∈ narrativeRiskMap, pr.2 ∈ ["EXTREMELY HIGH", "HIGH", "MEDIUM", "LOW"]) := by
  constructor
  · intro text plan w pr h1 h2 h3
    have hplan : overall_supervision_plan_of text = some plan := by
      simpa only [parse_dd2977] using h1
    have hne : plan ≠ "" := by
      intro h0
      rw [h0, narrativeFind_empty] at h2
      cases h2
    simp only [parse_dd2977, hplan, Option.getD_some]
    rw [if_pos hne, h2]
    simp only [h3]
  · decide

/-- A supervision plan whose narrative assesses the overall residual risk. -/
def narrativeDemoText : String :=
  "11. OVERALL SUPERVISION PLAN: Overall residual risk is assessed as low here.\n"

/-- C10 witness. -/
theorem claim_C10_witness :
    (parse_dd2977 narrativeDemoText).overall_residual_risk_level = some "LOW" :=
  claim_C10.1 narrativeDemoText "Overall residual risk is assessed as low here."
    "low" ("LOW", "LOW") (by decide) (by decide) (by decide)

/-! ## Claim C7: the per-line classifier's rules and precedence -/

/-- Spec-side "append to the current state's buffer". -/
def appendToSec (sec : RowSec) (line : String) (acc : ClassifyRes) : ClassifyRes :=
  match sec with
  | .subtask => { acc with subtask_lines := acc.subtask_lines ++ [line] }
  | .controls => { acc with controls_lines := acc.controls_lines ++ [line] }
  | .how => { acc with how_lines := acc.how_lines ++ [line] }
  | .who => { acc with who_lines := acc.who_lines ++ [line] }

/-- C7 counterexample: "7" is a single digit, but the classifier's token
pattern accepts only the digits 0-5, so the line "7" is appended to the
subtask buffer instead of being recorded as the row's initial risk (which
the first occurrence of a risk-code line would become under the claim). -/
theorem claim_C7_counterexample :
    ("7".toList.length = 1 ∧ ("7".toList.headD ' ').isDigit = true) ∧
    isRiskTokenLine "7" = false ∧
    (classifyGo ["HELLO", "7", "M", "H"] .subtask false emptyClassify).initial_risk = some "M" ∧
    (classifyGo ["HELLO", "7", "M", "H"] .subtask false emptyClassify).subtask_lines =
      ["HELLO", "7"] := by
  exact ⟨⟨by decide, by decide⟩, by decide, by decide, by decide⟩

/-- C7 amended: the fixed rule precedence is as claimed — risk-code line,
then `How:`/`Who:` prefix, then dash bullet (only in the subtask/controls
states), then fallthrough append — with the risk-code token being one to
three uppercase letters among M/H/L/E or a single digit 0 through 5 (not an
arbitrary digit); the first risk line becomes the initial risk and moves
the state to controls, the second becomes the residual risk and ends the
row. -/
theorem claim_C7_amended :
    (∀ line : String, isRiskTokenLine line = true ↔
      ((line.toList ≠ [] ∧ ∀ c ∈ line.toList, c ∈ ['M', 'H', 'L', 'E']) ∧
        line.toList.length ≤ 3) ∨
      (line.toList.length = 1 ∧ line.toList.headD ' ' ∈ ['0', '1', '2', '3', '4', '5']))
  ∧ (∀ (l0 : String) (rest : List String) (sec : RowSec) (ff : Bool) (acc : ClassifyRes),
      pyStrip l0 ≠ "" →
      ((isRiskTokenLine (pyStrip l0) = true →
        (ff = false → classifyGo (l0 :: rest) sec ff acc =
           classifyGo rest .controls true { acc with initial_risk := some (pyStrip l0) }) ∧
        (ff = true → classifyGo (l0 :: rest) sec ff acc =
           { acc with residual_risk := some (pyStrip l0) }))
      ∧ (isRiskTokenLine (pyStrip l0) = false → pyStartsWith (pyStrip l0) "How:" = true →
          classifyGo (l0 :: rest) sec ff acc =
            classifyGo rest .how ff
              { acc with how_lines := acc.how_lines ++
                  (if pyStrip ((pyStrip l0).drop 4) = "" then []
                   else [pyStrip ((pyStrip l0).drop 4)]) })
      ∧ (isRiskTokenLine (pyStrip l0) = false → pyStartsWith (pyStrip l0) "How:" = false →
          pyStartsWith (pyStrip l0) "Who:" = true →
          classifyGo (l0 :: rest) sec ff acc =
            classifyGo rest .who ff
              { acc with who_lines := acc.who_lines ++
                  (if pyStrip ((pyStrip l0).drop 4) = "" then []
                   else [pyStrip ((pyStrip l0).drop 4)]) })
      ∧ (isRiskTokenLine (pyStrip l0) = false → pyStartsWith (pyStrip l0) "How:" = false →
          pyStartsWith (pyStrip l0) "Who:" = false → pyStartsWith (pyStrip l0) "-" = true →
          (sec = .controls ∨ sec = .subtask) →
          classifyGo (l0 :: rest) sec ff acc =
            classifyGo rest .controls ff
              { acc with controls_lines := acc.controls_lines ++ [pyStrip l0] })
      ∧ (isRiskTokenLine (pyStrip l0) = false → pyStartsWith (pyStrip l0) "How:" = false →
          pyStartsWith (pyStrip l0) "Who:" = false →
          (pyStartsWith (pyStrip l0) "-" = false ∨ sec = .how ∨ sec = .who) →
          classifyGo (l0 :: rest) sec ff acc =
            classifyGo rest sec ff (appendToSec sec (pyStrip l0) acc)))) := by
  constructor
  · intro line
    constructor
    · intro h
      simp only [isRiskTokenLine] at h
      rw [Bool.and_eq_true, Bool.or_eq_true] at h
      obtain ⟨h1 | h2, h3⟩ := h
      · rw [Bool.and_eq_true] at h1
        refine Or.inl ⟨⟨?_, ?_⟩, by simpa using h3⟩
        · intro hnil
          rw [hnil] at h1
          simpa using h1.1
        · intro c hc
          simpa using List.all_eq_true.mp h1.2 c hc
      · rw [Bool.and_eq_true] at h2
        exact Or.inr ⟨by simpa using h2.1, by simpa using h2.2⟩
    · intro h
      simp only [isRiskTokenLine]
      rw [Bool.and_eq_true, Bool.or_eq_true]
      rcases h with ⟨⟨h1, h2⟩, h3⟩ | ⟨h1, h2⟩
      · refine ⟨Or.inl ?_, by simpa using h3⟩
        rw [Bool.and_eq_true]
        refine ⟨?_, List.all_eq_true.mpr fun c hc => by simpa using h2 c hc⟩
        cases hl : line.toList with
        | nil => exact absurd hl h1
        | cons c cs => rfl
      · refine ⟨Or.inr ?_, by simp only [decide_eq_true_eq]; omega⟩
        rw [Bool.and_eq_true]
        exact ⟨by simpa using h1, by simpa using h2⟩
  · intro l0 rest sec ff acc hne
    refine ⟨?_, ?_, ?_, ?_, ?_⟩
    · intro hrisk
      constructor
      · intro hff
        subst hff
        simp only [classifyGo, if_neg hne, hrisk, if_true, Bool.not_false]
      · intro hff
        subst hff
        simp only [classifyGo, if_neg hne, hrisk, if_true, Bool.not_true, Bool.false_eq_true,
          if_false]
    · intro hrisk hhow
      simp only [classifyGo, if_neg hne, hrisk, Bool.false_eq_true, if_false, hhow, if_true]
    · intro hrisk hhow hwho
      simp only [classifyGo, if_neg hne, hrisk, Bool.false_eq_true, if_false, hhow, hwho,
        if_true]
    · intro hrisk hhow hwho hdash hsec
      have hcond : (pyStartsWith (pyStrip l0) "-" &&
          (sec == RowSec.controls || sec == RowSec.subtask)) = true := by
        rcases hsec with h | h <;> subst h <;> simp [hdash]
      simp only [classifyGo, if_neg hne, hrisk, Bool.false_eq_true, if_false, hhow, hwho,
        hcond, if_true]
    · intro hrisk hhow hwho hor
      have hcond : (pyStartsWith (pyStrip l0) "-" &&
          (sec == RowSec.controls || sec == RowSec.subtask)) = false := by
        rcases hor with h | h | h
        · simp [h]
        · subst h; simp
        · subst h; simp
      simp only [classifyGo, if_neg hne, hrisk, Bool.false_eq_true, if_false, hhow, hwho,
        hcond]
      cases sec <;> rfl

/-- C7 amended witness. -/
theorem claim_C7_amended_witness :
    classifyGo ["M", "x"] RowSec.subtask false emptyClassify =
      classifyGo ["x"] RowSec.controls true { emptyClassify with initial_risk := some "M" } :=
  ((claim_C7_amended.2 "M" ["x"] RowSec.subtask false emptyClassify (by decide)).1
    (by decide)).1 rfl

/-! ## Claim C9: the derived output identifier -/

/-- The slug exactly as the spec words it: lowercase, non-alphanumeric runs
collapsed to single hyphens, hyphens trimmed from the ends — with no
fallback for an empty result. -/
def slug_spec (s : String) : String :=
  pyStripChars ['-']
    (String.mk (collapseClassToCharList (fun c => !isLowerAlnum c) '-' (pyLower s).toList))

/-- The hyphen-run collapse is the identity on outputs of a class collapse
whose class contains the hyphen (no two adjacent hyphens remain). -/
theorem collapse_dash_idem (cls : Char → Bool) (hcls : cls '-' = true) :
    ∀ (l : List Char) (b : Bool),
      (collapseClassAux (fun c => c == '-') '-' false (collapseClassAux cls '-' b l) =
        collapseClassAux cls '-' b l) ∧
      (collapseClassAux (fun c => c == '-') '-' true (collapseClassAux cls '-' true l) =
        collapseClassAux cls '-' true l) := by
  intro l
  induction l with
  | nil => intro b; exact ⟨rfl, rfl⟩
  | cons c cs ih =>
    intro b
    have e1 : ∀ (k : Char → Bool) (a : Char) (st : List Char),
        collapseClassAux k '-' false (a :: st) =
          if k a then '-' :: collapseClassAux k '-' true st
          else a :: collapseClassAux k '-' false st := fun _ _ _ => rfl
    have e2 : ∀ (k : Char → Bool) (a : Char) (st : List Char),
        collapseClassAux k '-' true (a :: st) =
          if k a then collapseClassAux k '-' true st
          else a :: collapseClassAux k '-' false st := fun _ _ _ => rfl
    by_cases hc : cls c = true
    · refine ⟨?_, ?_⟩
      · cases b with
        | true =>
          rw [e2 cls c cs, if_pos hc]
          exact (ih true).1
        | false =>
          rw [e1 cls c cs, if_pos hc,
            e1 (fun x => x == '-') '-' (collapseClassAux cls '-' true cs),
            if_pos (show ('-' == '-') = true from rfl)]
          exact congrArg (List.cons '-') (ih true).2
      · rw [e2 cls c cs, if_pos hc]
        exact (ih true).2
    · have hc' : cls c = false := by simpa using hc
      have hcd : (c == '-') = false := by
        by_cases h : c = '-'
        · subst h; rw [hcls] at hc'; cases hc'
        · exact beq_eq_false_iff_ne.mpr h
      refine ⟨?_, ?_⟩
      · cases b with
        | true =>
          rw [e2 cls c cs, if_neg hc,
            e1 (fun x => x == '-') c (collapseClassAux cls '-' false cs),
            if_neg (by simp [hcd])]
          exact congrArg (List.cons c) ((ih false).1)
        | false =>
          rw [e1 cls c cs, if_neg hc,
            e1 (fun x => x == '-') c (collapseClassAux cls '-' false cs),
            if_neg (by simp [hcd])]
          exact congrArg (List.cons c) ((ih false).1)
      · rw [e2 cls c cs, if_neg hc,
          e2 (fun x => x == '-') c (collapseClassAux cls '-' false cs),
          if_neg (by simp [hcd])]
        exact congrArg (List.cons c) ((ih false).1)

/-- `(String.mk l).toList` unfolds to `l`. -/
theorem toList_mk (l : List Char) : (String.mk l).toList = l := rfl

/-- `slugify` is the spec slug with the "draw" fallback. -/
theorem slugify_eq_spec (s : String) :
    slugify s = (if slug_spec s = "" then "draw" else slug_spec s) := by
  simp only [slugify, slug_spec, collapseClassToCharList, toList_mk]
  rw [(collapse_dash_idem (fun c => !isLowerAlnum c) (by decide)
    (pyLower s).toList false).1]
  by_cases h : pyStripChars ['-']
      (String.mk (collapseClassAux (fun c => !isLowerAlnum c) '-' false
        (pyLower s).toList)) = ""
  · rw [if_neg (not_not_intro h), if_pos h]
  · rw [if_pos h, if_neg h]

/-- C9 counterexample: for a stem with no alphanumeric character the
claimed slug is empty, but the code substitutes the fixed fallback "draw",
so the identifier is `20200102-draw`, not `20200102-`. -/
theorem claim_C9_counterexample :
    slug_spec "!" = "" ∧ slugify "!" = "draw" ∧
    build_outpath_name "!" (some "2020-01-02") "20990909" = "20200102-draw.json" ∧
    "20200102-draw.json" ≠ "20200102-" ++ "" ++ ".json" := by
  exact ⟨by decide, by decide, by decide, by decide⟩

/-- C9 amended: the identifier is `{date}-{slug}` with the date chosen by
the claimed priority order (filename token, then the date field through the
fixed format list, then the raw year-month-day scan, then the last-modified
date), and the slug is the lowercased stem with non-alphanumeric runs
collapsed to single hyphens and hyphens trimmed — except that an empty slug
is replaced by the fixed fallback "draw". -/
theorem claim_C9_amended :
    (∀ s : String, slugify s = (if slug_spec s = "" then "draw" else slug_spec s))
  ∧ (∀ (stem : String) (pd : Option String) (mt d : String),
      find_date_in_name stem = some d →
      build_outpath_name stem pd mt = d ++ "-" ++ slugify stem ++ ".json")
  ∧ (∀ (stem : String) (pd : Option String) (mt d : String),
      find_date_in_name stem = none →
      normalize_date_to_yyyymmdd (pd.getD "") = some d →
      build_outpath_name stem pd mt = d ++ "-" ++ slugify stem ++ ".json")
  ∧ (∀ (stem : String) (pd : Option String) (mt : String),
      find_date_in_name stem = none →
      normalize_date_to_yyyymmdd (pd.getD "") = none →
      build_outpath_name stem pd mt = mt ++ "-" ++ slugify stem ++ ".json")
  ∧ (∀ (s d : String), s ≠ "" → strptimeFormatsDate s = some d →
      normalize_date_to_yyyymmdd s = some d)
  ∧ (∀ s : String, s ≠ "" → strptimeFormatsDate s = none →
      normalize_date_to_yyyymmdd s = scanFor rawYmdAttempt s.toList) := by
  refine ⟨slugify_eq_spec, ?_, ?_, ?_, ?_, ?_⟩
  · intro stem pd mt d h
    unfold build_outpath_name
    rw [h]
  · intro stem pd mt d h1 h2
    unfold build_outpath_name
    rw [h1, h2]
  · intro stem pd mt h1 h2
    unfold build_outpath_name
    rw [h1, h2]
  · intro s d h1 h2
    unfold normalize_date_to_yyyymmdd
    rw [if_neg h1, h2]
  · intro s h1 h2
    unfold normalize_date_to_yyyymmdd
    rw [if_neg h1, h2]

/-- C9 amended witness. -/
theorem claim_C9_amended_witness :
    build_outpath_name "DRAW 20240105 convoy" none "20990909" =
      "20240105" ++ "-" ++ slugify "DRAW 20240105 convoy" ++ ".json" :=
  claim_C9_amended.2.1 "DRAW 20240105 convoy" none "20990909" "20240105" (by decide)

/-! ## Claim C4: subtask-name inheritance -/

/-- The inheritance rule as the spec words it: a row keeps its explicit
name; a row without one receives the most recently seen explicit name (the
accumulator seeds the "most recently seen" value). -/
def inheritNames (last : Option String) : List (Option String) → List (Option String)
  | [] => []
  | n :: ns =>
    match n with
    | some s => some s :: inheritNames (some s) ns
    | none => last :: inheritNames last ns

/-- The XFA row loop realizes exactly the spec's inheritance over the
explicit names of the dict entries.  (The accumulator is `None` initially
and never becomes the empty string, hence the side condition.) -/
theorem xfaRowsGo_names (entries : List PyVal) :
    ∀ last : Option String, last ≠ some "" →
      (xfaRowsGo entries last).map (·.name) =
        inheritNames last ((entries.filter PyVal.isDict).map xfaExplicitName) := by
  induction entries with
  | nil => intro last _; rfl
  | cons e rest ih =>
    intro last hlast
    by_cases hd : e.isDict = true
    · rw [xfaRowsGo, if_pos hd, List.filter_cons, hd, if_pos rfl, List.map_cons]
      cases hn : xfaExplicitName e with
      | some s =>
        have hs : s ≠ "" := (coerce_ok _ s hn).2
        have hname : (xfaRowCore e).name = some s := by
          rw [show (xfaRowCore e).name = xfaExplicitName e from rfl, hn]
        have hts : pyTruthyOS (some s) = true := by
          simpa [pyTruthyOS] using hs
        simp only [hname, hts, if_true, hn, inheritNames, List.map_cons]
        exact congrArg (List.cons (some s)) (ih (some s) (by simpa using hs))
      | none =>
        have hname : (xfaRowCore e).name = none := by
          rw [show (xfaRowCore e).name = xfaExplicitName e from rfl, hn]
        have htf : pyTruthyOS (none : Option String) = false := rfl
        by_cases hl : pyTruthyOS last = true
        · simp only [hname, htf, Bool.false_eq_true, if_false, hl, if_true, hn,
            inheritNames, List.map_cons]
          exact congrArg (List.cons last) (ih last hlast)
        · have hl' : pyTruthyOS last = false := by simpa using hl
          have hln : last = none := by
            cases last with
            | none => rfl
            | some t =>
              exfalso
              have ht' : t = "" := by
                have : ¬ (t ≠ "") := by simpa [pyTruthyOS] using hl'
                exact not_not.mp this
              exact hlast (by rw [ht'])
          subst hln
          simp only [hname, htf, Bool.false_eq_true, if_false, hn, inheritNames,
            List.map_cons]
          exact congrArg (List.cons (none : Option String)) (ih none hlast)
    · have hd' : e.isDict = false := by simpa using hd
      rw [xfaRowsGo, if_neg hd, List.filter_cons, hd']
      simp only [Bool.false_eq_true, if_false]
      exact ih last hlast

/-- The three-row inheritance instance for the heuristic path. -/
def heurInheritDemoText : String :=
  "9. RESIDUAL RISK LEVEL\n+\n-\nALPHA TASK\nM\n- control one\nHow: do it\nWho: leader\nH\n+\n-\nM\nH\n+\n-\nM\nH\n"

/-- C4: in the structured path the row loop realizes the claimed
inheritance for every entry sequence; in the heuristic path a row whose
computed name is absent or blank receives the previous non-empty name; and
the three-row instance (only the first row carries an explicit name) shares
that name across all three output rows. -/
theorem claim_C4 :
    (∀ (entries : List PyVal) (last : Option String), last ≠ some "" →
      (xfaRowsGo entries last).map (·.name) =
        inheritNames last ((entries.filter PyVal.isDict).map xfaExplicitName))
  ∧ (∀ (prev : Option String) (content : String) (row : SubtaskRow),
      heurRowCore prev content = some row →
      nameNonBlank row.name = false → pyTruthyOS prev = true →
      (heurRowStep prev content).1 = some { row with name := prev })
  ∧ (extract_subtask_rows heurInheritDemoText).map (·.name) =
      [some "ALPHA TASK", some "ALPHA TASK", some "ALPHA TASK"] := by
  refine ⟨xfaRowsGo_names, ?_, by decide⟩
  intro prev content row h hnb hp
  simp only [heurRowStep, h, hnb, Bool.false_eq_true, if_false, hp, if_true]

/-- C4 witness. -/
theorem claim_C4_witness :
    (heurRowStep (some "X") "M\nH").1 =
      some { name := some "X", hazard := none, initial_risk_level := some "M",
             control_values := [], how_values := [], who_values := [],
             residual_risk_level := some "H" } :=
  claim_C4.2.1 (some "X") "M\nH"
    { name := none, hazard := none, initial_risk_level := some "M",
      control_values := [], how_values := [], who_values := [],
      residual_risk_level := some "H" }
    (by decide) (by decide) (by decide)

/-! ## Claim C8: totality and null-on-failure of `parse_dd2977` -/

/-- C8: `parse_dd2977` is a total function (the embedding is a plain Lean
function, mirroring that every Python sub-search failure is absorbed into a
`None`/empty value rather than an exception), and each failed sub-search
leaves its field null or its list empty: mission and date captures, the
subtask data section, the supervision plan, a prepared-by field, and the
approval checkboxes. -/
theorem claim_C8 (text : String) :
    (scanFor missionAttempt text.toList = none →
      (parse_dd2977 text).mission_task_and_description = none)
  ∧ (scanFor dateAttempt text.toList = none → (parse_dd2977 text).date = none)
  ∧ (findDataSection text = none → (parse_dd2977 text).subtasks = [])
  ∧ (scanFor supervisionAttempt text.toList = none →
      (parse_dd2977 text).overall_supervision_plan = none)
  ∧ (labelSearchGo 'a' text.toList true = none →
      (parse_dd2977 text).prepared_by.name_last_first_middle_initial = none)
  ∧ (checkboxSearchGo "APPROVE:" text.toList false = none →
      scanFor approvalSectionAttempt text.toList = none →
      (parse_dd2977 text).approve = 0) := by
  refine ⟨?_, ?_, ?_, ?_, ?_, ?_⟩
  · intro h
    simp only [parse_dd2977, sectionField, h]
    rfl
  · intro h
    simp only [parse_dd2977, sectionField, h]
    rfl
  · intro h
    simp only [parse_dd2977, extract_subtask_rows, h]
  · intro h
    simp only [parse_dd2977, overall_supervision_plan_of, h]
    rfl
  · intro h
    simp only [parse_dd2977, extract_prepared_by_fields, value_after, h]
  · intro h1 h2
    simp only [parse_dd2977, parse_checkbox_value, h1, h2]

/-- C8 witness: the empty text. -/
theorem claim_C8_witness : (parse_dd2977 "").subtasks = [] :=
  (claim_C8 "").2.2.1 (by decide)

/-! ## Claim C1: the shapes of risk fields -/

/-- The range of the heuristic classifier's risk fields: absent, or a raw
matched risk token (never passed through the normalizer). -/
def riskFieldInv (o : Option String) : Prop :=
  o = none ∨ ∃ t, o = some t ∧ isRiskTokenLine t = true

/-- The possible shapes of an overall residual risk value: absent, a
canonical code, a full-word level (the two words of EXTREMELY HIGH possibly
separated by an arbitrary whitespace run), or a decimal integer string from
the numeric aggregate. -/
def overallShape (o : Option String) : Prop :=
  o = none ∨ ∃ s, o = some s ∧
    (s ∈ ["L", "M", "H", "EH"] ∨ s ∈ riskOptionsFull ∨
     pyWords s = ["EXTREMELY", "HIGH"] ∨ ∃ n : Int, s = toString n)

/-- A one-row data section whose initial-risk token is the numeral 0. -/
def heurZeroDemoText : String := "9. RESIDUAL RISK LEVEL\n+\n-\nTASK A\n0\n- c\nM\n"

/-- C1 counterexample: in the heuristic path a risk token is stored raw and
never normalized, so the numeral "0" — which the risk normalizer
recognizes and maps to the canonical code "L" — appears in the produced
record as "0": neither a canonical code, nor null, nor the pass-through of
a value unrecognized by the normalizer. -/
theorem claim_C1_counterexample :
    (parse_dd2977 heurZeroDemoText).subtasks.map (·.initial_risk_level) = [some "0"] ∧
    _normalize_risk_level (PyVal.vstr "0") = some "L" ∧
    "0" ∉ ["L", "M", "H", "EH"] ∧ some "0" ≠ (none : Option String) :=
  ⟨by decide, by decide, by decide, by decide⟩

/-- A case-insensitive prefix is no longer than the scanned list. -/
theorem ciPrefix_length : ∀ (p l : List Char), ciPrefix p l = true → p.length ≤ l.length := by
  intro p
  induction p with
  | nil => intro l _; simp
  | cons a ps ih =>
    intro l h
    cases l with
    | nil => simp [ciPrefix] at h
    | cons c cs =>
      rw [ciPrefix, Bool.and_eq_true] at h
      simpa using Nat.succ_le_succ (ih cs h.2)

/-- A case-insensitively matched prefix agrees with the pattern after
uppercasing. -/
theorem ciPrefix_take_upper : ∀ (p l : List Char), ciPrefix p l = true →
    (l.take p.length).map Char.toUpper = p.map Char.toUpper := by
  intro p
  induction p with
  | nil => intro l _; simp
  | cons a ps ih =>
    intro l h
    cases l with
    | nil => simp [ciPrefix] at h
    | cons c cs =>
      rw [ciPrefix, Bool.and_eq_true] at h
      have h1 : a.toUpper = c.toUpper := beq_iff_eq.mp h.1
      simp only [List.length_cons, List.take_succ_cons, List.map_cons, ih cs h.2, h1]

/-- Uppercasing fixes every whitespace character. -/
theorem isPyWs_toUpper : ∀ c : Char, isPyWs c = true → c.toUpper = c := by
  intro c h
  have hm : c ∈ pyWsChars := by
    simpa [isPyWs] using h
  fin_cases hm <;> rfl

/-- Uppercasing fixes a list of whitespace characters. -/
theorem map_toUpper_ws : ∀ (W : List Char), (∀ c ∈ W, isPyWs c = true) →
    W.map Char.toUpper = W := by
  intro W h
  induction W with
  | nil => rfl
  | cons c cs ih =>
    rw [List.map_cons, isPyWs_toUpper c (h c (List.mem_cons_self c cs)),
      ih (fun x hx => h x (List.mem_cons_of_mem c hx))]

/-- The split accumulates an out-of-class run. -/
theorem splitClassAux_nonCls (cls : Char → Bool) :
    ∀ (l₁ : List Char), (∀ c ∈ l₁, cls c = false) →
      ∀ (acc l₂ : List Char),
        splitClassAux cls acc (l₁ ++ l₂) = splitClassAux cls (l₁.reverse ++ acc) l₂ := by
  intro l₁
  induction l₁ with
  | nil => intro _ acc l₂; simp
  | cons c cs ih =>
    intro h acc l₂
    have hc : cls c = false := h c (List.mem_cons_self c cs)
    rw [List.cons_append]
    rw [show splitClassAux cls acc (c :: (cs ++ l₂)) =
        if cls c then
          (if acc.isEmpty then splitClassAux cls [] (cs ++ l₂)
           else acc.reverse :: splitClassAux cls [] (cs ++ l₂))
        else splitClassAux cls (c :: acc) (cs ++ l₂) from rfl]
    rw [if_neg (by simp [hc])]
    rw [ih (fun x hx => h x (List.mem_cons_of_mem c hx)) (c :: acc) l₂]
    simp

/-- The split with an empty accumulator skips an in-class run. -/
theorem splitClassAux_cls (cls : Char → Bool) :
    ∀ (w : List Char), (∀ c ∈ w, cls c = true) →
      ∀ l₂ : List Char, splitClassAux cls [] (w ++ l₂) = splitClassAux cls [] l₂ := by
  intro w
  induction w with
  | nil => intro _ l₂; simp
  | cons c cs ih =>
    intro h l₂
    have hc : cls c = true := h c (List.mem_cons_self c cs)
    rw [List.cons_append]
    rw [show splitClassAux cls [] (c :: (cs ++ l₂)) =
        if cls c then
          (if ([] : List Char).isEmpty then splitClassAux cls [] (cs ++ l₂)
           else ([] : List Char).reverse :: splitClassAux cls [] (cs ++ l₂))
        else splitClassAux cls [c] (cs ++ l₂) from rfl]
    rw [if_pos hc, if_pos (show ([] : List Char).isEmpty = true from rfl)]
    exact ih (fun x hx => h x (List.mem_cons_of_mem c hx)) l₂

/-- A word, a whitespace run, a word: the split yields the two words. -/
theorem splitClassAux_words (A W B : List Char)
    (hA : A ≠ []) (hW : W ≠ []) (hB : B ≠ [])
    (hA2 : ∀ c ∈ A, isPyWs c = false) (hW2 : ∀ c ∈ W, isPyWs c = true)
    (hB2 : ∀ c ∈ B, isPyWs c = false) :
    splitClassAux isPyWs [] (A ++ W ++ B) = [A, B] := by
  rw [List.append_assoc, splitClassAux_nonCls isPyWs A hA2 [] (W ++ B), List.append_nil]
  cases W with
  | nil => exact absurd rfl hW
  | cons w0 wrest =>
    have hw0 : isPyWs w0 = true := hW2 w0 (List.mem_cons_self w0 wrest)
    have hAr : (A.reverse.isEmpty) = false := by
      cases A with
      | nil => exact absurd rfl hA
      | cons a as => simp
    rw [List.cons_append]
    rw [show splitClassAux isPyWs A.reverse (w0 :: (wrest ++ B)) =
        if isPyWs w0 then
          (if A.reverse.isEmpty then splitClassAux isPyWs [] (wrest ++ B)
           else A.reverse.reverse :: splitClassAux isPyWs [] (wrest ++ B))
        else splitClassAux isPyWs (w0 :: A.reverse) (wrest ++ B) from rfl]
    rw [if_pos hw0, if_neg (by simp [hAr]), List.reverse_reverse]
    rw [splitClassAux_cls isPyWs wrest (fun x hx => hW2 x (List.mem_cons_of_mem w0 hx)) B]
    congr 1
    rw [show (B : List Char) = B ++ [] by simp, splitClassAux_nonCls isPyWs B hB2 [] [],
      List.append_nil]
    rw [show splitClassAux isPyWs B.reverse [] =
        if B.reverse.isEmpty then [] else [B.reverse.reverse] from rfl]
    have hBr : (B.reverse.isEmpty) = false := by
      cases B with
      | nil => exact absurd rfl hB
      | cons b bs => simp
    rw [if_neg (by simp [hBr]), List.reverse_reverse]
    simp

/-- The words of an uppercased EXTREMELY-whitespace-HIGH capture. -/
theorem pyWords_extremely_high (W : List Char) (hW : W ≠ [])
    (hW2 : ∀ c ∈ W, isPyWs c = true) :
    pyWords (String.mk ("EXTREMELY".toList ++ W ++ "HIGH".toList)) =
      ["EXTREMELY", "HIGH"] := by
  unfold pyWords splitClass
  rw [toList_mk,
    splitClassAux_words "EXTREMELY".toList W "HIGH".toList (by decide) hW (by decide)
      (by decide) hW2 (by decide)]
  rfl

/-- Destructure a successful `ciLitP`. -/
theorem ciLitP_some {s : String} {l r : List Char} (h : ciLitP s l = some r) :
    ciPrefix s.toList l = true ∧ r = l.drop s.length := by
  unfold ciLitP at h
  by_cases hp : ciPrefix s.toList l = true
  · rw [if_pos hp] at h
    exact ⟨hp, (Option.some.inj h).symm⟩
  · rw [if_neg hp] at h
    cases h

/-- Destructure a successful `wsPlusP`. -/
theorem wsPlusP_some {l r : List Char} (h : wsPlusP l = some r) :
    isPyWs (l.headD 'x') = true ∧ r = l.dropWhile isPyWs := by
  unfold wsPlusP at h
  by_cases hp : isPyWs (l.headD 'x') = true
  · rw [if_pos hp] at h
    exact ⟨hp, (Option.some.inj h).symm⟩
  · rw [if_neg hp] at h
    cases h

/-- Characters of a `takeWhile` run satisfy the predicate. -/
theorem mem_takeWhile_pred {α : Type} (p : α → Bool) :
    ∀ (l : List α) (a : α), a ∈ l.takeWhile p → p a = true := by
  intro l
  induction l with
  | nil => intro a h; cases h
  | cons c cs ih =>
    intro a h
    rw [List.takeWhile_cons] at h
    by_cases hc : p c = true
    · rw [if_pos hc] at h
      rcases List.mem_cons.mp h with rfl | h2
      · exact hc
      · exact ih a h2
    · rw [if_neg hc] at h
      cases h

/-- An overall-risk option match uppercases to a full-word level. -/
theorem riskOptionAttempt_shape (l : List Char) (n : Nat) (cap : List Char)
    (h : riskOptionAttempt l = some (n, cap)) :
    pyUpper (String.mk cap) ∈ riskOptionsFull ∨
    pyWords (pyUpper (String.mk cap)) = ["EXTREMELY", "HIGH"] := by
  unfold riskOptionAttempt at h
  cases hm : (ciLitP "EXTREMELY" l).bind (fun r =>
      (wsPlusP r).bind (fun r2 =>
        (ciLitP "HIGH" r2).map (fun _ => l.length - r2.length + 4))) with
  | some n0 =>
    rw [hm] at h
    have h' : some (n0, l.take n0) = some (n, cap) := h
    have hp := Option.some.inj h'
    have hcap : cap = l.take n0 := (congrArg Prod.snd hp).symm
    obtain ⟨r, hr, hm2⟩ := Option.bind_eq_some.mp hm
    obtain ⟨r2, hr2, hm3⟩ := Option.bind_eq_some.mp hm2
    obtain ⟨r3, hr3, hn0⟩ := Option.map_eq_some'.mp hm3
    obtain ⟨hpE, hrd⟩ := ciLitP_some hr
    obtain ⟨hws, hr2d⟩ := wsPlusP_some hr2
    obtain ⟨hpH, _⟩ := ciLitP_some hr3
    have hrd9 : r = l.drop 9 := hrd
    have hn0' : n0 = l.length - r2.length + 4 := hn0.symm
    have hWr : r.takeWhile isPyWs ++ r2 = r := by
      rw [hr2d]; exact List.takeWhile_append_dropWhile isPyWs r
    have hrne : r ≠ [] := by
      intro heq
      rw [heq] at hws
      exact absurd hws (by decide)
    have hWne : r.takeWhile isPyWs ≠ [] := by
      cases hrc : r with
      | nil => exact absurd hrc hrne
      | cons rh rt =>
        have hwsr : isPyWs rh = true := by rw [hrc] at hws; exact hws
        rw [List.takeWhile_cons, if_pos hwsr]
        simp
    have hWws : ∀ c ∈ r.takeWhile isPyWs, isPyWs c = true :=
      fun c hc => mem_takeWhile_pred isPyWs r c hc
    have hlteq : l.take 9 ++ r = l := by rw [hrd9]; exact List.take_append_drop 9 l
    have h9l : 9 ≤ l.length := by
      have := ciPrefix_length "EXTREMELY".toList l hpE
      simpa using this
    have h4r2 : 4 ≤ r2.length := by
      have := ciPrefix_length "HIGH".toList r2 hpH
      simpa using this
    have hlenT : (l.take 9).length = 9 := by
      rw [List.length_take]
      omega
    have hlen : l.length = 9 + ((r.takeWhile isPyWs).length + r2.length) := by
      have e1 : (l.take 9 ++ r).length = l.length := congrArg List.length hlteq
      have e2 : ((r.takeWhile isPyWs) ++ r2).length = r.length := congrArg List.length hWr
      rw [List.length_append] at e1
      rw [List.length_append] at e2
      omega
    have hn0'' : n0 = 9 + (4 + (r.takeWhile isPyWs).length) := by omega
    have hldecomp : l = l.take 9 ++ ((r.takeWhile isPyWs) ++ r2) := by
      rw [hWr, hlteq]
    have hcap2 : cap = l.take 9 ++ ((r.takeWhile isPyWs) ++ r2.take 4) := by
      rw [hcap]
      conv_lhs => rw [hldecomp]
      rw [List.take_append_eq_append_take, List.take_append_eq_append_take]
      rw [List.take_of_length_le (by omega : (l.take 9).length ≤ n0)]
      rw [hlenT, hn0'']
      rw [List.take_of_length_le
        (by omega : (r.takeWhile isPyWs).length ≤ 9 + (4 + (r.takeWhile isPyWs).length) - 9)]
      rw [show 9 + (4 + (r.takeWhile isPyWs).length) - 9 - (r.takeWhile isPyWs).length = 4
        from by omega]
    have hA : (l.take 9).map Char.toUpper = "EXTREMELY".toList := by
      have := ciPrefix_take_upper "EXTREMELY".toList l hpE
      rw [show ("EXTREMELY".toList).length = 9 from by decide] at this
      rw [this]
      decide
    have hH : (r2.take 4).map Char.toUpper = "HIGH".toList := by
      have := ciPrefix_take_upper "HIGH".toList r2 hpH
      rw [show ("HIGH".toList).length = 4 from by decide] at this
      rw [this]
      decide
    have hcapU : pyUpper (String.mk cap) =
        String.mk ("EXTREMELY".toList ++ (r.takeWhile isPyWs) ++ "HIGH".toList) := by
      show String.mk (cap.map Char.toUpper) = _
      rw [hcap2, List.map_append, List.map_append, hA, hH,
        map_toUpper_ws (r.takeWhile isPyWs) hWws, List.append_assoc]
    right
    rw [hcapU]
    exact pyWords_extremely_high (r.takeWhile isPyWs) hWne hWws
  | none =>
    rw [hm] at h
    by_cases hH : (ciLitP "HIGH" l).isSome = true
    · rw [if_pos hH] at h
      have hp := Option.some.inj h
      have hcap : cap = l.take 4 := (congrArg Prod.snd hp).symm
      obtain ⟨r, hr⟩ := Option.isSome_iff_exists.mp hH
      have hpH := (ciLitP_some hr).1
      have hup : pyUpper (String.mk cap) = "HIGH" := by
        rw [hcap]
        show String.mk ((l.take 4).map Char.toUpper) = "HIGH"
        have := ciPrefix_take_upper "HIGH".toList l hpH
        rw [show ("HIGH".toList).length = 4 from by decide] at this
        rw [this]
        decide
      exact Or.inl (by rw [hup]; decide)
    · rw [if_neg hH] at h
      by_cases hM : (ciLitP "MEDIUM" l).isSome = true
      · rw [if_pos hM] at h
        have hp := Option.some.inj h
        have hcap : cap = l.take 6 := (congrArg Prod.snd hp).symm
        obtain ⟨r, hr⟩ := Option.isSome_iff_exists.mp hM
        have hpM := (ciLitP_some hr).1
        have hup : pyUpper (String.mk cap) = "MEDIUM" := by
          rw [hcap]
          show String.mk ((l.take 6).map Char.toUpper) = "MEDIUM"
          have := ciPrefix_take_upper "MEDIUM".toList l hpM
          rw [show ("MEDIUM".toList).length = 6 from by decide] at this
          rw [this]
          decide
        exact Or.inl (by rw [hup]; decide)
      · rw [if_neg hM] at h
        by_cases hL : (ciLitP "LOW" l).isSome = true
        · rw [if_pos hL] at h
          have hp := Option.some.inj h
          have hcap : cap = l.take 3 := (congrArg Prod.snd hp).symm
          obtain ⟨r, hr⟩ := Option.isSome_iff_exists.mp hL
          have hpL := (ciLitP_some hr).1
          have hup : pyUpper (String.mk cap) = "LOW" := by
            rw [hcap]
            show String.mk ((l.take 3).map Char.toUpper) = "LOW"
            have := ciPrefix_take_upper "LOW".toList l hpL
            rw [show ("LOW".toList).length = 3 from by decide] at this
            rw [this]
            decide
          exact Or.inl (by rw [hup]; decide)
        · rw [if_neg hL] at h
          cases h

/-- The leftmost overall-risk option match uppercases to a full-word
level. -/
theorem riskOptionSearch_shape :
    ∀ (l : List Char) (i j n : Nat) (cap : List Char),
      riskOptionSearch l i = some (j, n, cap) →
      pyUpper (String.mk cap) ∈ riskOptionsFull ∨
      pyWords (pyUpper (String.mk cap)) = ["EXTREMELY", "HIGH"] := by
  intro l
  induction l with
  | nil => intro i j n cap h; cases h
  | cons c t ih =>
    intro i j n cap h
    rw [riskOptionSearch] at h
    cases ha : riskOptionAttempt (c :: t) with
    | some p =>
      rw [ha] at h
      have h' : some (i, p.1, p.2) = some (j, n, cap) := h
      have hp := Option.some.inj h'
      have hcap : cap = p.2 := (congrArg (fun q => q.2.2) hp).symm
      rw [hcap]
      exact riskOptionAttempt_shape (c :: t) p.1 p.2 (by rw [ha])
    | none =>
      rw [ha] at h
      exact ih (i + 1) j n cap h

/-- A level selected by the multi-line option walk is a full-word level. -/
theorem overallOptionLoop_shape :
    ∀ (lines : List String) (s : String),
      overallOptionLoop lines = some s →
      s ∈ riskOptionsFull ∨ pyWords s = ["EXTREMELY", "HIGH"] := by
  intro lines
  induction lines with
  | nil => intro s h; cases h
  | cons raw rest ih =>
    intro s h
    rw [overallOptionLoop] at h
    cases hs : riskOptionSearch raw.toList 0 with
    | none =>
      rw [hs] at h
      exact ih s h
    | some trip =>
      obtain ⟨i, n, cap⟩ := trip
      rw [hs] at h
      by_cases h1 : (pyStrip (String.mk (raw.toList.take i ++
          raw.toList.drop (i + n)))).toList.any (fun c => c ∈ ['X', '✓', '☑', '1']) = true
      · have h' : some (pyUpper (String.mk cap)) = some s := by
          rw [← h]
          show some (pyUpper (String.mk cap)) =
            (if (pyStrip (String.mk (raw.toList.take i ++
                raw.toList.drop (i + n)))).toList.any
                  (fun c => c ∈ ['X', '✓', '☑', '1']) = true then
              some (pyUpper (String.mk cap))
            else if ["SELECTED", "CHECKED", "YES"].any (fun kw =>
                phraseSearchGo [kw] (pyStrip (String.mk (raw.toList.take i ++
                  raw.toList.drop (i + n)))).toList false) = true then
              some (pyUpper (String.mk cap))
            else overallOptionLoop rest)
          rw [if_pos h1]
        rw [← Option.some.inj h']
        exact riskOptionSearch_shape raw.toList 0 i n cap hs
      · by_cases h2 : (["SELECTED", "CHECKED", "YES"].any (fun kw =>
            phraseSearchGo [kw] (pyStrip (String.mk (raw.toList.take i ++
              raw.toList.drop (i + n)))).toList false)) = true
        · have h' : some (pyUpper (String.mk cap)) = some s := by
            rw [← h]
            show some (pyUpper (String.mk cap)) =
              (if (pyStrip (String.mk (raw.toList.take i ++
                  raw.toList.drop (i + n)))).toList.any
                    (fun c => c ∈ ['X', '✓', '☑', '1']) = true then
                some (pyUpper (String.mk cap))
              else if ["SELECTED", "CHECKED", "YES"].any (fun kw =>
                  phraseSearchGo [kw] (pyStrip (String.mk (raw.toList.take i ++
                    raw.toList.drop (i + n)))).toList false) = true then
                some (pyUpper (String.mk cap))
              else overallOptionLoop rest)
            rw [if_neg h1, if_pos h2]
          rw [← Option.some.inj h']
          exact riskOptionSearch_shape raw.toList 0 i n cap hs
        · have h' : overallOptionLoop rest = some s := by
            rw [← h]
            show overallOptionLoop rest =
              (if (pyStrip (String.mk (raw.toList.take i ++
                  raw.toList.drop (i + n)))).toList.any
                    (fun c => c ∈ ['X', '✓', '☑', '1']) = true then
                some (pyUpper (String.mk cap))
              else if ["SELECTED", "CHECKED", "YES"].any (fun kw =>
                  phraseSearchGo [kw] (pyStrip (String.mk (raw.toList.take i ++
                    raw.toList.drop (i + n)))).toList false) = true then
                some (pyUpper (String.mk cap))
              else overallOptionLoop rest)
            rw [if_neg h1, if_neg h2]
          exact ih s h'

/-- Case split over the overall-option selection logic. -/
theorem selOptCases (L : List String) (s : String)
    (h : (if L.isEmpty then none
          else if L.length == 1 then
            (if riskOptionsFull.contains (pyUpper (L.headD "")) then
              some (pyUpper (L.headD "")) else none)
          else
            match overallOptionLoop L with
            | some sel => some sel
            | none =>
              match L.filter (fun line => riskOptionsFull.contains (sanitizeOption line)) with
              | [m] => some (sanitizeOption m)
              | _ => none) = some s) :
    s ∈ riskOptionsFull ∨ pyWords s = ["EXTREMELY", "HIGH"] := by
  by_cases h1 : L.isEmpty = true
  · rw [if_pos h1] at h; cases h
  · rw [if_neg h1] at h
    by_cases h2 : (L.length == 1) = true
    · rw [if_pos h2] at h
      by_cases h3 : riskOptionsFull.contains (pyUpper (L.headD "")) = true
      · rw [if_pos h3] at h
        left
        rw [← Option.some.inj h]
        simpa using h3
      · rw [if_neg h3] at h; cases h
    · rw [if_neg h2] at h
      cases hloop : overallOptionLoop L with
      | some sel =>
        rw [hloop] at h
        have h' : some sel = some s := h
        rw [← Option.some.inj h']
        exact overallOptionLoop_shape L sel hloop
      | none =>
        rw [hloop] at h
        cases hmk : L.filter (fun line => riskOptionsFull.contains (sanitizeOption line)) with
        | nil => rw [hmk] at h; cases h
        | cons m ms =>
          rw [hmk] at h
          cases ms with
          | nil =>
            have h' : some (sanitizeOption m) = some s := h
            have hmem : m ∈ L.filter
                (fun line => riskOptionsFull.contains (sanitizeOption line)) := by
              rw [hmk]; exact List.mem_cons_self m []
            have hc := List.of_mem_filter hmem
            left
            rw [← Option.some.inj h']
            simpa using hc
          | cons m2 ms2 =>
            have h' : (none : Option String) = some s := h
            cases h'

/-- A selected overall option is a full-word level. -/
theorem overallSelectedOption_shape (text s : String)
    (h : overallSelectedOption text = some s) :
    s ∈ riskOptionsFull ∨ pyWords s = ["EXTREMELY", "HIGH"] := by
  unfold overallSelectedOption at h
  cases hscan : scanFor overallAttempt text.toList with
  | none => rw [hscan] at h; cases h
  | some cap =>
    rw [hscan] at h
    exact selOptCases
      (((pySplitLines (pyStrip (String.mk cap))).map pyStrip).filter (· ≠ "")) s h

/-- A string accepted by `isCanonicalRisk` is one of the four codes. -/
theorem isCanonicalRisk_mem (s : String) (h : isCanonicalRisk s = true) :
    s ∈ ["L", "M", "H", "EH"] := by
  unfold isCanonicalRisk at h
  rw [Option.isSome_iff_exists] at h
  obtain ⟨p, hp⟩ := h
  have hmem := List.mem_of_find?_eq_some hp
  have heq : p.1 = s := by simpa using List.find?_some hp
  have hall : ∀ q ∈ risk_order, q.1 ∈ ["L", "M", "H", "EH"] := by decide
  rw [← heq]
  exact hall p hmem

/-- The aggregate, when it returns, returns a canonical code or a decimal
integer string. -/
theorem calc_overall_shape (rs : List (Option String)) (s : String)
    (h : calculate_overall_risk rs = .ok (some s)) :
    s ∈ ["L", "M", "H", "EH"] ∨ ∃ n : Int, s = toString n := by
  simp only [calculate_overall_risk] at h
  by_cases he : rs.isEmpty = true
  · rw [if_pos he] at h
    exact absurd (Except.ok.inj h) (by simp)
  · rw [if_neg he] at h
    cases hcat : (cleanRisks rs).filter isCanonicalRisk with
    | cons c cs =>
      rw [hcat] at h
      have h' : Except.ok (ε := Unit) (some (pyMaxBy riskOrderOf c cs)) = .ok (some s) := h
      have hs : s = pyMaxBy riskOrderOf c cs :=
        (Option.some.inj (Except.ok.inj h')).symm
      left
      have hmem : s ∈ (cleanRisks rs).filter isCanonicalRisk := by
        rw [hcat, hs]
        exact (pyMaxByAux_spec riskOrderOf cs c).1
      exact isCanonicalRisk_mem s (List.of_mem_filter hmem)
    | nil =>
      rw [hcat] at h
      cases hnum : (cleanRisks rs).filterMap pyFloat? with
      | nil =>
        rw [hnum] at h
        exact absurd (Except.ok.inj h) (by simp)
      | cons f fs =>
        rw [hnum] at h
        have h2 : (match pyFloatMaxAux f fs with
            | PyFloat.finite q => Except.ok (some (toString (pyTruncInt q)))
            | PyFloat.inf _ => Except.error ()
            | PyFloat.nan => (Except.error () : Except Unit (Option String))) =
            .ok (some s) := h
        cases hmax : pyFloatMaxAux f fs with
        | finite q =>
          rw [hmax] at h2
          have h' : Except.ok (ε := Unit) (some (toString (pyTruncInt q))) = .ok (some s) := h2
          exact Or.inr ⟨pyTruncInt q, (Option.some.inj (Except.ok.inj h')).symm⟩
        | inf b =>
          rw [hmax] at h2
          have h' : Except.error (α := Option String) () = .ok (some s) := h2
          cases h'
        | nan =>
          rw [hmax] at h2
          have h' : Except.error (α := Option String) () = .ok (some s) := h2
          cases h'

/-- The shapes an overall level may take on the structured path: absent, a
canonical code, or a decimal integer string. -/
def xfaOverallShape (o : Option String) : Prop :=
  o = none ∨ ∃ s, o = some s ∧ (s ∈ ["L", "M", "H", "EH"] ∨ ∃ n : Int, s = toString n)

/-- A successful aggregate value has the structured-path shape. -/
theorem calcOk_xfaShape (rs : List (Option String)) (v : Option String)
    (h : calculate_overall_risk rs = .ok v) : xfaOverallShape v := by
  cases v with
  | none => exact Or.inl rfl
  | some s =>
    rcases calc_overall_shape rs s h with hm | hint
    · exact Or.inr ⟨s, rfl, Or.inl hm⟩
    · exact Or.inr ⟨s, rfl, Or.inr hint⟩

/-- The structured-path shape embeds in the general overall shape. -/
theorem xfaOverallShape_to_overallShape (o : Option String)
    (h : xfaOverallShape o) : overallShape o := by
  rcases h with h | ⟨s, hs, hm | hint⟩
  · exact Or.inl h
  · exact Or.inr ⟨s, hs, Or.inl hm⟩
  · exact Or.inr ⟨s, hs, Or.inr (Or.inr (Or.inr hint))⟩

/-- `overallShape` of the error-absorbing aggregate value used on the
heuristic path. -/
theorem calcOverallShapeO (rs : List (Option String)) :
    overallShape (match calculate_overall_risk rs with
      | .ok v => v
      | .error _ => none) := by
  cases hc : calculate_overall_risk rs with
  | error e => exact Or.inl rfl
  | ok v => exact xfaOverallShape_to_overallShape v (calcOk_xfaShape rs v hc)

/-- The Ten-block checkboxes yield a canonical code or nothing. -/
theorem xfaOverallFromTen_shape (p : PyVal) :
    xfaOverallFromTen p = none ∨
      xfaOverallFromTen p ∈ [some "EH", some "H", some "M", some "L"] := by
  simp only [xfaOverallFromTen]
  split_ifs <;> simp

/-- The Ten-block value has the structured-path shape. -/
theorem xfaTen_xfaShape (p : PyVal) : xfaOverallShape (xfaOverallFromTen p) := by
  rcases xfaOverallFromTen_shape p with h | h
  · exact Or.inl h
  · simp only [List.mem_cons, List.not_mem_nil, or_false] at h
    rcases h with h | h | h | h
    · exact Or.inr ⟨"EH", h, Or.inl (by decide)⟩
    · exact Or.inr ⟨"H", h, Or.inl (by decide)⟩
    · exact Or.inr ⟨"M", h, Or.inl (by decide)⟩
    · exact Or.inr ⟨"L", h, Or.inl (by decide)⟩

/-- Case split over the tail of the normalizer. -/
theorem normCases (raw s : String)
    (h : (match riskWordMapping.find? (fun p => p.1 == pyUpper raw) with
          | some p => some p.2
          | none =>
            match riskNumericMap.find? (fun p => p.1 == raw) with
            | some p => some p.2
            | none =>
              if pyUpper raw ∈ ["EH", "H", "M", "L"] then some (pyUpper raw)
              else some raw) = some s) :
    s ∈ ["L", "M", "H", "EH"] ∨
    (s = raw ∧ riskWordMapping.find? (fun p => p.1 == pyUpper raw) = none ∧
      riskNumericMap.find? (fun p => p.1 == raw) = none ∧
      pyUpper raw ∉ ["EH", "H", "M", "L"]) := by
  cases hw : riskWordMapping.find? (fun p => p.1 == pyUpper raw) with
  | some p =>
    rw [hw] at h
    have h' : some p.2 = some s := h
    left
    rw [← Option.some.inj h']
    have hall : ∀ q ∈ riskWordMapping, q.2 ∈ ["L", "M", "H", "EH"] := by decide
    exact hall p (List.mem_of_find?_eq_some hw)
  | none =>
    rw [hw] at h
    cases hn : riskNumericMap.find? (fun p => p.1 == raw) with
    | some p =>
      rw [hn] at h
      have h' : some p.2 = some s := h
      left
      rw [← Option.some.inj h']
      have hall : ∀ q ∈ riskNumericMap, q.2 ∈ ["L", "M", "H", "EH"] := by decide
      exact hall p (List.mem_of_find?_eq_some hn)
    | none =>
      rw [hn] at h
      by_cases hcan : pyUpper raw ∈ ["EH", "H", "M", "L"]
      · have h' : some (pyUpper raw) = some s := by
          rw [← h]
          show some (pyUpper raw) =
            (if pyUpper raw ∈ ["EH", "H", "M", "L"] then some (pyUpper raw) else some raw)
          rw [if_pos hcan]
        left
        rw [← Option.some.inj h']
        simp only [List.mem_cons, List.not_mem_nil, or_false] at hcan
        rcases hcan with h1 | h1 | h1 | h1 <;> rw [h1] <;> decide
      · have h' : some raw = some s := by
          rw [← h]
          show some raw =
            (if pyUpper raw ∈ ["EH", "H", "M", "L"] then some (pyUpper raw) else some raw)
          rw [if_neg hcan]
        exact Or.inr ⟨(Option.some.inj h').symm, rfl, rfl, hcan⟩

/-- The normalizer returns a canonical code, or the coerced (trimmed) raw
string when that string is unrecognized. -/
theorem normalize_shape (v : PyVal) (s : String)
    (h : _normalize_risk_level v = some s) :
    s ∈ ["L", "M", "H", "EH"] ∨
    ∃ raw, _coerce_to_string v = some raw ∧ s = raw ∧
      riskWordMapping.find? (fun p => p.1 == pyUpper raw) = none ∧
      riskNumericMap.find? (fun p => p.1 == raw) = none ∧
      pyUpper raw ∉ ["EH", "H", "M", "L"] := by
  unfold _normalize_risk_level at h
  cases hc : _coerce_to_string v with
  | none => rw [hc] at h; cases h
  | some raw =>
    rw [hc] at h
    rcases normCases raw s h with hm | ⟨hs, hw, hn, hcan⟩
    · exact Or.inl hm
    · exact Or.inr ⟨raw, rfl, hs, hw, hn, hcan⟩

/-- Every row of the structured path carries normalizer outputs in its risk
fields. -/
theorem xfaRowsGo_fields :
    ∀ (entries : List PyVal) (last : Option String) (row : SubtaskRow),
      row ∈ xfaRowsGo entries last →
      (∃ v, row.initial_risk_level = _normalize_risk_level v) ∧
      (∃ v, row.residual_risk_level = _normalize_risk_level v) := by
  intro entries
  induction entries with
  | nil => intro last row h; cases h
  | cons e rest ih =>
    intro last row h
    rw [xfaRowsGo] at h
    by_cases hd : e.isDict = true
    · rw [if_pos hd] at h
      rcases List.mem_cons.mp h with hrow | hrow
      · refine ⟨⟨e.get "InitialRiskLevel", ?_⟩, ⟨xfaResidualValue e, ?_⟩⟩ <;>
          (rw [hrow]; rfl)
      · exact ih _ row hrow
    · rw [if_neg hd] at h
      exact ih last row h

/-- The record of the structured path: risk fields are normalizer outputs,
and the overall level has the claimed shape. -/
theorem parse_dd2977_xfa_shape (payload? : Option PyVal) (rec : DD2977Record)
    (h : parse_dd2977_xfa payload? = some rec) :
    (∀ row ∈ rec.subtasks,
      (∃ v, row.initial_risk_level = _normalize_risk_level v) ∧
      (∃ v, row.residual_risk_level = _normalize_risk_level v)) ∧
    xfaOverallShape rec.overall_residual_risk_level := by
  cases payload? with
  | none => cases h
  | some payload =>
    simp only [parse_dd2977_xfa] at h
    by_cases h1 : (!(payload.truthy && payload.isDict)) = true
    · rw [if_pos h1] at h; cases h
    · rw [if_neg h1] at h
      by_cases h2 : (!(payload.get "form1").isDict) = true
      · rw [if_pos h2] at h; cases h
      · rw [if_neg h2] at h
        by_cases h3 :
            (!(((payload.get "form1").get "Page1").pyOr (PyVal.vdict [])).isDict) = true
        · rw [if_pos h3] at h; cases h
        · rw [if_neg h3] at h
          cases hm : (if pyTruthyOS (xfaOverallFromTen
                (((payload.get "form1").get "Page1").pyOr (PyVal.vdict []))) then
              Except.ok (xfaOverallFromTen
                (((payload.get "form1").get "Page1").pyOr (PyVal.vdict [])))
            else
              calculate_overall_risk
                ((xfaRowsGo (xfaRowsPayload
                    (((((payload.get "form1").get "Page1").pyOr (PyVal.vdict [])).get
                      "Part4thru9").pyOr (PyVal.vdict []))) none).map
                  (·.residual_risk_level))) with
          | error e =>
            rw [hm] at h
            have h' : (none : Option DD2977Record) = some rec := h
            cases h'
          | ok v =>
            rw [hm] at h
            have hrec := Option.some.inj h
            subst hrec
            refine ⟨fun row hr => xfaRowsGo_fields _ _ row hr, ?_⟩
            show xfaOverallShape v
            by_cases ht : pyTruthyOS (xfaOverallFromTen
                (((payload.get "form1").get "Page1").pyOr (PyVal.vdict []))) = true
            · rw [if_pos ht] at hm
              rw [← Except.ok.inj hm]
              exact xfaTen_xfaShape _
            · rw [if_neg ht] at hm
              exact calcOk_xfaShape _ v hm

/-- The classifier only ever stores stripped lines accepted by the
risk-token test in its two risk fields. -/
theorem classifyGo_inv :
    ∀ (ls : List String) (sec : RowSec) (ff : Bool) (acc : ClassifyRes),
      riskFieldInv acc.initial_risk → riskFieldInv acc.residual_risk →
      riskFieldInv (classifyGo ls sec ff acc).initial_risk ∧
        riskFieldInv (classifyGo ls sec ff acc).residual_risk := by
  intro ls
  induction ls with
  | nil => intro sec ff acc h1 h2; exact ⟨h1, h2⟩
  | cons l0 rest ih =>
    intro sec ff acc h1 h2
    simp only [classifyGo]
    by_cases he : pyStrip l0 = ""
    · rw [if_pos he]
      exact ih sec ff acc h1 h2
    · rw [if_neg he]
      by_cases hr : isRiskTokenLine (pyStrip l0) = true
      · rw [if_pos hr]
        cases ff with
        | false =>
          exact ih .controls true { acc with initial_risk := some (pyStrip l0) }
            (Or.inr ⟨pyStrip l0, rfl, hr⟩) h2
        | true =>
          exact ⟨h1, Or.inr ⟨pyStrip l0, rfl, hr⟩⟩
      · rw [if_neg hr]
        by_cases hhow : pyStartsWith (pyStrip l0) "How:" = true
        · rw [if_pos hhow]
          exact ih .how ff _ h1 h2
        · rw [if_neg hhow]
          by_cases hwho : pyStartsWith (pyStrip l0) "Who:" = true
          · rw [if_pos hwho]
            exact ih .who ff _ h1 h2
          · rw [if_neg hwho]
            by_cases hdash : (pyStartsWith (pyStrip l0) "-" &&
                (sec == RowSec.controls || sec == RowSec.subtask)) = true
            · rw [if_pos hdash]
              exact ih .controls ff _ h1 h2
            · rw [if_neg hdash]
              cases sec with
              | subtask => exact ih .subtask ff _ h1 h2
              | controls => exact ih .controls ff _ h1 h2
              | how => exact ih .how ff _ h1 h2
              | who => exact ih .who ff _ h1 h2

/-- A row built by the heuristic core has risk-token risk fields. -/
theorem heurRowCore_inv (prev : Option String) (content : String) (row : SubtaskRow)
    (h : heurRowCore prev content = some row) :
    riskFieldInv row.initial_risk_level ∧ riskFieldInv row.residual_risk_level := by
  simp only [heurRowCore] at h
  by_cases h1 : pyStrip content = ""
  · rw [if_pos h1] at h; cases h
  · rw [if_neg h1] at h
    by_cases h2 : (((splitNl content).map pyStrip).filter (fun l => l ≠ "")).isEmpty = true
    · rw [if_pos h2] at h; cases h
    · rw [if_neg h2] at h
      have hrow := Option.some.inj h
      have hinv := classifyGo_inv (((splitNl content).map pyStrip).filter (fun l => l ≠ ""))
        .subtask false emptyClassify (Or.inl rfl) (Or.inl rfl)
      constructor
      · rw [← hrow]; exact hinv.1
      · rw [← hrow]; exact hinv.2

/-- The row step only renames; the risk fields keep the invariant. -/
theorem heurRowStep_inv (last : Option String) (content : String) (row : SubtaskRow)
    (h : (heurRowStep last content).1 = some row) :
    riskFieldInv row.initial_risk_level ∧ riskFieldInv row.residual_risk_level := by
  unfold heurRowStep at h
  cases hc : heurRowCore last content with
  | none => rw [hc] at h; cases h
  | some r =>
    rw [hc] at h
    by_cases h1 : nameNonBlank r.name = true
    · have h' : some r = some row := by
        rw [← h]
        show some r = (if nameNonBlank r.name then
            ((some r, some (pyStrip (r.name.getD ""))) : Option SubtaskRow × Option String)
          else if pyTruthyOS last then (some { r with name := last }, last)
          else (some r, last)).1
        rw [if_pos h1]
      rw [← Option.some.inj h']
      exact heurRowCore_inv last content r hc
    · by_cases h2 : pyTruthyOS last = true
      · have h' : some { r with name := last } = some row := by
          rw [← h]
          show some { r with name := last } = (if nameNonBlank r.name then
              ((some r, some (pyStrip (r.name.getD ""))) : Option SubtaskRow × Option String)
            else if pyTruthyOS last then (some { r with name := last }, last)
            else (some r, last)).1
          rw [if_neg h1, if_pos h2]
        rw [← Option.some.inj h']
        exact heurRowCore_inv last content r hc
      · have h' : some r = some row := by
          rw [← h]
          show some r = (if nameNonBlank r.name then
              ((some r, some (pyStrip (r.name.getD ""))) : Option SubtaskRow × Option String)
            else if pyTruthyOS last then (some { r with name := last }, last)
            else (some r, last)).1
          rw [if_neg h1, if_neg h2]
        rw [← Option.some.inj h']
        exact heurRowCore_inv last content r hc

/-- Every row of the heuristic row loop satisfies the invariant. -/
theorem heurRowsGo_inv :
    ∀ (contents : List String) (last : Option String) (row : SubtaskRow),
      row ∈ heurRowsGo last contents →
      riskFieldInv row.initial_risk_level ∧ riskFieldInv row.residual_risk_level := by
  intro contents
  induction contents with
  | nil => intro last row h; cases h
  | cons content rest ih =>
    intro last row h
    rw [heurRowsGo] at h
    cases hs : heurRowStep last content with
    | mk o l' =>
      rw [hs] at h
      cases o with
      | some r =>
        rcases List.mem_cons.mp h with hrow | hrow
        · subst hrow
          exact heurRowStep_inv last content row (by rw [hs])
        · exact ih l' row hrow
      | none => exact ih l' row h

/-- Every row extracted by the heuristic path satisfies the invariant. -/
theorem extract_subtask_rows_inv (text : String) (row : SubtaskRow)
    (h : row ∈ extract_subtask_rows text) :
    riskFieldInv row.initial_risk_level ∧ riskFieldInv row.residual_risk_level := by
  unfold extract_subtask_rows at h
  cases hds : findDataSection text with
  | none => rw [hds] at h; cases h
  | some ds =>
    rw [hds] at h
    exact heurRowsGo_inv (splitRowContents ds) none row h

/-- A `dropWhile` over elements that all fail the predicate is the
identity. -/
theorem dropWhile_all_false {α : Type} (p : α → Bool) :
    ∀ l : List α, (∀ c ∈ l, p c = false) → l.dropWhile p = l := by
  intro l h
  cases l with
  | nil => rfl
  | cons c cs =>
    rw [List.dropWhile_cons, if_neg (by simp [h c (List.mem_cons_self c cs)])]

/-- A map whose function fixes every element is the identity. -/
theorem map_id_of_fix {α : Type} (f : α → α) :
    ∀ l : List α, (∀ c ∈ l, f c = c) → l.map f = l := by
  intro l
  induction l with
  | nil => intro _; rfl
  | cons c cs ih =>
    intro h
    rw [List.map_cons, h c (List.mem_cons_self c cs),
      ih (fun x hx => h x (List.mem_cons_of_mem c hx))]

/-- A risk token is all M/H/L/E letters or one of the numerals 0-5. -/
theorem riskToken_cases (t : String) (h : isRiskTokenLine t = true) :
    (t.toList ≠ [] ∧ ∀ c ∈ t.toList, c ∈ ['M', 'H', 'L', 'E']) ∨
    t ∈ ["0", "1", "2", "3", "4", "5"] := by
  simp only [isRiskTokenLine] at h
  rw [Bool.and_eq_true, Bool.or_eq_true] at h
  obtain ⟨h1 | h2, _⟩ := h
  · rw [Bool.and_eq_true] at h1
    left
    constructor
    · intro hnil
      rw [hnil] at h1
      simpa using h1.1
    · intro c hc
      simpa using List.all_eq_true.mp h1.2 c hc
  · rw [Bool.and_eq_true] at h2
    right
    have hlen : t.toList.length = 1 := by simpa using h2.1
    have hd : t.toList.headD ' ' ∈ ['0', '1', '2', '3', '4', '5'] := by simpa using h2.2
    cases hl : t.toList with
    | nil => rw [hl] at hlen; simp at hlen
    | cons c cs =>
      rw [hl] at hlen hd
      have hcs : cs = [] := by
        have : cs.length = 0 := by simpa using hlen
        simpa using this
      subst hcs
      have ht : t = String.mk [c] := by rw [← hl]; rfl
      have hc : c ∈ ['0', '1', '2', '3', '4', '5'] := by simpa using hd
      simp only [List.mem_cons, List.not_mem_nil, or_false] at hc
      rcases hc with rfl | rfl | rfl | rfl | rfl | rfl <;> rw [ht] <;> decide

/-- Stripping is the identity on a string with no whitespace character. -/
theorem pyStrip_nonWs (t : String) (hch : ∀ c ∈ t.toList, isPyWs c = false) :
    pyStrip t = t := by
  unfold pyStrip stripList
  rw [dropWhile_all_false _ _ hch,
    dropWhile_all_false _ _ (fun c hc => hch c (List.mem_reverse.mp hc)),
    List.reverse_reverse]
  rfl

/-- M/H/L/E characters are not whitespace. -/
theorem mhle_not_ws (t : String) (hch : ∀ c ∈ t.toList, c ∈ ['M', 'H', 'L', 'E']) :
    ∀ c ∈ t.toList, isPyWs c = false := by
  intro c hc
  have h := hch c hc
  simp only [List.mem_cons, List.not_mem_nil, or_false] at h
  rcases h with rfl | rfl | rfl | rfl <;> decide

/-- Uppercasing is the identity on an all-M/H/L/E string. -/
theorem pyUpper_mhle (t : String) (hch : ∀ c ∈ t.toList, c ∈ ['M', 'H', 'L', 'E']) :
    pyUpper t = t := by
  unfold pyUpper
  rw [map_id_of_fix _ _ (fun c hc => by
    have h := hch c hc
    simp only [List.mem_cons, List.not_mem_nil, or_false] at h
    rcases h with rfl | rfl | rfl | rfl <;> rfl)]
  rfl

/-- An underscore-free list passes the underscore validation. -/
theorem underscoresOK_of_none :
    ∀ (l : List Char), (∀ c ∈ l, (c == '_') = false) →
      ∀ prev, underscoresOKAux prev l = true := by
  intro l
  induction l with
  | nil => intro _ prev; rfl
  | cons c cs ih =>
    intro h prev
    show underscoresOKAux prev (c :: cs) = true
    unfold underscoresOKAux
    rw [if_neg (by simp [h c (List.mem_cons_self c cs)])]
    exact ih (fun x hx => h x (List.mem_cons_of_mem c hx)) (some c)

/-- `float()` rejects a non-empty all-M/H/L/E string. -/
theorem pyFloat_mhle_none (l : List Char) (hne : l ≠ [])
    (hch : ∀ c ∈ l, c ∈ ['M', 'H', 'L', 'E']) :
    pyFloat? (String.mk l) = none := by
  have hnous : ∀ c ∈ l, (c == '_') = false := by
    intro c hc
    have h := hch c hc
    simp only [List.mem_cons, List.not_mem_nil, or_false] at h
    rcases h with rfl | rfl | rfl | rfl <;> rfl
  have hstrip : stripList l = l := by
    have hnws : ∀ c ∈ l, isPyWs c = false := by
      intro c hc
      have h := hch c hc
      simp only [List.mem_cons, List.not_mem_nil, or_false] at h
      rcases h with rfl | rfl | rfl | rfl <;> decide
    unfold stripList
    rw [dropWhile_all_false _ _ hnws,
      dropWhile_all_false _ _ (fun c hc => hnws c (List.mem_reverse.mp hc)),
      List.reverse_reverse]
  have hfil : l.filter (fun c => !(c == '_')) = l := by
    apply List.filter_eq_self.mpr
    intro c hc
    simp [hnous c hc]
  have hgoal : pyFloat? (String.mk l) =
      (if underscoresOKAux none (stripList l) then
        pyFloatCore ((stripList l).filter (fun c => !(c == '_'))) else none) := rfl
  rw [hgoal, hstrip, if_pos (underscoresOK_of_none l hnous none), hfil]
  cases l with
  | nil => exact absurd rfl hne
  | cons c cs =>
    have h := hch c (List.mem_cons_self c cs)
    simp only [List.mem_cons, List.not_mem_nil, or_false] at h
    rcases h with rfl | rfl | rfl | rfl <;> rfl

/-- An element of `cleanRisks` is the stripped-uppercased form of a present
value. -/
theorem cleanRisks_mem (rs : List (Option String)) (s : String)
    (h : s ∈ cleanRisks rs) :
    ∃ t, some t ∈ rs ∧ s = pyUpper (pyStrip t) := by
  unfold cleanRisks at h
  obtain ⟨o, ho, he⟩ := List.mem_filterMap.mp h
  cases o with
  | none =>
    have he' : (none : Option String) = some s := he
    cases he'
  | some t =>
    by_cases hg : t ≠ "" ∧ pyStrip t ≠ ""
    · have he2 : (if t ≠ "" ∧ pyStrip t ≠ "" then some (pyUpper (pyStrip t))
          else none) = some s := he
      rw [if_pos hg] at he2
      exact ⟨t, ho, (Option.some.inj he2).symm⟩
    · have he2 : (if t ≠ "" ∧ pyStrip t ≠ "" then some (pyUpper (pyStrip t))
          else none) = some s := he
      rw [if_neg hg] at he2
      cases he2

unseal Rat.add Rat.mul Rat.inv Rat.sub in
/-- When every residual field holds nothing or a risk token — as on the
heuristic path — the aggregate never reaches the raising `int()` calls:
tokens parse to finite floats or not at all. -/
theorem calc_riskTokens_no_error (rs : List (Option String))
    (h : ∀ o ∈ rs, riskFieldInv o) :
    calculate_overall_risk rs ≠ Except.error () := by
  intro herr
  simp only [calculate_overall_risk] at herr
  by_cases he : rs.isEmpty = true
  · rw [if_pos he] at herr
    cases herr
  · rw [if_neg he] at herr
    cases hcat : (cleanRisks rs).filter isCanonicalRisk with
    | cons c cs =>
      rw [hcat] at herr
      have herr' : Except.ok (ε := Unit) (some (pyMaxBy riskOrderOf c cs)) =
          .error () := herr
      cases herr'
    | nil =>
      rw [hcat] at herr
      cases hnum : (cleanRisks rs).filterMap pyFloat? with
      | nil =>
        rw [hnum] at herr
        have herr' : Except.ok (ε := Unit) (none : Option String) = .error () := herr
        cases herr'
      | cons f fs =>
        rw [hnum] at herr
        have hfin : ∀ x ∈ f :: fs, ∃ q, x = PyFloat.finite q := by
          intro x hx
          have hx' : x ∈ (cleanRisks rs).filterMap pyFloat? := by
            rw [hnum]; exact hx
          obtain ⟨s, hs, hps⟩ := List.mem_filterMap.mp hx'
          obtain ⟨t, hto, hst⟩ := cleanRisks_mem rs s hs
          rcases h (some t) hto with hnone | ⟨t', ht', htok⟩
          · cases hnone
          · obtain rfl : t = t' := Option.some.inj ht'
            rcases riskToken_cases t htok with ⟨hne, hch⟩ | hdig
            · exfalso
              have hsid : s = t := by
                rw [hst, pyStrip_nonWs t (mhle_not_ws t hch), pyUpper_mhle t hch]
              have hnone2 : pyFloat? t = none := by
                have := pyFloat_mhle_none t.toList hne hch
                exact this
              rw [hsid, hnone2] at hps
              cases hps
            · simp only [List.mem_cons, List.not_mem_nil, or_false] at hdig
              rcases hdig with rfl | rfl | rfl | rfl | rfl | rfl
              · rw [hst, show pyFloat? (pyUpper (pyStrip "0")) = some (PyFloat.finite 0)
                  from by decide] at hps
                exact ⟨0, (Option.some.inj hps).symm⟩
              · rw [hst, show pyFloat? (pyUpper (pyStrip "1")) = some (PyFloat.finite 1)
                  from by decide] at hps
                exact ⟨1, (Option.some.inj hps).symm⟩
              · rw [hst, show pyFloat? (pyUpper (pyStrip "2")) = some (PyFloat.finite 2)
                  from by decide] at hps
                exact ⟨2, (Option.some.inj hps).symm⟩
              · rw [hst, show pyFloat? (pyUpper (pyStrip "3")) = some (PyFloat.finite 3)
                  from by decide] at hps
                exact ⟨3, (Option.some.inj hps).symm⟩
              · rw [hst, show pyFloat? (pyUpper (pyStrip "4")) = some (PyFloat.finite 4)
                  from by decide] at hps
                exact ⟨4, (Option.some.inj hps).symm⟩
              · rw [hst, show pyFloat? (pyUpper (pyStrip "5")) = some (PyFloat.finite 5)
                  from by decide] at hps
                exact ⟨5, (Option.some.inj hps).symm⟩
        obtain ⟨q, hq⟩ := pyFloatMaxAux_finite fs f hfin
        have h2 : (match pyFloatMaxAux f fs with
            | PyFloat.finite q => Except.ok (some (toString (pyTruncInt q)))
            | PyFloat.inf _ => Except.error ()
            | PyFloat.nan => (Except.error () : Except Unit (Option String))) =
            .error () := herr
        rw [hq] at h2
        have h3 : Except.ok (ε := Unit) (some (toString (pyTruncInt q))) = .error () := h2
        cases h3

/-- The heuristic overall choice (marked option, else aggregate) has the
claimed shape. -/
theorem heurChoice_shape (text : String) (rs : List (Option String)) :
    overallShape (if pyTruthyOS (overallSelectedOption text) then overallSelectedOption text
      else match calculate_overall_risk rs with
        | .ok v => v
        | .error _ => none) := by
  by_cases ht : pyTruthyOS (overallSelectedOption text) = true
  · rw [if_pos ht]
    cases ho : overallSelectedOption text with
    | none => exact Or.inl rfl
    | some s =>
      rcases overallSelectedOption_shape text s ho with hm | hw
      · exact Or.inr ⟨s, rfl, Or.inr (Or.inl hm)⟩
      · exact Or.inr ⟨s, rfl, Or.inr (Or.inr (Or.inl hw))⟩
  · rw [if_neg ht]
    exact calcOverallShapeO rs

/-- The narrative override maps into the full-word levels, else keeps a
value of the claimed shape. -/
theorem narrWrap_shape (narrative : String) (o : Option String) (ho : overallShape o) :
    overallShape (if narrative ≠ "" then
        (match narrativeFind narrative with
         | some w =>
           (match narrativeRiskMap.find? (fun p => p.1 == pyUpper (pyStrip w)) with
            | some pr => some pr.2
            | none => o)
         | none => o)
      else o) := by
  by_cases hn : narrative ≠ ""
  · rw [if_pos hn]
    cases hf : narrativeFind narrative with
    | none => exact ho
    | some w =>
      show overallShape
        (match narrativeRiskMap.find? (fun p => p.1 == pyUpper (pyStrip w)) with
         | some pr => some pr.2
         | none => o)
      cases hm : narrativeRiskMap.find? (fun p => p.1 == pyUpper (pyStrip w)) with
      | none => exact ho
      | some pr =>
        refine Or.inr ⟨pr.2, rfl, Or.inr (Or.inl ?_)⟩
        have hall : ∀ q ∈ narrativeRiskMap, q.2 ∈ riskOptionsFull := by decide
        exact hall pr (List.mem_of_find?_eq_some hm)
  · rw [if_neg hn]
    exact ho

/-- The heuristic record's overall residual risk level has the claimed
shape. -/
theorem heurOverall_shape (text : String) :
    overallShape ((parse_dd2977 text).overall_residual_risk_level) :=
  narrWrap_shape ((overall_supervision_plan_of text).getD "")
    (if pyTruthyOS (overallSelectedOption text) then overallSelectedOption text
     else match calculate_overall_risk
         ((extract_subtask_rows text).map (fun r : SubtaskRow => r.residual_risk_level)) with
       | .ok v => v
       | .error _ => none)
    (heurChoice_shape text
      ((extract_subtask_rows text).map (fun r : SubtaskRow => r.residual_risk_level)))

/-- C1 amended: the two paths treat risk fields differently.  The risk
normalizer returns null, a canonical code, or — exactly when the coerced
(trimmed) raw string is recognized by none of its three tables — that raw
string unchanged; the structured path's subtask risk fields are normalizer
outputs, and its overall level is null, a canonical code, or a decimal
integer string.  The heuristic path's subtask risk
fields are never normalized: they are null or a raw matched risk token
(one to three characters among M/H/L/E, or a single digit 0-5 — so the
recognized numeral "0" is stored as "0", not "L"); its overall level is
null, a canonical code, a full-word level (possibly with an inner
whitespace run in EXTREMELY HIGH), or a decimal integer string. -/
theorem claim_C1_amended :
    (∀ (v : PyVal) (s : String), _normalize_risk_level v = some s →
      s ∈ ["L", "M", "H", "EH"] ∨
      ∃ raw, _coerce_to_string v = some raw ∧ s = raw ∧
        riskWordMapping.find? (fun p => p.1 == pyUpper raw) = none ∧
        riskNumericMap.find? (fun p => p.1 == raw) = none ∧
        pyUpper raw ∉ ["EH", "H", "M", "L"])
  ∧ (∀ (payload? : Option PyVal) (rec : DD2977Record),
      parse_dd2977_xfa payload? = some rec →
      (∀ row ∈ rec.subtasks,
        (∃ v, row.initial_risk_level = _normalize_risk_level v) ∧
        (∃ v, row.residual_risk_level = _normalize_risk_level v)) ∧
      xfaOverallShape rec.overall_residual_risk_level)
  ∧ (∀ text : String, ∀ row ∈ (parse_dd2977 text).subtasks,
      riskFieldInv row.initial_risk_level ∧ riskFieldInv row.residual_risk_level)
  ∧ (∀ text : String, overallShape ((parse_dd2977 text).overall_residual_risk_level)) := by
  refine ⟨normalize_shape, parse_dd2977_xfa_shape, ?_, heurOverall_shape⟩
  intro text row h
  exact extract_subtask_rows_inv text row h

/-- C1 amended witness. -/
theorem claim_C1_amended_witness :
    "purple" ∈ ["L", "M", "H", "EH"] ∨
    ∃ raw, _coerce_to_string (PyVal.vstr "purple") = some raw ∧ "purple" = raw ∧
      riskWordMapping.find? (fun p => p.1 == pyUpper raw) = none ∧
      riskNumericMap.find? (fun p => p.1 == raw) = none ∧
      pyUpper raw ∉ ["EH", "H", "M", "L"] :=
  claim_C1_amended.1 (PyVal.vstr "purple") "purple" (by decide)

end ParseDraw
